import Mathlib

/-!
Verification development for the `tortoise-march` schema-migration generator.

The Python data model and the diffing/operation engine are shallowly embedded:
Python dicts become association lists with Python's update-in-place semantics,
option values become a closed `Value` type (None / bool / int / str — the
values that actually flow through the schema pipeline), floats become exact
rationals, and fallible code returns `Option`/`Except`.
-/

namespace TortoiseMarch

/-- A Python value as it appears in field-option dictionaries. -/
inductive Value where
  | vNone
  | vBool (b : Bool)
  | vInt (n : Int)
  | vStr (s : String)
deriving DecidableEq, Repr

open Value

/-- Python truthiness of a `Value` (used by `or`-defaulting and `if opts.get(...)`). -/
def Value.truthy : Value → Bool
  | vNone => false
  | vBool b => b
  | vInt n => n != 0
  | vStr s => s != ""

/-- `x or ""`-style defaulting followed by use as a string: non-string or falsy
values collapse to `""` (the only states the Python code can run on without
crashing are those where the value is a string or None). -/
def Value.strOrEmpty : Value → String
  | vStr s => s
  | _ => ""

/-- `str.lower()` (ASCII, structural recursion so that concrete runs reduce
in the kernel). -/
def pyLower (s : String) : String := ⟨s.data.map Char.toLower⟩

/-- `str.strip()` on the whitespace-collapsed names. -/
def pyTrim (s : String) : String :=
  ⟨((s.data.dropWhile Char.isWhitespace).reverse.dropWhile Char.isWhitespace).reverse⟩

/-- `str.endswith(suffix)`. -/
def pyEndsWith (s suffix : String) : Bool :=
  suffix.data.isSuffixOf s.data

/-- `str[:-n]` (drop the last `n` characters). -/
def pyDropRight (s : String) (n : Nat) : String :=
  ⟨s.data.take (s.data.length - n)⟩

deriving instance DecidableEq for Except

/-- Rational addition routed through `mkRat` so that concrete score
computations reduce in the kernel (Mathlib's `Rat.add`/`Rat.mul` carry
`@[irreducible]`); the value is the exact sum. -/
def qadd (a b : ℚ) : ℚ := mkRat (a.num * b.den + b.num * a.den) (a.den * b.den)

/-- Rational multiplication routed through `mkRat` (exact product). -/
def qmul (a b : ℚ) : ℚ := mkRat (a.num * b.num) (a.den * b.den)

/-- Code-point comparison of character lists (Python string `<`), kept
structural so concrete sorts reduce in the kernel. -/
def charsLtB : List Char → List Char → Bool
  | [], [] => false
  | [], _ :: _ => true
  | _ :: _, [] => false
  | a :: as, b :: bs =>
      if a.toNat < b.toNat then true
      else if b.toNat < a.toNat then false
      else charsLtB as bs

/-- Python string `<`. -/
def strLtB (a b : String) : Bool := charsLtB a.data b.data

/-- Python string `<=` (total order). -/
def strLeB (a b : String) : Bool := !(strLtB b a)

/-- Lexicographic `<` on lists of strings (Python tuple comparison). -/
def listStrLtB : List String → List String → Bool
  | [], [] => false
  | [], _ :: _ => true
  | _ :: _, [] => false
  | a :: as, b :: bs =>
      if strLtB a b then true
      else if strLtB b a then false
      else listStrLtB as bs

/-- An option dictionary: an association list with Python-dict semantics
(assignment updates in place or appends; deletion removes the key). -/
abbrev Dict := List (String × Value)

namespace Dict

/-- `d.get(k)` returning `none` when the key is absent (first match). -/
def get? : Dict → String → Option Value
  | [], _ => none
  | (k', v) :: rest, k => if k' == k then some v else get? rest k

/-- `d[k] = v`: update in place if the key exists, else append. -/
def set (d : Dict) (k : String) (v : Value) : Dict :=
  match d with
  | [] => [(k, v)]
  | (k', v') :: rest => if k' == k then (k, v) :: rest else (k', v') :: set rest k v

/-- `d.pop(k, None)`: drop the key if present. -/
def pop (d : Dict) (k : String) : Dict :=
  d.filter (fun p => p.1 != k)

/-- `d.setdefault(k, v)`. -/
def setdefault (d : Dict) (k : String) (v : Value) : Dict :=
  match d.get? k with
  | some _ => d
  | none => d ++ [(k, v)]

/-- Key list. -/
def keys (d : Dict) : List String := d.map Prod.fst

/-- Key membership, `k in d`. -/
def hasKey (d : Dict) (k : String) : Bool := (d.get? k).isSome

/-- Insertion sort of the entries by key (for Python's order-insensitive
dict equality). -/
def canon (d : Dict) : Dict :=
  d.insertionSort (fun p q => strLeB p.1 q.1 = true)

/-- Python dict equality: same keys, same values, order irrelevant.  On the
duplicate-free dicts the pipeline builds this coincides with comparing the
key-sorted entry lists. -/
def beq (d e : Dict) : Bool := canon d == canon e

end Dict

/-! ### model_state.py -/

/-- Snapshot of a field's schema-relevant properties (`FieldState` dataclass).
The two identity attributes are strings; the sixteen option attributes are
arbitrary Python values with the dataclass defaults below. -/
structure FieldState where
  name : String
  field_type : String
  null : Value := vBool false
  default : Value := vNone
  unique : Value := vBool false
  index : Value := vBool false
  primary_key : Value := vBool false
  db_column : Value := vNone
  max_length : Value := vNone
  max_digits : Value := vNone
  decimal_places : Value := vNone
  auto_now : Value := vBool false
  auto_now_add : Value := vBool false
  related_table : Value := vNone
  related_model : Value := vNone
  to_field : Value := vNone
  on_delete : Value := vNone
  referenced_type : Value := vNone
deriving DecidableEq, Repr

/-- The option keys of `FieldState` in dataclass declaration order
(`asdict` minus `name`/`field_type`). -/
def fieldOptionKeys : List String :=
  ["null", "default", "unique", "index", "primary_key", "db_column",
   "max_length", "max_digits", "decimal_places", "auto_now", "auto_now_add",
   "related_table", "related_model", "to_field", "on_delete", "referenced_type"]

/-- `FieldState.options`: the full option dict, in dataclass order. -/
def FieldState.options (fs : FieldState) : Dict :=
  [("null", fs.null), ("default", fs.default), ("unique", fs.unique),
   ("index", fs.index), ("primary_key", fs.primary_key),
   ("db_column", fs.db_column), ("max_length", fs.max_length),
   ("max_digits", fs.max_digits), ("decimal_places", fs.decimal_places),
   ("auto_now", fs.auto_now), ("auto_now_add", fs.auto_now_add),
   ("related_table", fs.related_table), ("related_model", fs.related_model),
   ("to_field", fs.to_field), ("on_delete", fs.on_delete),
   ("referenced_type", fs.referenced_type)]

/-- `FieldState(name=n, field_type=t, **opts)`: keyword construction from an
option dict.  Fails (Python `TypeError`) when the dict holds a key that is not
a `FieldState` attribute; absent keys take the dataclass defaults. -/
def fieldStateOfOpts (n ft : String) (opts : Dict) : Option FieldState :=
  if opts.keys.all (fun k => fieldOptionKeys.contains k) then
    some
      { name := n
        field_type := ft
        null := (opts.get? "null").getD (vBool false)
        default := (opts.get? "default").getD vNone
        unique := (opts.get? "unique").getD (vBool false)
        index := (opts.get? "index").getD (vBool false)
        primary_key := (opts.get? "primary_key").getD (vBool false)
        db_column := (opts.get? "db_column").getD vNone
        max_length := (opts.get? "max_length").getD vNone
        max_digits := (opts.get? "max_digits").getD vNone
        decimal_places := (opts.get? "decimal_places").getD vNone
        auto_now := (opts.get? "auto_now").getD (vBool false)
        auto_now_add := (opts.get? "auto_now_add").getD (vBool false)
        related_table := (opts.get? "related_table").getD vNone
        related_model := (opts.get? "related_model").getD vNone
        to_field := (opts.get? "to_field").getD vNone
        on_delete := (opts.get? "on_delete").getD vNone
        referenced_type := (opts.get? "referenced_type").getD vNone }
  else
    none

/-- Table-level index declarations: `(ordered column tuple, is-unique)` pairs,
the only structured entry of `ModelState.meta`. -/
abbrev IndexDecl := List String × Bool

/-- One table's schema (`ModelState` dataclass).  `meta` is `none` for Python
`None` and `some l` for `{"indexes": l}` (the only structured entry the code
reads). -/
structure ModelState where
  name : String
  db_table : String
  field_states : List (String × FieldState)
  meta : Option (List IndexDecl) := none
deriving DecidableEq, Repr

/-- `(ms.meta or {}).get("indexes", [])`. -/
def ModelState.metaIndexes (ms : ModelState) : List IndexDecl :=
  ms.meta.getD []

/-- The complete schema (`ProjectState` dataclass): models keyed by logical
name, with Python-dict semantics on the association list. -/
structure ProjectState where
  model_states : List (String × ModelState) := []
deriving DecidableEq, Repr

/-- Association-list lookup (first match), shared by the model/field maps. -/
def alistGet? {α : Type} : List (String × α) → String → Option α
  | [], _ => none
  | (k', v) :: rest, k => if k' == k then some v else alistGet? rest k

/-- Python dict assignment on an association list. -/
def alistSet {α : Type} (l : List (String × α)) (k : String) (v : α) :
    List (String × α) :=
  match l with
  | [] => [(k, v)]
  | (k', v') :: rest => if k' == k then (k, v) :: rest else (k', v') :: alistSet rest k v

/-- Python dict `pop` on an association list. -/
def alistPop {α : Type} (l : List (String × α)) (k : String) : List (String × α) :=
  l.filter (fun p => p.1 != k)

/-- Key list of an association list. -/
def alistKeys {α : Type} (l : List (String × α)) : List String := l.map Prod.fst

/-! ### schema_filtering.py -/

/-- `FK_TYPES`. -/
def FK_TYPES : List String := ["ForeignKeyFieldInstance", "OneToOneFieldInstance"]

/-- `NON_SCHEMA_FIELD_TYPES`. -/
def NON_SCHEMA_FIELD_TYPES : List String :=
  ["BackwardFKRelation", "BackwardOneToOneRelation", "BackwardManyToManyRelation",
   "ManyToManyFieldInstance", "ManyToManyRelation"]

/-- `is_schema_field_type`. -/
def is_schema_field_type (field_type : String) : Bool :=
  !(NON_SCHEMA_FIELD_TYPES.contains field_type)

/-- `compact_opts_for_code`: drop `None` values and `False` values (except for
the `default` key).  Within the embedded `Value` domain every value is already
literal-safe, so `_value_for_migration_code` is the identity here. -/
def compact_opts_for_code (opts : Dict) : Dict :=
  opts.filter (fun p =>
    !(p.2 == vNone) && !(p.2 == vBool false && p.1 != "default"))

/-- `column_sort_key`: the `(group, sub, column)` sort key for `CreateModel`
column ordering. -/
def column_sort_key (fs : FieldState) : Nat × Nat × String :=
  let col := pyLower (if fs.db_column.truthy then fs.db_column.strOrEmpty else fs.name)
  if fs.primary_key.truthy then (0, 0, col)
  else if fs.name == "created_at" then (1, 0, col)
  else if fs.name == "updated_at" then (1, 1, col)
  else if fs.name == "deleted_at" then (1, 2, col)
  else if fs.name == "creator" || fs.name == "created_by" then (2, 0, col)
  else if fs.name == "updater" || fs.name == "updated_by" then (2, 1, col)
  else if fs.name == "deleter" || fs.name == "deleted_by" then (2, 2, col)
  else if FK_TYPES.contains fs.field_type then (4, 0, col)
  else (3, 0, col)

/-- `≤` on column sort keys (Python tuple comparison). -/
def sortKeyLe (a b : Nat × Nat × String) : Prop :=
  a.1 < b.1 ∨ (a.1 = b.1 ∧ (a.2.1 < b.2.1 ∨ (a.2.1 = b.2.1 ∧ a.2.2 ≤ b.2.2)))

instance : DecidableRel sortKeyLe := by
  intro a b
  unfold sortKeyLe
  infer_instance

/-! ### operations.py -/

/-- `_lc`: normalized key for `field_states` lookup. -/
def lc (name : String) : String := pyLower name

/-- `default_index_name`. -/
def default_index_name (db_table : String) (columns : List String) (unique : Bool) :
    String :=
  let cols := String.intercalate "_" (columns.map pyLower)
  let suffix := if unique then "uniq" else "idx"
  pyLower db_table ++ "_" ++ cols ++ "_" ++ suffix

/-- The closed set of schema operations.  `RunPython`'s callables are not
representable; its `mutate_state` is a no-op, which is all the claims touch. -/
inductive Operation where
  | CreateModel (name db_table : String) (fields : List (String × String × Dict))
  | RenameModel (old_name new_name old_db_table new_db_table : String)
  | RemoveModel (name db_table : String)
  | AddField (model_name db_table field_name field_type : String) (options : Dict)
  | RemoveField (model_name db_table field_name : String) (db_column : Option String)
  | AlterField (model_name db_table field_name : String)
      (old_options new_options : Dict) (new_name : Option String)
  | RenameField (model_name db_table old_name new_name : String)
      (old_db_column new_db_column : Option String)
  | CreateIndex (model_name db_table : String) (columns : List String)
      (unique : Bool) (name : String)
  | RemoveIndex (model_name db_table name : String)
      (columns : Option (List String)) (unique : Bool)
  | RunPython
deriving DecidableEq, Repr

/-- `CreateModel.from_model_state`: filter out non-schema fields, sort by the
human-friendly column key (Python's stable sort), compact the options. -/
def CreateModel.from_model_state (ms : ModelState) : Operation :=
  let field_list := (ms.field_states.map Prod.snd).filter
    (fun fs => is_schema_field_type fs.field_type)
  let sorted := field_list.insertionSort
    (fun f g => sortKeyLe (column_sort_key f) (column_sort_key g))
  Operation.CreateModel ms.name ms.db_table
    (sorted.map (fun fs => (fs.name, fs.field_type, compact_opts_for_code fs.options)))

/-- Build the `field_states` dict of `CreateModel.mutate_state`; fails on a
field option dict with an unknown key (Python `TypeError`). -/
def buildFieldStates (fields : List (String × String × Dict)) :
    Option (List (String × FieldState)) :=
  fields.foldlM
    (fun acc p =>
      match fieldStateOfOpts p.1 p.2.1 p.2.2 with
      | some fs => some (alistSet acc (lc p.1) fs)
      | none => none)
    []

/-- The merge loop of `AlterField.mutate_state`: overlay the keys of
`new_options` (except the abstract `"type"` tag) onto the carried-forward
base option set. -/
def mergeAlterOptions (base new_options : Dict) : Dict :=
  new_options.foldl (fun acc q => if q.1 == "type" then acc else acc.set q.1 q.2) base

/-- FK-metadata rewrite of `RenameModel.mutate_state`: repoint
`related_table`/`related_model` labels at the new identity. -/
def rewriteFkLabels (old_name new_name old_db_table new_db_table : String)
    (fs : FieldState) : FieldState :=
  let fs := if fs.related_table == vStr old_db_table then
    { fs with related_table := vStr new_db_table } else fs
  if fs.related_model == vStr old_name then
    { fs with related_model := vStr new_name } else fs

/-- `Operation.mutate_state`: update the in-memory `ProjectState`; `none`
models the Python `KeyError`/`TypeError` paths. -/
def Operation.mutate_state (op : Operation) (state : ProjectState) :
    Option ProjectState :=
  match op with
  | .CreateModel name db_table fields => do
      let fss ← buildFieldStates fields
      let dbt := if db_table != "" then db_table else pyLower name
      some ⟨alistSet state.model_states name
        { name := name, db_table := dbt, field_states := fss }⟩
  | .RenameModel old_name new_name old_db_table new_db_table => do
      let ms ← alistGet? state.model_states old_name
      let states := alistPop state.model_states old_name
      let states := alistSet states new_name
        { name := new_name, db_table := new_db_table,
          field_states := ms.field_states }
      some ⟨states.map (fun p =>
        (p.1, { p.2 with field_states := p.2.field_states.map (fun q =>
          (q.1, rewriteFkLabels old_name new_name old_db_table new_db_table q.2)) }))⟩
  | .RemoveModel name _ =>
      some ⟨alistPop state.model_states name⟩
  | .AddField model_name _ field_name field_type options => do
      let model ← alistGet? state.model_states model_name
      let fs ← fieldStateOfOpts field_name field_type options
      some ⟨alistSet state.model_states model_name
        { model with field_states := alistSet model.field_states (lc field_name) fs }⟩
  | .RemoveField model_name _ field_name _ => do
      let model ← alistGet? state.model_states model_name
      some ⟨alistSet state.model_states model_name
        { model with field_states := alistPop model.field_states (lc field_name) }⟩
  | .AlterField model_name _ field_name old_options new_options new_name => do
      let model ← alistGet? state.model_states model_name
      let src_key := lc field_name
      -- `self.new_name or self.field_name`: empty strings are falsy
      let nn := match new_name with
        | some s => if s == "" then none else some s
        | none => none
      let dst_name := nn.getD field_name
      let dst_key := lc dst_name
      let prev := alistGet? model.field_states src_key
      let tyCands : List Value :=
        [(new_options.get? "type").getD vNone,
         (match prev with | some p => vStr p.field_type | none => vNone),
         (old_options.get? "type").getD vNone]
      let new_type := ((tyCands.find? Value.truthy).getD (vStr "TextField")).strOrEmpty
      let base_opts :=
        match prev with
        | some p => p.options
        | none => old_options.filter (fun q => q.1 != "type")
      let base_opts := mergeAlterOptions base_opts new_options
      let new_fs ← fieldStateOfOpts dst_name new_type base_opts
      let fss := if nn.isSome && (alistGet? model.field_states src_key).isSome
        then alistPop model.field_states src_key else model.field_states
      some ⟨alistSet state.model_states model_name
        { model with field_states := alistSet fss dst_key new_fs }⟩
  | .RenameField model_name _ old_name new_name _ _ => do
      let model ← alistGet? state.model_states model_name
      let old_key := lc old_name
      let fs ← alistGet? model.field_states old_key
      let fss := alistPop model.field_states old_key
      let new_fs ← fieldStateOfOpts new_name fs.field_type fs.options
      some ⟨alistSet state.model_states model_name
        { model with field_states := alistSet fss (lc new_name) new_fs }⟩
  | .CreateIndex model_name _ columns unique _ => do
      let model ← alistGet? state.model_states model_name
      let indexes := model.metaIndexes
      let key : IndexDecl := (columns, unique)
      let indexes := if indexes.contains key then indexes else indexes ++ [key]
      some ⟨alistSet state.model_states model_name { model with meta := some indexes }⟩
  | .RemoveIndex model_name _ _ columns unique => do
      let model ← alistGet? state.model_states model_name
      let target := columns.getD []
      let indexes := model.metaIndexes.filter
        (fun ix => !(ix.1 == target && ix.2 == unique))
      some ⟨alistSet state.model_states model_name { model with meta := some indexes }⟩
  | .RunPython => some state

/-- Fold `mutate_state` over an operation list (the replay interface). -/
def applyOps (ops : List Operation) (state : ProjectState) : Option ProjectState :=
  ops.foldlM (fun st op => op.mutate_state st) state

/-! ### difflib.SequenceMatcher(None, a, b).ratio()

CPython's matcher: positions of each element of `b` (`b2j`, with the autojunk
heuristic for `len(b) >= 200`), the longest-matching-block search with its
two no-junk extension passes, the recursive block decomposition, and
`ratio = 2*M/T` (as an exact rational). -/

namespace Difflib

/-- Append a position to a character's entry (ascending order, as built by
CPython's `enumerate` loop). -/
def addPos (m : List (Char × List Nat)) (c : Char) (j : Nat) : List (Char × List Nat) :=
  match m with
  | [] => [(c, [j])]
  | (c', js) :: rest =>
      if c' == c then (c, js ++ [j]) :: rest else (c', js) :: addPos rest c j

/-- `b2j` before junk handling. -/
def rawB2j (b : List Char) : List (Char × List Nat) :=
  b.enum.foldl (fun m p => addPos m p.2 p.1) []

/-- `b2j` with the autojunk purge: for `len(b) >= 200`, elements occurring
more than `len(b) // 100 + 1` times are dropped from the map. -/
def b2j (b : List Char) : List (Char × List Nat) :=
  let m := rawB2j b
  if b.length ≥ 200 then
    let ntest := b.length / 100 + 1
    m.filter (fun p => decide (p.2.length ≤ ntest))
  else m

/-- Positions of `c` in `b` (empty when absent or junked). -/
def getJs (m : List (Char × List Nat)) (c : Char) : List Nat :=
  match m.find? (fun p => p.1 == c) with
  | some p => p.2
  | none => []

/-- `j2len.get(j, 0)`. -/
def jlen (m : List (Nat × Nat)) (j : Nat) : Nat :=
  ((m.find? (fun p => p.1 == j)).map Prod.snd).getD 0

/-- One row of the longest-match dynamic programming: process the positions
of `a[i]` inside `[blo, bhi)` (CPython's `continue`/`break` pattern),
building the new run-length map and updating the best block. -/
def flmRow (j2len : List (Nat × Nat)) (i : Nat) (js : List Nat) (blo bhi : Nat)
    (best : Nat × Nat × Nat) : List (Nat × Nat) × (Nat × Nat × Nat) :=
  ((js.takeWhile (fun j => j < bhi)).filter (fun j => blo ≤ j)).foldl
    (fun acc j =>
      let k := (if j == 0 then 0 else jlen j2len (j - 1)) + 1
      let best := if acc.2.2.2 < k then (i + 1 - k, j + 1 - k, k) else acc.2
      (acc.1 ++ [(j, k)], best))
    ([], best)

/-- The `for i in range(alo, ahi)` scan of `find_longest_match`. -/
def flmScan (a : List Char) (m : List (Char × List Nat)) (alo ahi blo bhi : Nat) :
    Nat × Nat × Nat :=
  ((List.range' alo (ahi - alo)).foldl
    (fun acc i =>
      flmRow acc.1 i (getJs m (a.getD i ' ')) blo bhi acc.2)
    (([] : List (Nat × Nat)), (alo, blo, 0))).2

/-- Leftward no-junk extension of the best block (the junk set is empty for
`SequenceMatcher(None, _, _)`). -/
def extendLo (a b : List Char) (alo blo : Nat) :
    Nat → Nat × Nat × Nat → Nat × Nat × Nat
  | 0, best => best
  | fuel + 1, (besti, bestj, bestsize) =>
      if alo < besti ∧ blo < bestj ∧
          a.getD (besti - 1) ' ' == b.getD (bestj - 1) ' ' then
        extendLo a b alo blo fuel (besti - 1, bestj - 1, bestsize + 1)
      else (besti, bestj, bestsize)

/-- Rightward no-junk extension of the best block. -/
def extendHi (a b : List Char) (ahi bhi : Nat) :
    Nat → Nat × Nat × Nat → Nat × Nat × Nat
  | 0, best => best
  | fuel + 1, (besti, bestj, bestsize) =>
      if besti + bestsize < ahi ∧ bestj + bestsize < bhi ∧
          a.getD (besti + bestsize) ' ' == b.getD (bestj + bestsize) ' ' then
        extendHi a b ahi bhi fuel (besti, bestj, bestsize + 1)
      else (besti, bestj, bestsize)

/-- `find_longest_match(alo, ahi, blo, bhi)`. -/
def findLongestMatch (a b : List Char) (m : List (Char × List Nat))
    (alo ahi blo bhi : Nat) : Nat × Nat × Nat :=
  let best := flmScan a m alo ahi blo bhi
  let best := extendLo a b alo blo best.1 best
  extendHi a b ahi bhi ahi best

/-- Total size of the matching blocks of `get_matching_blocks`, by the same
recursive window decomposition (the queue order and the adjacent-block merge
do not change the sum).  The fuel strictly dominates the recursion depth. -/
def matchTotalAux (a b : List Char) (m : List (Char × List Nat)) :
    Nat → Nat × Nat × Nat × Nat → Nat
  | 0, _ => 0
  | fuel + 1, (alo, ahi, blo, bhi) =>
      let r := findLongestMatch a b m alo ahi blo bhi
      if r.2.2 == 0 then 0
      else
        matchTotalAux a b m fuel (alo, r.1, blo, r.2.1) + r.2.2 +
          matchTotalAux a b m fuel (r.1 + r.2.2, ahi, r.2.1 + r.2.2, bhi)

/-- `SequenceMatcher(None, a, b).ratio()` as an exact rational. -/
def ratio (a b : List Char) : ℚ :=
  let la := a.length
  let lb := b.length
  let total := matchTotalAux a b (b2j b) (la + lb + 1) (0, la, 0, lb)
  if la + lb == 0 then 1 else mkRat (2 * total) (la + lb)

end Difflib

/-! ### differ.py — helpers -/

/-- Python `x or y` on option values. -/
def Value.orElse (v w : Value) : Value := if v.truthy then v else w

/-- `_options_with_type`: the option dict plus the abstract type under
`"type"` (`setdefault`; the enum-default normalization is the identity on the
embedded value domain). -/
def options_with_type (fs : FieldState) : Dict :=
  Dict.setdefault fs.options "type" (vStr fs.field_type)

/-- `_options_for_alter`: complete, stable option set for `AlterField`
diffing — always carries `"type"`, strips flags implied by a primary key, and
rehydrates the implicit FK / one-to-one / `CharField` defaults. -/
def options_for_alter (fs : FieldState) : Dict :=
  let opts := Dict.set fs.options "type" (vStr fs.field_type)
  let opts :=
    if ((opts.get? "primary_key").getD vNone).truthy then
      ((opts.pop "unique").pop "index").pop "null"
    else opts
  let opts :=
    if FK_TYPES.contains fs.field_type then
      let opts := opts.set "db_column"
        (Value.orElse ((opts.get? "db_column").getD vNone) (vStr (fs.name ++ "_id")))
      let opts := opts.set "to_field"
        (Value.orElse ((opts.get? "to_field").getD vNone) (vStr "id"))
      let opts := opts.set "on_delete"
        (Value.orElse ((opts.get? "on_delete").getD vNone) (vStr "CASCADE"))
      let opts := opts.setdefault "referenced_type" vNone
      if fs.field_type == "OneToOneFieldInstance" then
        opts.set "unique" (vBool true)
      else opts
    else opts
  if fs.field_type == "CharField" then
    if (opts.get? "max_length").getD vNone == vNone then
      opts.set "max_length" (vInt 255)
    else opts
  else opts

/-- `_same_except_name`: same abstract type and (extensionally) equal option
dicts. -/
def same_except_name (old_fs new_fs : FieldState) : Bool :=
  old_fs.field_type == new_fs.field_type && old_fs.options == new_fs.options

/-- `_base_name`: lowercase, strip an `_id` suffix, collapse non-alphanumeric
characters to spaces, trim. -/
def base_name (n : String) : String :=
  let n := pyLower n
  let n := if pyEndsWith n "_id" then pyDropRight n 3 else n
  pyTrim (String.mk (n.data.map (fun c => if c.isAlphanum then c else ' ')))

/-- `_name_similarity`. -/
def name_similarity (a b : String) : ℚ :=
  Difflib.ratio (base_name a).data (base_name b).data

/-- `_table_similarity`. -/
def table_similarity (a b : String) : ℚ := name_similarity a b

/-- `_schema_fields`: the physical-schema fields of a model. -/
def schema_fields (ms : ModelState) : List (String × FieldState) :=
  ms.field_states.filter (fun p => is_schema_field_type p.2.field_type)

/-- `_pk_field`: first schema field with a truthy `primary_key`. -/
def pk_field (ms : ModelState) : Option FieldState :=
  ((schema_fields ms).map Prod.snd).find? (fun fs => fs.primary_key.truthy)

/-- `_model_rename_score`: field-overlap plus PK/count/table-name bonuses,
capped at 1. -/
def model_rename_score (old_ms new_ms : ModelState) : ℚ :=
  let old_fields := schema_fields old_ms
  let new_fields := schema_fields new_ms
  if old_fields.isEmpty || new_fields.isEmpty then 0
  else
    let matched := old_fields.countP (fun p =>
      match alistGet? new_fields p.1 with
      | some nfs => nfs.field_type == p.2.field_type
      | none => false)
    let overlap : ℚ := mkRat matched (max old_fields.length new_fields.length)
    let score := overlap
    let score := qadd score
      (match pk_field old_ms, pk_field new_ms with
       | some opk, some npk => if opk.field_type == npk.field_type then mkRat 2 10 else 0
       | _, _ => 0)
    let score := qadd score (if old_fields.length == new_fields.length then mkRat 1 10 else 0)
    let score := qadd score (qmul (mkRat 2 10) (table_similarity old_ms.db_table new_ms.db_table))
    min score 1

/-- `_physical_index_columns`: logical column names to physical DB names. -/
def physical_index_columns (ms : ModelState) (cols : List String) : List String :=
  cols.map (fun col =>
    match alistGet? ms.field_states (pyLower col) with
    | some fs =>
        if fs.db_column.truthy then fs.db_column.strOrEmpty
        else if FK_TYPES.contains fs.field_type ||
            fs.field_type == "OneToOneFieldInstance" then fs.name ++ "_id"
        else fs.name
    | none => col)

/-- Set-style insertion (Python `set.add` on a deduplicated list). -/
def setInsert {α : Type} [DecidableEq α] (l : List α) (a : α) : List α :=
  if l.contains a then l else l ++ [a]

/-- `_implicit_field_indexes`: indexes implied by field-level `index` flags. -/
def implicit_field_indexes (ms : ModelState) : List IndexDecl :=
  ms.field_states.foldl (fun acc p =>
    let fs := p.2
    if fs.index.truthy && !fs.unique.truthy && !fs.primary_key.truthy then
      setInsert acc (physical_index_columns ms [fs.name], false)
    else acc) []

/-- `_model_indexes`: canonical `(physical columns, unique)` set of the
table-level declarations, minus the field-implied ones. -/
def model_indexes (ms : ModelState) : List IndexDecl :=
  let indexes := ms.metaIndexes.foldl (fun acc e =>
    setInsert acc (physical_index_columns ms e.1, e.2)) []
  indexes.filter (fun e => !(implicit_field_indexes ms).contains e)

/-- The model-rename threshold (`threshold: float = 0.90`). -/
def model_rename_threshold : ℚ := mkRat 9 10

/-- Best-scoring candidate: fold with strict improvement, starting from
`("", 0.0)`. -/
def best_candidate (cands : List (String × ModelState)) (score1 : ModelState → ℚ) :
    String × ℚ :=
  cands.foldl (fun best p =>
    let s := score1 p.2
    if best.2 < s then (p.1, s) else best) ("", 0)

/-- Pair ordering for the deterministic sort of the rename pairs
(`key=lambda t: (t[0].lower(), t[1].lower())`). -/
def pairKeyLe (p q : String × String) : Prop :=
  (strLtB (pyLower p.1) (pyLower q.1) ||
    (pyLower p.1 == pyLower q.1 && strLeB (pyLower p.2) (pyLower q.2))) = true

instance : DecidableRel pairKeyLe := by
  intro p q
  unfold pairKeyLe
  infer_instance

/-- `_detect_model_renames`: mutual best matches at or above the threshold,
sorted for determinism. -/
def detect_model_renames (removed added : List (String × ModelState)) :
    List (String × String) :=
  let best_for_old := removed.foldl (fun acc p =>
    let best := best_candidate added (fun nms => model_rename_score p.2 nms)
    if best.1 != "" then alistSet acc p.1 best else acc) []
  let best_for_new := added.foldl (fun acc p =>
    let best := best_candidate removed (fun oms => model_rename_score oms p.2)
    if best.1 != "" then alistSet acc p.1 best else acc) []
  let pairs := best_for_old.foldl (fun acc q =>
    let old_name := q.1
    let new_name := q.2.1
    let s := q.2.2
    if s < model_rename_threshold then acc
    else
      match alistGet? best_for_new new_name with
      | some back =>
          if back.1 == old_name && model_rename_threshold ≤ back.2 then
            acc ++ [(old_name, new_name)]
          else acc
      | none => acc) []
  pairs.insertionSort pairKeyLe

/-- `score_candidate`: likelihood that `(old_name -> new_name)` is a field
rename. -/
def score_candidate (old_name : String) (old_fs : FieldState) (new_name : String)
    (new_fs : FieldState) : ℚ :=
  if new_fs.field_type != old_fs.field_type then mkRat (-1) 1
  else
    let old_opts := options_with_type old_fs
    let new_opts := options_with_type new_fs
    let odc := (old_opts.get? "db_column").getD vNone
    if odc.truthy && odc == (new_opts.get? "db_column").getD vNone then 100
    else
      let score := qmul 50 (name_similarity old_name new_name)
      let score := qadd score
        (if FK_TYPES.contains old_fs.field_type && FK_TYPES.contains new_fs.field_type &&
            (old_opts.get? "related_table").getD vNone ==
              (new_opts.get? "related_table").getD vNone
         then 20 else 0)
      let score := qadd score
        (if (old_opts.get? "primary_key").getD vNone ==
            (new_opts.get? "primary_key").getD vNone then 10 else 0)
      let score := qadd score (mkRat (5 *
        ((["null", "unique", "index"].countP (fun k =>
          (old_opts.get? k).getD vNone == (new_opts.get? k).getD vNone)) : ℤ)) 1)
      let score := qadd score
        (if old_fs.field_type == "CharField" then
          let ol := (old_opts.get? "max_length").getD vNone
          let nl := (new_opts.get? "max_length").getD vNone
          if ol != vNone && nl != vNone && ol == nl then 10 else 0
         else if old_fs.field_type == "DecimalField" &&
            (old_opts.get? "max_digits").getD vNone ==
              (new_opts.get? "max_digits").getD vNone &&
            (old_opts.get? "decimal_places").getD vNone ==
              (new_opts.get? "decimal_places").getD vNone then 10
         else 0)
      let score := qadd score
        (if (old_opts.get? "db_column").getD vNone == vStr new_name then 4 else 0)
      let score := qadd score
        (if (new_opts.get? "db_column").getD vNone == vStr old_name then 4 else 0)
      score

/-! ### differ.py — topological sort (`_toposort_models_by_fk`) -/

/-- Ascending sort of strings (Python `sorted`, code-point order). -/
def sortStrings (l : List String) : List String :=
  l.insertionSort (fun a b => strLeB a b = true)

/-- `{ms.db_table.lower(): name for name, ms in model_states.items()}`
(later entries overwrite). -/
def table_to_model (states : List (String × ModelState)) : List (String × String) :=
  states.foldl (fun acc p => alistSet acc (pyLower p.2.db_table) p.1) []

/-- The in-batch FK dependencies of one model (a set, kept as a
first-encounter-ordered deduplicated list). -/
def dep_list (t2m : List (String × String)) (ms : ModelState) : List String :=
  ms.field_states.foldl (fun acc p =>
    if FK_TYPES.contains p.2.field_type then
      let rt := pyLower p.2.related_table.strOrEmpty
      match alistGet? t2m rt with
      | some dep => setInsert acc dep
      | none => acc
    else acc) []

/-- The initial dependency map of the batch. -/
def batch_deps (states : List (String × ModelState)) : List (String × List String) :=
  states.map (fun p => (p.1, dep_list (table_to_model states) p.2))

/-- One pass of the inner `for m in list(deps.keys())` loop after emitting
`n`: erase `n` from every dependency list and enqueue the nodes that just
became ready (not yet emitted, not yet queued). -/
def sweep (n : String) (out : List String) :
    List (String × List String) → List String →
    List (String × List String) × List String
  | [], ready => ([], ready)
  | (m, ds) :: rest, ready =>
      let ds' := ds.erase n
      let ready' :=
        if n ∈ ds ∧ ds' = [] ∧ m ∉ out ∧ m ∉ ready then ready ++ [m] else ready
      let r := sweep n out rest ready'
      ((m, ds') :: r.1, r.2)

/-- Kahn's worklist loop.  The fuel (the batch size) dominates the number of
iterations for every duplicate-free batch, see `kahnLoop` invariants below. -/
def kahnLoop : Nat → List (String × List String) → List String → List String →
    List String × List (String × List String)
  | 0, deps, _, out => (out, deps)
  | fuel + 1, deps, ready, out =>
      match ready with
      | [] => (out, deps)
      | n :: rest =>
          let out' := out ++ [n]
          let r := sweep n out' deps rest
          kahnLoop fuel r.1 (sortStrings r.2) out'

/-- The cycle error message of `_toposort_models_by_fk`. -/
def cycleMsg (cycle : List String) : String :=
  "Cycle detected in CreateModel dependencies: " ++ toString cycle ++
  ". Either break the cycle (store FK on one side only) or implement a 2-phase FK add."

/-- `_toposort_models_by_fk`: model names ordered so referenced tables come
first; errors on a cycle. -/
def toposort_models_by_fk (states : List (String × ModelState)) :
    Except String (List String) :=
  let deps := batch_deps states
  let ready := sortStrings ((deps.filter (fun p => p.2.isEmpty)).map Prod.fst)
  let r := kahnLoop states.length deps ready []
  if r.1.length == states.length then .ok r.1
  else .error (cycleMsg ((r.2.filter (fun p => !p.2.isEmpty)).map Prod.fst))

/-! ### differ.py — field/index diffing and `diff_states` -/

/-- `_resolved_db_column`. -/
def resolved_db_column (fs : FieldState) : Option String :=
  if fs.db_column.truthy then some fs.db_column.strOrEmpty
  else if FK_TYPES.contains fs.field_type then some (fs.name ++ "_id")
  else none

/-- `col if col and col != name else None`. -/
def colUnlessEq (col : Option String) (nm : String) : Option String :=
  match col with
  | some c => if c != "" && c != nm then some c else none
  | none => none

/-- `_rename_or_alter_field_op`. -/
def rename_or_alter_field_op (model_name db_table old_name new_name : String)
    (old_fs new_fs : FieldState) : Operation :=
  if same_except_name old_fs new_fs then
    Operation.RenameField model_name db_table old_name new_name
      (colUnlessEq (resolved_db_column old_fs) old_name)
      (colUnlessEq (resolved_db_column new_fs) new_name)
  else
    Operation.AlterField model_name db_table old_name
      (options_for_alter old_fs) (options_for_alter new_fs) (some new_name)

/-- The user-confirmed rename loop of `_diff_model_fields`: pairs whose old
name is still removed and whose new name is still added produce one
rename-or-alter op and are taken out of the removed/added sets; other pairs
are silently ignored. -/
def processRenamePairs (model_name db_table : String)
    (old_fields new_fields : List (String × FieldState)) :
    List (String × String) → List String → List String →
    List Operation × List String × List String
  | [], removed, added => ([], removed, added)
  | (o, n) :: rest, removed, added =>
      if o ∈ removed ∧ n ∈ added then
        match alistGet? old_fields o, alistGet? new_fields n with
        | some ofs, some nfs =>
            let op := rename_or_alter_field_op model_name db_table o n ofs nfs
            let r := processRenamePairs model_name db_table old_fields new_fields
              rest (removed.erase o) (added.erase n)
            (op :: r.1, r.2)
        | _, _ =>
            -- unreachable: membership in the removed/added sets implies the
            -- keys resolve in the respective field maps
            processRenamePairs model_name db_table old_fields new_fields rest removed added
      else
        processRenamePairs model_name db_table old_fields new_fields rest removed added

/-- `_diff_model_fields`: renames/alters for confirmed pairs, then sorted
`RemoveField`, `AddField` and `AlterField` batches. -/
def diff_model_fields (old_model new_model : ModelState) (model_name : String)
    (rename_map : List (String × String)) : List Operation :=
  let old_fields := schema_fields old_model
  let new_fields := schema_fields new_model
  let removed_names := (alistKeys old_fields).filter
    (fun k => !(alistKeys new_fields).contains k)
  let added_names := (alistKeys new_fields).filter
    (fun k => !(alistKeys old_fields).contains k)
  let r := processRenamePairs model_name new_model.db_table old_fields new_fields
    rename_map removed_names added_names
  let removeOps := (sortStrings r.2.1).map (fun fname =>
    match alistGet? old_fields fname with
    | some fs =>
        Operation.RemoveField model_name new_model.db_table fname
          (colUnlessEq (resolved_db_column fs) fs.name)
    | none => Operation.RemoveField model_name new_model.db_table fname none)
  let addOps := (sortStrings r.2.2).map (fun fname =>
    match alistGet? new_fields fname with
    | some fs =>
        Operation.AddField model_name new_model.db_table fs.name fs.field_type fs.options
    | none => Operation.AddField model_name new_model.db_table fname "" [])
  let commonNames := sortStrings
    (((alistKeys old_fields).filter (fun k => (alistKeys new_fields).contains k)).eraseDups)
  let alterOps := commonNames.flatMap (fun fname =>
    match alistGet? old_fields fname, alistGet? new_fields fname with
    | some ofs, some nfs =>
        let o := options_for_alter ofs
        let n := options_for_alter nfs
        if Dict.beq o n then []
        else [Operation.AlterField model_name new_model.db_table fname o n none]
    | _, _ => [])
  r.1 ++ removeOps ++ addOps ++ alterOps

/-- Ordering on canonical index entries (Python tuple comparison on
`((columns...), unique)`). -/
def indexLe (x y : IndexDecl) : Prop :=
  (if listStrLtB x.1 y.1 then true
   else if listStrLtB y.1 x.1 then false
   else (!x.2 || y.2)) = true

instance : DecidableRel indexLe := by
  intro x y
  unfold indexLe
  infer_instance

/-- `sorted` on index entries. -/
def sortIndexes (l : List IndexDecl) : List IndexDecl :=
  l.insertionSort indexLe

/-- `CreateIndex(...)` with the `__post_init__` default name. -/
def mkCreateIndex (model_name db_table : String) (columns : List String)
    (unique : Bool) : Operation :=
  Operation.CreateIndex model_name db_table columns unique
    (default_index_name db_table columns unique)

/-- `_diff_model_indexes`: set differences of the canonical index sets, as
sorted `CreateIndex` then `RemoveIndex` batches. -/
def diff_model_indexes (old_model new_model : ModelState) : List Operation :=
  let old_indexes := model_indexes old_model
  let new_indexes := model_indexes new_model
  let removed := old_indexes.filter (fun e => !new_indexes.contains e)
  let added := new_indexes.filter (fun e => !old_indexes.contains e)
  (sortIndexes added).map (fun e =>
    mkCreateIndex new_model.name new_model.db_table e.1 e.2) ++
  (sortIndexes removed).map (fun e =>
    Operation.RemoveIndex old_model.name old_model.db_table
      (default_index_name old_model.db_table e.1 e.2) (some e.1) e.2)

/-- Pop a batch of keys (the rename pairs taken out of the removed/added
model maps; in the source each key is present, so `pop` cannot fail). -/
def popAll {α : Type} (l : List (String × α)) (ks : List String) :
    List (String × α) :=
  ks.foldl alistPop l

/-- The models removed between two states (`from` keys minus `to` keys). -/
def removed_models (from_state to_state : ProjectState) :
    List (String × ModelState) :=
  from_state.model_states.filter
    (fun p => !(alistKeys to_state.model_states).contains p.1)

/-- The models added between two states (`to` keys minus `from` keys). -/
def added_models (from_state to_state : ProjectState) :
    List (String × ModelState) :=
  to_state.model_states.filter
    (fun p => !(alistKeys from_state.model_states).contains p.1)

/-- The removed-model batch after taking out the rename pairs. -/
def removed_batch (from_state to_state : ProjectState) :
    List (String × ModelState) :=
  let removed := removed_models from_state to_state
  let added := added_models from_state to_state
  popAll removed ((detect_model_renames removed added).map Prod.fst)

/-- The added-model batch after taking out the rename pairs. -/
def added_batch (from_state to_state : ProjectState) :
    List (String × ModelState) :=
  let removed := removed_models from_state to_state
  let added := added_models from_state to_state
  popAll added ((detect_model_renames removed added).map Prod.snd)

/-- `diff_states`: the full diff — rename detection, dependency-ordered
removals and creations, per-model field and index diffs. -/
def diff_states (from_state to_state : ProjectState)
    (rename_map : List (String × List (String × String))) :
    Except String (List Operation) := do
  let from_models := from_state.model_states
  let to_models := to_state.model_states
  let removed := removed_models from_state to_state
  let added := added_models from_state to_state
  let model_renames := detect_model_renames removed added
  let renameOps := model_renames.map (fun pr =>
    match alistGet? removed pr.1, alistGet? added pr.2 with
    | some oms, some nms => Operation.RenameModel pr.1 pr.2 oms.db_table nms.db_table
    | _, _ => Operation.RenameModel pr.1 pr.2 "" "")
  let removedB := removed_batch from_state to_state
  let addedB := added_batch from_state to_state
  let orderedRemoved ← toposort_models_by_fk removedB
  let removeOps := orderedRemoved.reverse.map (fun nm =>
    match alistGet? removedB nm with
    | some m => Operation.RemoveModel nm m.db_table
    | none => Operation.RemoveModel nm "")
  let orderedAdded ← toposort_models_by_fk addedB
  let createOps := orderedAdded.flatMap (fun nm =>
    match alistGet? addedB nm with
    | some m =>
        CreateModel.from_model_state m ::
          (sortIndexes (model_indexes m)).map (fun e =>
            mkCreateIndex m.name m.db_table e.1 e.2)
    | none => [])
  let commonNames := sortStrings
    (((alistKeys from_models).filter (fun k => (alistKeys to_models).contains k)).eraseDups)
  let commonOps := commonNames.flatMap (fun nm =>
    match alistGet? from_models nm, alistGet? to_models nm with
    | some om, some tm =>
        diff_model_fields om tm nm ((alistGet? rename_map nm).getD []) ++
          diff_model_indexes om tm
    | _, _ => [])
  let renamedOps := model_renames.flatMap (fun pr =>
    match alistGet? from_models pr.1, alistGet? to_models pr.2 with
    | some om, some tm =>
        -- `rename_map.get(new_name) or rename_map.get(old_name) or {}`
        let c1 := (alistGet? rename_map pr.2).getD []
        let c2 := (alistGet? rename_map pr.1).getD []
        let confirmed := if c1.isEmpty then c2 else c1
        diff_model_fields om tm pr.2 confirmed ++ diff_model_indexes om tm
    | _, _ => [])
  return renameOps ++ removeOps ++ createOps ++ commonOps ++ renamedOps

/-! ### makemigrations.py — safety validation -/

/-- `_has_db_initialisable_default`. -/
def has_db_initialisable_default (opts : Dict) : Bool :=
  if (match opts.get? "db_default" with | some v => v != vNone | none => false) then
    true
  else
    match opts.get? "default" with
    | none => false
    | some d => d != vNone && d != vStr "python_callable"

/-- Names of the models created by `CreateModel` operations in the list. -/
def created_models (ops : List Operation) : List String :=
  ops.filterMap (fun op =>
    match op with
    | .CreateModel name _ _ => some name
    | _ => none)

/-- The offending `model.field` labels of the non-nullable-add guard. -/
def problems_add (ops : List Operation) : List String :=
  ops.filterMap (fun op =>
    match op with
    | .AddField model_name _ field_name _ opts =>
        if (created_models ops).contains model_name then none
        else if opts.get? "null" == some (vBool true) then none
        else if has_db_initialisable_default opts then none
        else some (model_name ++ "." ++ field_name)
    | _ => none)

/-- The `model.field` labels of the nullable-to-non-nullable alters that
warrant the interactive warning. -/
def risky_alters (ops : List Operation) : List String :=
  ops.filterMap (fun op =>
    match op with
    | .AlterField model_name _ field_name old_options new_options _ =>
        if old_options.get? "null" == some (vBool true) &&
            new_options.get? "null" == some (vBool false) &&
            !has_db_initialisable_default new_options then
          some (model_name ++ "." ++ field_name)
        else none
    | _ => none)

/-- The hard-rejection message of the non-nullable-add guard. -/
def nonNullableAddMsg (problems : List String) : String :=
  "Cannot generate migration:\n" ++
  "You added a non-nullable field without a default " ++
  "(cannot backfill existing rows).\n" ++
  "Note: Python defaults (e.g. timezone.now) are not database defaults " ++
  "and cannot backfill existing rows automatically.\n" ++
  "Fix by adding a default or use this safe sequence:\n" ++
  "  1) Add the field as nullable.\n" ++
  "  2) Create a data migration to backfill it " ++
  "(run: tortoisemarch makemigrations --empty).\n" ++
  "  3) Make the field non-nullable and re-run makemigrations.\n\n" ++
  "Problems:\n  - " ++ String.intercalate "\n  - " problems

/-- `_validate_non_nullable_adds_and_warn_alters` up to its hard-failure
point: errors when an unsafe add exists, otherwise returns the risky alters
that the interactive confirmation (an I/O collaborator) would present. -/
def validate_non_nullable_adds (ops : List Operation) : Except String (List String) :=
  let problems := problems_add ops
  if problems.isEmpty then .ok (risky_alters ops)
  else .error (nonNullableAddMsg problems)

/-! ## Lemmas: association lists -/

theorem alistGet?_set_self {α : Type} (l : List (String × α)) (k : String) (v : α) :
    alistGet? (alistSet l k v) k = some v := by
  induction l with
  | nil => simp [alistSet, alistGet?]
  | cons p rest ih =>
      obtain ⟨pk, pv⟩ := p
      by_cases h : pk = k
      · simp [alistSet, h, alistGet?]
      · have hb : (pk == k) = false := by simpa using h
        simp [alistSet, hb, alistGet?, ih]

theorem alistGet?_set_ne {α : Type} (l : List (String × α)) (k k' : String) (v : α)
    (h : k' ≠ k) : alistGet? (alistSet l k v) k' = alistGet? l k' := by
  have hb : (k == k') = false := by simpa using fun hh => h hh.symm
  induction l with
  | nil => simp [alistSet, alistGet?, hb]
  | cons p rest ih =>
      obtain ⟨pk, pv⟩ := p
      by_cases hp : pk = k
      · subst hp
        simp [alistSet, alistGet?, hb]
      · have hpb : (pk == k) = false := by simpa using hp
        simp [alistSet, hpb, alistGet?, ih]

theorem alistGet?_pop_self {α : Type} (l : List (String × α)) (k : String) :
    alistGet? (alistPop l k) k = none := by
  induction l with
  | nil => simp [alistPop, alistGet?]
  | cons p rest ih =>
      obtain ⟨pk, pv⟩ := p
      by_cases hp : pk = k
      · subst hp
        simpa [alistPop, List.filter_cons] using ih
      · have hpb : (pk == k) = false := by simpa using hp
        simpa [alistPop, List.filter_cons, alistGet?, hpb, bne] using ih

theorem alistGet?_pop_ne {α : Type} (l : List (String × α)) (k k' : String)
    (h : k' ≠ k) : alistGet? (alistPop l k) k' = alistGet? l k' := by
  induction l with
  | nil => simp [alistPop, alistGet?]
  | cons p rest ih =>
      obtain ⟨pk, pv⟩ := p
      by_cases hp : pk = k
      · subst hp
        have hb : (pk == k') = false := by simpa using fun hh => h hh.symm
        simpa [alistPop, List.filter_cons, alistGet?, hb] using ih
      · have hpb : (pk == k) = false := by simpa using hp
        by_cases hk' : pk = k'
        · subst hk'
          simp [alistPop, List.filter_cons, alistGet?, hpb, bne]
        · have hkb : (pk == k') = false := by simpa using hk'
          simpa [alistPop, List.filter_cons, alistGet?, hpb, hkb, bne] using ih

theorem alistGet?_map_value {α β : Type} (l : List (String × α)) (g : α → β)
    (k : String) :
    alistGet? (l.map (fun p => (p.1, g p.2))) k = (alistGet? l k).map g := by
  induction l with
  | nil => simp [alistGet?]
  | cons p rest ih =>
      obtain ⟨pk, pv⟩ := p
      by_cases hp : pk = k
      · simp [alistGet?, hp]
      · have hpb : (pk == k) = false := by simpa using hp
        simpa [alistGet?, hpb] using ih

/-! ## Lemmas: option dictionaries -/

theorem Dict.get?_set_self (d : Dict) (k : String) (v : Value) :
    (Dict.set d k v).get? k = some v := by
  induction d with
  | nil => simp [Dict.set, Dict.get?]
  | cons p rest ih =>
      obtain ⟨pk, pv⟩ := p
      by_cases h : pk = k
      · simp [Dict.set, h, Dict.get?]
      · have hb : (pk == k) = false := by simpa using h
        simp [Dict.set, hb, Dict.get?, ih]

theorem Dict.get?_set_ne (d : Dict) (k k' : String) (v : Value) (h : k' ≠ k) :
    (Dict.set d k v).get? k' = d.get? k' := by
  have hb : (k == k') = false := by simpa using fun hh => h hh.symm
  induction d with
  | nil => simp [Dict.set, Dict.get?, hb]
  | cons p rest ih =>
      obtain ⟨pk, pv⟩ := p
      by_cases hp : pk = k
      · subst hp
        simp [Dict.set, Dict.get?, hb]
      · have hpb : (pk == k) = false := by simpa using hp
        simp [Dict.set, hpb, Dict.get?, ih]

theorem Dict.get?_eq_none_iff (d : Dict) (k : String) :
    d.get? k = none ↔ k ∉ d.map Prod.fst := by
  induction d with
  | nil => simp [Dict.get?]
  | cons p rest ih =>
      obtain ⟨pk, pv⟩ := p
      by_cases hp : pk = k
      · subst hp
        simp [Dict.get?]
      · have hpb : (pk == k) = false := by simpa using hp
        rw [show Dict.get? ((pk, pv) :: rest) k = Dict.get? rest k by
          simp [Dict.get?, hpb]]
        rw [ih]
        constructor
        · intro hnmem hmem
          rcases List.mem_cons.mp hmem with he | hm
          · exact hp he.symm
          · exact hnmem hm
        · intro hnmem hm
          exact hnmem (List.mem_cons_of_mem _ hm)

theorem Dict.get?_mem {d : Dict} {k : String} {v : Value}
    (h : d.get? k = some v) : (k, v) ∈ d := by
  induction d with
  | nil => simp [Dict.get?] at h
  | cons p rest ih =>
      obtain ⟨pk, pv⟩ := p
      by_cases hp : pk = k
      · subst hp
        simp [Dict.get?] at h
        simp [h]
      · have hpb : (pk == k) = false := by simpa using hp
        simp [Dict.get?, hpb] at h
        exact List.mem_cons_of_mem _ (ih h)

theorem Dict.get?_of_mem_nodup {d : Dict} {k : String} {v : Value}
    (hnd : (d.map Prod.fst).Nodup) (h : (k, v) ∈ d) : d.get? k = some v := by
  induction d with
  | nil => simp at h
  | cons p rest ih =>
      obtain ⟨pk, pv⟩ := p
      simp only [List.map_cons, List.nodup_cons] at hnd
      rcases List.mem_cons.mp h with heq | hmem
      · cases heq
        simp [Dict.get?]
      · have hk : pk ≠ k := by
          intro he
          exact hnd.1 (he ▸ (List.mem_map.mpr ⟨_, hmem, rfl⟩))
        have hpb : (pk == k) = false := by simpa using hk
        simp [Dict.get?, hpb, ih hnd.2 hmem]

theorem Dict.set_keys_subset (d : Dict) (k : String) (v : Value) :
    ∀ x ∈ (Dict.set d k v).map Prod.fst, x = k ∨ x ∈ d.map Prod.fst := by
  induction d with
  | nil => simp [Dict.set]
  | cons p rest ih =>
      obtain ⟨pk, pv⟩ := p
      by_cases hp : pk = k
      · subst hp
        intro x hx
        simp only [Dict.set, beq_self_eq_true, if_true, List.map_cons,
          List.mem_cons] at hx
        rcases hx with hx | hx
        · exact Or.inl hx
        · exact Or.inr (List.mem_cons_of_mem _ hx)
      · have hpb : (pk == k) = false := by simpa using hp
        intro x hx
        simp only [Dict.set, hpb, Bool.false_eq_true, if_false, List.map_cons,
          List.mem_cons] at hx
        rcases hx with hx | hx
        · exact Or.inr (List.mem_cons.mpr (Or.inl hx))
        · rcases ih x hx with h | h
          · exact Or.inl h
          · exact Or.inr (List.mem_cons_of_mem _ h)

theorem mergeAlterOptions_keys (base l : Dict) :
    ∀ x ∈ (mergeAlterOptions base l).map Prod.fst,
      x ∈ base.map Prod.fst ∨ (x ∈ l.map Prod.fst ∧ x ≠ "type") := by
  unfold mergeAlterOptions
  induction l generalizing base with
  | nil => intro x hx; exact Or.inl hx
  | cons q rest ih =>
      intro x hx
      simp only [List.foldl_cons] at hx
      by_cases hq : q.1 = "type"
      · have hqb : (q.1 == "type") = true := by simpa using hq
        rw [hqb] at hx
        simp only [if_true] at hx
        rcases ih base x hx with h | h
        · exact Or.inl h
        · exact Or.inr ⟨List.mem_cons_of_mem _ h.1, h.2⟩
      · have hqb : (q.1 == "type") = false := by simpa using hq
        rw [hqb] at hx
        simp only [Bool.false_eq_true, if_false] at hx
        rcases ih (Dict.set base q.1 q.2) x hx with h | h
        · rcases Dict.set_keys_subset base q.1 q.2 x h with h' | h'
          · exact Or.inr ⟨by simp [h'], h' ▸ hq⟩
          · exact Or.inl h'
        · exact Or.inr ⟨List.mem_cons_of_mem _ h.1, h.2⟩

theorem mergeAlterOptions_get_of_not_mem (base l : Dict) (k : String)
    (h : k ∉ l.map Prod.fst) :
    (mergeAlterOptions base l).get? k = base.get? k := by
  unfold mergeAlterOptions
  induction l generalizing base with
  | nil => rfl
  | cons q rest ih =>
      simp only [List.map_cons, List.mem_cons] at h
      push_neg at h
      simp only [List.foldl_cons]
      by_cases hq : q.1 = "type"
      · have hqb : (q.1 == "type") = true := by simpa using hq
        rw [hqb]
        simpa using ih base h.2
      · have hqb : (q.1 == "type") = false := by simpa using hq
        rw [hqb]
        simp only [Bool.false_eq_true, if_false]
        rw [ih (Dict.set base q.1 q.2) h.2]
        exact Dict.get?_set_ne _ _ _ _ h.1

theorem mergeAlterOptions_get_of_mem (base l : Dict) (k : String) (v : Value)
    (hnd : (l.map Prod.fst).Nodup) (hmem : (k, v) ∈ l) (hk : k ≠ "type") :
    (mergeAlterOptions base l).get? k = some v := by
  unfold mergeAlterOptions
  induction l generalizing base with
  | nil => simp at hmem
  | cons q rest ih =>
      simp only [List.map_cons, List.nodup_cons] at hnd
      simp only [List.foldl_cons]
      rcases List.mem_cons.mp hmem with heq | hmem'
      · cases heq
        have hqb : ((k, v).1 == "type") = false := by simpa using hk
        rw [hqb]
        simp only [Bool.false_eq_true, if_false]
        have hnot : k ∉ rest.map Prod.fst := hnd.1
        rw [show (rest.foldl (fun acc q =>
          if q.1 == "type" then acc else Dict.set acc q.1 q.2)
            (Dict.set base k v)) = mergeAlterOptions (Dict.set base k v) rest from rfl]
        rw [mergeAlterOptions_get_of_not_mem _ _ _ hnot]
        exact Dict.get?_set_self _ _ _
      · by_cases hq : q.1 = "type"
        · have hqb : (q.1 == "type") = true := by simpa using hq
          rw [hqb]
          simpa using ih _ hnd.2 hmem'
        · have hqb : (q.1 == "type") = false := by simpa using hq
          rw [hqb]
          simp only [Bool.false_eq_true, if_false]
          exact ih _ hnd.2 hmem'

/-- The dataclass default for each `FieldState` option attribute. -/
def fieldDefault (k : String) : Value :=
  if k ∈ ["null", "unique", "index", "primary_key", "auto_now", "auto_now_add"]
  then vBool false else vNone

theorem fieldStateOfOpts_isSome (n ft : String) (opts : Dict)
    (h : ∀ k ∈ opts.map Prod.fst, k ∈ fieldOptionKeys) :
    ∃ fs, fieldStateOfOpts n ft opts = some fs := by
  have hc : (Dict.keys opts).all (fun k => fieldOptionKeys.contains k) = true := by
    simp only [Dict.keys, List.all_eq_true]
    intro k hk
    simpa using h k hk
  unfold fieldStateOfOpts
  rw [if_pos hc]
  exact ⟨_, rfl⟩

theorem fieldStateOfOpts_name {n ft : String} {opts : Dict} {fs : FieldState}
    (h : fieldStateOfOpts n ft opts = some fs) : fs.name = n := by
  unfold fieldStateOfOpts at h
  by_cases hc : opts.keys.all (fun k => fieldOptionKeys.contains k)
  · rw [if_pos hc] at h
    cases h
    rfl
  · rw [if_neg hc] at h
    cases h

theorem fieldStateOfOpts_options_get {n ft : String} {opts : Dict} {fs : FieldState}
    (h : fieldStateOfOpts n ft opts = some fs) (k : String) (hk : k ∈ fieldOptionKeys) :
    fs.options.get? k = some ((opts.get? k).getD (fieldDefault k)) := by
  unfold fieldStateOfOpts at h
  by_cases hc : opts.keys.all (fun k => fieldOptionKeys.contains k)
  · rw [if_pos hc] at h
    cases h
    fin_cases hk <;> rfl
  · rw [if_neg hc] at h
    cases h

theorem options_get_isSome (fs : FieldState) (k : String) (hk : k ∈ fieldOptionKeys) :
    ∃ v, fs.options.get? k = some v := by
  fin_cases hk <;> exact ⟨_, rfl⟩

theorem options_keys (fs : FieldState) : fs.options.map Prod.fst = fieldOptionKeys := rfl

/-! ## C5 — AlterField.mutate_state merges, it does not replace -/

/-- `self.new_name or self.field_name` (the destination logical name). -/
def dstOf (new_name : Option String) (field_name : String) : String :=
  match new_name with
  | some s => if s == "" then field_name else s
  | none => field_name

/-- Merge semantics of the carried-forward option set: keys absent from
`new_options` keep the previous field's value, present keys win. -/
theorem merged_options_get (prev : FieldState) (new_options : Dict) (n ft : String)
    (fs' : FieldState)
    (hfs' : fieldStateOfOpts n ft (mergeAlterOptions prev.options new_options) =
      some fs')
    (hnodup : (new_options.map Prod.fst).Nodup) :
    ∀ k ∈ fieldOptionKeys,
      (new_options.get? k = none → fs'.options.get? k = prev.options.get? k) ∧
      (∀ v, new_options.get? k = some v → fs'.options.get? k = some v) := by
  intro k hk
  have hfsget := fieldStateOfOpts_options_get hfs' k hk
  constructor
  · intro hnone
    have hnot : k ∉ new_options.map Prod.fst := (Dict.get?_eq_none_iff _ _).mp hnone
    rw [mergeAlterOptions_get_of_not_mem _ _ _ hnot] at hfsget
    obtain ⟨w, hw⟩ := options_get_isSome prev k hk
    rw [hw] at hfsget
    rw [hfsget, hw]
    rfl
  · intro v hv
    have hk' : k ≠ "type" := by
      intro he
      subst he
      exact absurd hk (by decide)
    have hmem := Dict.get?_mem hv
    rw [mergeAlterOptions_get_of_mem _ _ _ _ hnodup hmem hk'] at hfsget
    rw [hfsget]
    rfl

/-- C5: `AlterField.mutate_state` overlays `new_options` on the field's
complete previous option set — attributes absent from `new_options` (for
example `primary_key` or `max_length`) keep their previous values, keys
present in `new_options` are overwritten — and a set `new_name` relocates the
field under the new key with the old key removed. -/
theorem C5_alter_field_merge (st : ProjectState)
    (model_name db_table field_name : String) (new_name : Option String)
    (old_options new_options : Dict) (model : ModelState) (prev : FieldState)
    (hm : alistGet? st.model_states model_name = some model)
    (hprev : alistGet? model.field_states (lc field_name) = some prev)
    (hkeys : ∀ k ∈ new_options.map Prod.fst, k = "type" ∨ k ∈ fieldOptionKeys)
    (hnodup : (new_options.map Prod.fst).Nodup) :
    ∃ st' model' fs',
      (Operation.AlterField model_name db_table field_name old_options new_options
        new_name).mutate_state st = some st' ∧
      alistGet? st'.model_states model_name = some model' ∧
      alistGet? model'.field_states (lc (dstOf new_name field_name)) = some fs' ∧
      fs'.name = dstOf new_name field_name ∧
      (∀ k ∈ fieldOptionKeys,
        (new_options.get? k = none → fs'.options.get? k = prev.options.get? k) ∧
        (∀ v, new_options.get? k = some v → fs'.options.get? k = some v)) ∧
      (∀ nn, new_name = some nn → nn ≠ "" → lc nn ≠ lc field_name →
        alistGet? model'.field_states (lc field_name) = none) := by
  classical
  have hbasekeys : ∀ x ∈ (mergeAlterOptions prev.options new_options).map Prod.fst,
      x ∈ fieldOptionKeys := by
    intro x hx
    rcases mergeAlterOptions_keys _ _ x hx with h | h
    · rwa [options_keys] at h
    · rcases hkeys x h.1 with h' | h'
      · exact absurd h' h.2
      · exact h'
  cases new_name with
  | none =>
      obtain ⟨fs', hfs'⟩ := fieldStateOfOpts_isSome field_name
        ((([(new_options.get? "type").getD vNone, vStr prev.field_type,
            (old_options.get? "type").getD vNone].find? Value.truthy).getD
          (vStr "TextField")).strOrEmpty)
        (mergeAlterOptions prev.options new_options) hbasekeys
      refine ⟨⟨alistSet st.model_states model_name { model with field_states := alistSet model.field_states (lc field_name) fs' }⟩,
        _, fs', ?_, alistGet?_set_self _ _ _, ?_, fieldStateOfOpts_name hfs',
        merged_options_get prev new_options _ _ fs' hfs' hnodup, ?_⟩
      · simp [Operation.mutate_state, hm, hprev, hfs']
      · exact alistGet?_set_self _ _ _
      · intro nn h
        cases h
  | some s =>
      by_cases hs : s = ""
      · subst hs
        obtain ⟨fs', hfs'⟩ := fieldStateOfOpts_isSome field_name
          ((([(new_options.get? "type").getD vNone, vStr prev.field_type,
              (old_options.get? "type").getD vNone].find? Value.truthy).getD
            (vStr "TextField")).strOrEmpty)
          (mergeAlterOptions prev.options new_options) hbasekeys
        refine ⟨⟨alistSet st.model_states model_name { model with field_states := alistSet model.field_states (lc field_name) fs' }⟩,
          _, fs', ?_, alistGet?_set_self _ _ _, ?_, fieldStateOfOpts_name hfs',
          merged_options_get prev new_options _ _ fs' hfs' hnodup, ?_⟩
        · simp [Operation.mutate_state, hm, hprev, hfs']
        · exact alistGet?_set_self _ _ _
        · intro nn h hne
          cases h
          exact absurd rfl hne
      · have hsb : (s == "") = false := by simpa using hs
        obtain ⟨fs', hfs'⟩ := fieldStateOfOpts_isSome s
          ((([(new_options.get? "type").getD vNone, vStr prev.field_type,
              (old_options.get? "type").getD vNone].find? Value.truthy).getD
            (vStr "TextField")).strOrEmpty)
          (mergeAlterOptions prev.options new_options) hbasekeys
        refine ⟨⟨alistSet st.model_states model_name { model with field_states := alistSet (alistPop model.field_states (lc field_name)) (lc s) fs' }⟩,
          _, fs', ?_, alistGet?_set_self _ _ _, ?_, ?_,
          merged_options_get prev new_options _ _ fs' hfs' hnodup, ?_⟩
        · simp [Operation.mutate_state, hm, hprev, hsb, hfs']
        · have hd : dstOf (some s) field_name = s := by simp [dstOf, hsb]
          rw [hd]
          exact alistGet?_set_self _ _ _
        · have : dstOf (some s) field_name = s := by simp [dstOf, hsb]
          rw [this]
          exact fieldStateOfOpts_name hfs'
        · intro nn h hne hlc
          cases h
          rw [alistGet?_set_ne _ _ _ _ (fun he => hlc he.symm)]
          exact alistGet?_pop_self _ _

/-- A primary-key `CharField` used by the C5 witness. -/
def exCharPk : FieldState :=
  { name := "f", field_type := "CharField", primary_key := vBool true, max_length := vInt 10 }

/-- A one-model state holding `exCharPk`, used by the C5 witness. -/
def exAlterModel : ModelState := ⟨"M", "m", [("f", exCharPk)], none⟩

/-- C5 witness: a partial alter (`default` only, plus a rename to `g`) on a
primary-key `CharField` keeps `primary_key`/`max_length` and relocates the
field. -/
theorem C5_alter_field_merge_witness :
    ∃ st' model' fs',
      (Operation.AlterField "M" "m" "f" [] [("default", vInt 5)]
        (some "g")).mutate_state ⟨[("M", exAlterModel)]⟩ = some st' ∧
      alistGet? st'.model_states "M" = some model' ∧
      alistGet? model'.field_states (lc (dstOf (some "g") "f")) = some fs' ∧
      fs'.name = dstOf (some "g") "f" ∧
      (∀ k ∈ fieldOptionKeys,
        (Dict.get? [("default", vInt 5)] k = none →
          fs'.options.get? k = exCharPk.options.get? k) ∧
        (∀ v, Dict.get? [("default", vInt 5)] k = some v →
          fs'.options.get? k = some v)) ∧
      (∀ nn, (some "g" : Option String) = some nn → nn ≠ "" → lc nn ≠ lc "f" →
        alistGet? model'.field_states (lc "f") = none) :=
  C5_alter_field_merge ⟨[("M", exAlterModel)]⟩ "M" "m" "f" (some "g") []
    [("default", vInt 5)] exAlterModel exCharPk rfl (by decide) (by decide) (by decide)

/-! ## C9 — score_candidate sentinels (corrected) -/

/-- An FK field `user` with no explicit `db_column` (physical column
`user_id` by the FK convention). -/
def exUserFkOld : FieldState :=
  { name := "user", field_type := "ForeignKeyFieldInstance", related_table := vStr "t" }

/-- The same FK field with `db_column` set explicitly to `user_id`. -/
def exUserFkNew : FieldState :=
  { name := "user", field_type := "ForeignKeyFieldInstance", related_table := vStr "t",
    db_column := vStr "user_id" }

/-- Fields whose `db_column` options are both set and equal (the actual
short-circuit condition). -/
def exDbColField : FieldState :=
  { name := "a", field_type := "CharField", db_column := vStr "t_col" }

/-- Second field with the same explicit `db_column`. -/
def exDbColField2 : FieldState :=
  { name := "b", field_type := "CharField", db_column := vStr "t_col" }

/-- C9 counterexample: a same-type pair whose physically-resolved column
names match exactly (both `user_id`, via the FK convention) scores 95 — not
the designated short-circuit score 100, which another pair attains — so
`score_candidate` neither short-circuits nor returns its maximum score for
every physically-matching pair. -/
theorem C9_short_circuit_counterexample :
    exUserFkOld.field_type = exUserFkNew.field_type ∧
    resolved_db_column exUserFkOld = some "user_id" ∧
    resolved_db_column exUserFkNew = some "user_id" ∧
    score_candidate "user" exUserFkOld "user" exUserFkNew = 95 ∧
    score_candidate "user" exUserFkOld "user" exUserFkNew ≠ 100 ∧
    score_candidate "a" exDbColField "b" exDbColField2 = 100 ∧
    (95 : ℚ) < 100 := by decide

/-- C9 (amended): `score_candidate` returns the negative sentinel `-1` for
every pair whose field types differ, and returns the fixed short-circuit
score `100.0`, before any other bonus, for every same-type pair whose *old*
field's `db_column` option is truthy and equal to the new field's `db_column`
option (a match of resolved physical names via the `<name>_id` convention
alone does not short-circuit). -/
theorem C9_score_sentinels (old_name new_name : String) (old_fs new_fs : FieldState) :
    (old_fs.field_type ≠ new_fs.field_type →
      score_candidate old_name old_fs new_name new_fs = mkRat (-1) 1 ∧
      score_candidate old_name old_fs new_name new_fs < 0) ∧
    (old_fs.field_type = new_fs.field_type → old_fs.db_column.truthy = true →
      old_fs.db_column = new_fs.db_column →
      score_candidate old_name old_fs new_name new_fs = 100) := by
  constructor
  · intro h
    have hb : (new_fs.field_type != old_fs.field_type) = true := by
      simp [bne]
      exact fun he => h he.symm
    refine ⟨by simp [score_candidate, hb], ?_⟩
    rw [show score_candidate old_name old_fs new_name new_fs = mkRat (-1) 1 by
      simp [score_candidate, hb]]
    decide
  · intro hty htruthy heq
    have hb : (new_fs.field_type != old_fs.field_type) = false := by
      simp [bne, hty]
    have hold : (options_with_type old_fs).get? "db_column" = some old_fs.db_column := rfl
    have hnew : (options_with_type new_fs).get? "db_column" = some new_fs.db_column := rfl
    have hcond : ((((options_with_type old_fs).get? "db_column").getD vNone).truthy &&
        (((options_with_type old_fs).get? "db_column").getD vNone ==
          ((options_with_type new_fs).get? "db_column").getD vNone)) = true := by
      rw [hold, hnew, ← heq]
      simp [htruthy]
    simp [score_candidate, hb, hcond]

/-- C9 witness for the amended theorem: a type-changing pair scores `-1`; a
pair with equal explicit `db_column` options scores `100`. -/
theorem C9_score_sentinels_witness :
    ((exDbColField.field_type ≠ exUserFkOld.field_type →
      score_candidate "a" exDbColField "u" exUserFkOld = mkRat (-1) 1 ∧
      score_candidate "a" exDbColField "u" exUserFkOld < 0) ∧
     (exDbColField.field_type = exUserFkOld.field_type →
      exDbColField.db_column.truthy = true →
      exDbColField.db_column = exUserFkOld.db_column →
      score_candidate "a" exDbColField "u" exUserFkOld = 100)) ∧
    (exDbColField.field_type ≠ exUserFkOld.field_type) ∧
    ((exDbColField.field_type ≠ exDbColField2.field_type →
      score_candidate "a" exDbColField "b" exDbColField2 = mkRat (-1) 1 ∧
      score_candidate "a" exDbColField "b" exDbColField2 < 0) ∧
     (exDbColField.field_type = exDbColField2.field_type →
      exDbColField.db_column.truthy = true →
      exDbColField.db_column = exDbColField2.db_column →
      score_candidate "a" exDbColField "b" exDbColField2 = 100)) ∧
    exDbColField.field_type = exDbColField2.field_type ∧
    exDbColField.db_column.truthy = true ∧
    exDbColField.db_column = exDbColField2.db_column :=
  ⟨C9_score_sentinels "a" "u" exDbColField exUserFkOld, by decide,
   C9_score_sentinels "a" "b" exDbColField exDbColField2, by decide, by decide, by decide⟩

/-! ## C6 — non-nullable AddField safety gate -/

/-- C6: the validation rejects, with a message naming every offender, any
operation list holding an `AddField` that is non-nullable (its `null` option
is not the literal `True`), has neither a literal nor a database-level
default, and targets a model with no `CreateModel` in the same list; and a
list in which every `AddField` is covered by a same-batch `CreateModel` (or
is nullable, or carries a usable default) raises no error. -/
theorem C6_non_nullable_add_guard
    (ops : List Operation) (m tbl f ftype : String) (opts : Dict)
    (hmem : Operation.AddField m tbl f ftype opts ∈ ops)
    (hnull : opts.get? "null" ≠ some (vBool true))
    (hnodef : has_db_initialisable_default opts = false)
    (hnotcreated : m ∉ created_models ops) :
    (∃ probs, validate_non_nullable_adds ops = .error (nonNullableAddMsg probs) ∧
      (m ++ "." ++ f) ∈ probs) ∧
    (∀ ops' : List Operation,
      (∀ m' tb' f' ft' o', Operation.AddField m' tb' f' ft' o' ∈ ops' →
        m' ∈ created_models ops' ∨ o'.get? "null" = some (vBool true) ∨
        has_db_initialisable_default o' = true) →
      ∃ r, validate_non_nullable_adds ops' = .ok r) := by
  constructor
  · have hcontains : (created_models ops).contains m = false := by
      cases hc : (created_models ops).contains m
      · rfl
      · exact absurd (List.elem_iff.mp hc) hnotcreated
    have hnb : (opts.get? "null" == some (vBool true)) = false := by
      simpa using hnull
    have hin : (m ++ "." ++ f) ∈ problems_add ops := by
      unfold problems_add
      refine List.mem_filterMap.mpr ⟨Operation.AddField m tbl f ftype opts, hmem, ?_⟩
      simp [hcontains, hnb, hnodef, hnotcreated]
    have hne : (problems_add ops).isEmpty = false := by
      cases hp : problems_add ops with
      | nil => rw [hp] at hin; simp at hin
      | cons a l => simp [List.isEmpty]
    refine ⟨problems_add ops, ?_, hin⟩
    simp [validate_non_nullable_adds, hne]
  · intro ops' hsafe
    have hnil : problems_add ops' = [] := by
      unfold problems_add
      rw [List.filterMap_eq_nil_iff]
      intro op hop
      cases op with
      | AddField m' tb' f' ft' o' =>
          rcases hsafe m' tb' f' ft' o' hop with h | h | h
          · have hc : (created_models ops').contains m' = true := List.elem_iff.mpr h
            simp only [hc]
            simp
          · have hc : (o'.get? "null" == some (vBool true)) = true := by simp [h]
            simp only [hc]
            simp
          · simp [h]
      | CreateModel a b c => rfl
      | RenameModel a b c d => rfl
      | RemoveModel a b => rfl
      | RemoveField a b c d => rfl
      | AlterField a b c d e g => rfl
      | RenameField a b c d e g => rfl
      | CreateIndex a b c d e => rfl
      | RemoveIndex a b c d e => rfl
      | RunPython => rfl
    refine ⟨risky_alters ops', ?_⟩
    simp [validate_non_nullable_adds, hnil]

/-- The unsafe `AddField` of the C6 witness. -/
def exUnsafeAdd : Operation :=
  Operation.AddField "M" "m" "f" "IntField" [("null", vBool false), ("default", vNone)]

/-- C6 witness: the unsafe add alone is rejected naming `M.f`; the identical
add after a `CreateModel` of `M` passes. -/
theorem C6_non_nullable_add_guard_witness :
    (∃ probs, validate_non_nullable_adds [exUnsafeAdd] =
        .error (nonNullableAddMsg probs) ∧ ("M" ++ "." ++ "f") ∈ probs) ∧
    (∃ r, validate_non_nullable_adds
        [Operation.CreateModel "M" "m" [], exUnsafeAdd] = .ok r) :=
  have h := C6_non_nullable_add_guard [exUnsafeAdd] "M" "m" "f" "IntField"
      [("null", vBool false), ("default", vNone)]
      (by decide) (by decide) (by decide) (by decide)
  ⟨h.1, h.2 [Operation.CreateModel "M" "m" [], exUnsafeAdd] (by
    intro m' tb' f' ft' o' hop
    rcases List.mem_cons.mp hop with he | hop'
    · exact Operation.noConfusion he
    · rcases List.mem_cons.mp hop' with he | hop''
      · rw [show exUnsafeAdd = Operation.AddField "M" "m" "f" "IntField"
          [("null", vBool false), ("default", vNone)] from rfl] at he
        injection he with h1 h2 h3 h4 h5
        subst h1
        exact Or.inl (by decide)
      · exact absurd hop'' (by simp))⟩

/-! ## C1 — the round-trip property fails on model renames (code bug) -/

/-- A plain `CharField` column `title`. -/
def exTitleChar : FieldState :=
  { name := "title", field_type := "CharField", max_length := vInt 50 }

/-- Old state: model `Old` on table `t` with a table-level index on `title`. -/
def exC1A : ProjectState :=
  ⟨[("Old", ⟨"Old", "t", [("title", exTitleChar)], some [(["title"], false)]⟩)]⟩

/-- New state: the same model renamed to `New` (same table, same fields, same
table-level index). -/
def exC1B : ProjectState :=
  ⟨[("New", ⟨"New", "t", [("title", exTitleChar)], some [(["title"], false)]⟩)]⟩

/-- C1 (code bug): on a pure model rename the differ emits only
`RenameModel` (the index sets of the two states are equal, so no index ops),
but `RenameModel.mutate_state` drops the renamed model's `meta` — folding the
generated operations over the old state yields a state whose canonical index
set for the model is empty while the target state's is not.  The round-trip
property fails even modulo index-set normalization. -/
theorem C1_round_trip_meta_loss :
    diff_states exC1A exC1B [] = .ok [Operation.RenameModel "Old" "New" "t" "t"] ∧
    applyOps [Operation.RenameModel "Old" "New" "t" "t"] exC1A =
      some ⟨[("New", ⟨"New", "t", [("title", exTitleChar)], none⟩)]⟩ ∧
    (alistGet?
      (⟨[("New", ⟨"New", "t", [("title", exTitleChar)], none⟩)]⟩ :
        ProjectState).model_states "New").map model_indexes = some [] ∧
    (alistGet? exC1B.model_states "New").map model_indexes =
      some [(["title"], false)] := by decide

/-! ## C8 — diff(A, A) is empty -/

theorem flatMap_eq_nil_of {α β : Type} (l : List α) (f : α → List β)
    (h : ∀ x ∈ l, f x = []) : l.flatMap f = [] := by
  induction l with
  | nil => rfl
  | cons a t ih =>
      simp only [List.flatMap_cons, h a (List.mem_cons_self a t)]
      exact ih (fun x hx => h x (List.mem_cons_of_mem a hx))

theorem filter_not_contains_self {α : Type} [BEq α] [LawfulBEq α] (l : List α) :
    l.filter (fun k => !(l.contains k)) = [] := by
  rw [List.filter_eq_nil_iff]
  intro a ha
  simp [ha]

theorem removed_models_self (A : ProjectState) : removed_models A A = [] := by
  unfold removed_models
  rw [List.filter_eq_nil_iff]
  intro p hp
  have hm : p.1 ∈ alistKeys A.model_states := List.mem_map.mpr ⟨p, hp, rfl⟩
  simp [hm]

theorem added_models_self (A : ProjectState) : added_models A A = [] := by
  unfold added_models
  rw [List.filter_eq_nil_iff]
  intro p hp
  have hm : p.1 ∈ alistKeys A.model_states := List.mem_map.mpr ⟨p, hp, rfl⟩
  simp [hm]

theorem dictBeq_refl (d : Dict) : Dict.beq d d = true := by
  simp [Dict.beq]

theorem diff_model_fields_self (om : ModelState) (nm : String) :
    diff_model_fields om om nm [] = [] := by
  unfold diff_model_fields
  simp only [filter_not_contains_self]
  simp only [processRenamePairs, sortStrings, List.insertionSort, List.map_nil,
    List.nil_append]
  refine flatMap_eq_nil_of _ _ (fun fname _ => ?_)
  cases h : alistGet? (schema_fields om) fname with
  | none => rfl
  | some fs => simp [dictBeq_refl]

theorem diff_model_indexes_self (om : ModelState) : diff_model_indexes om om = [] := by
  unfold diff_model_indexes
  simp only [filter_not_contains_self]
  rfl

/-- C8: for every ProjectState `A`, `diff_states(A, A)` with an empty rename
map returns the empty operation list. -/
theorem C8_diff_idempotent (A : ProjectState) : diff_states A A [] = .ok [] := by
  have hrem : removed_models A A = [] := removed_models_self A
  have hadd : added_models A A = [] := added_models_self A
  have hrb : removed_batch A A = [] := by
    unfold removed_batch
    rw [hrem, hadd]
    rfl
  have hab : added_batch A A = [] := by
    unfold added_batch
    rw [hrem, hadd]
    rfl
  have hcommon : ∀ nm ∈ sortStrings
      (((alistKeys A.model_states).filter
        (fun k => (alistKeys A.model_states).contains k)).eraseDups),
      (match alistGet? A.model_states nm, alistGet? A.model_states nm with
        | some om, some tm =>
            diff_model_fields om tm nm ((alistGet? ([] : List (String × List (String × String))) nm).getD []) ++
              diff_model_indexes om tm
        | _, _ => []) = [] := by
    intro nm _
    cases h : alistGet? A.model_states nm with
    | none => rfl
    | some om =>
        show diff_model_fields om om nm [] ++ diff_model_indexes om om = []
        rw [diff_model_fields_self, diff_model_indexes_self]
        rfl
  unfold diff_states
  rw [hrem, hadd, hrb, hab]
  simp only [detect_model_renames, List.foldl_nil, List.insertionSort, List.map_nil]
  show (toposort_models_by_fk []).bind _ = _
  rw [show toposort_models_by_fk ([] : List (String × ModelState)) = .ok [] from rfl]
  simp only [Except.bind]
  show (toposort_models_by_fk []).bind _ = _
  rw [show toposort_models_by_fk ([] : List (String × ModelState)) = .ok [] from rfl]
  simp only [Except.bind]
  simp only [List.map_nil, List.reverse_nil, List.flatMap_nil, List.nil_append,
    List.append_nil]
  rw [flatMap_eq_nil_of _ _ hcommon]
  rfl

/-! ## Topological sort: invariants of the Kahn worklist loop -/

theorem alistGet?_of_mem_nodup {α : Type} {l : List (String × α)} {k : String} {v : α}
    (hnd : (l.map Prod.fst).Nodup) (h : (k, v) ∈ l) : alistGet? l k = some v := by
  induction l with
  | nil => simp at h
  | cons p rest ih =>
      obtain ⟨pk, pv⟩ := p
      simp only [List.map_cons, List.nodup_cons] at hnd
      rcases List.mem_cons.mp h with heq | hmem
      · cases heq
        simp [alistGet?]
      · have hk : pk ≠ k := by
          intro he
          exact hnd.1 (he ▸ (List.mem_map.mpr ⟨_, hmem, rfl⟩))
        have hpb : (pk == k) = false := by simpa using hk
        simp [alistGet?, hpb, ih hnd.2 hmem]

theorem setInsert_nodup {α : Type} [DecidableEq α] {l : List α} (hnd : l.Nodup)
    (a : α) : (setInsert l a).Nodup := by
  unfold setInsert
  by_cases h : l.contains a
  · rw [if_pos h]
    exact hnd
  · rw [if_neg h]
    have hna : a ∉ l := by
      intro hm
      exact absurd (List.elem_iff.mpr hm) (by simpa using h)
    simp [List.nodup_append, hnd, hna]

theorem setInsert_subset {α : Type} [DecidableEq α] {l : List α} {a x : α}
    (h : x ∈ setInsert l a) : x ∈ l ∨ x = a := by
  unfold setInsert at h
  by_cases hc : l.contains a
  · rw [if_pos hc] at h
    exact Or.inl h
  · rw [if_neg hc] at h
    rcases List.mem_append.mp h with h | h
    · exact Or.inl h
    · exact Or.inr (by simpa using h)

theorem dep_list_nodup (t2m : List (String × String)) (ms : ModelState) :
    (dep_list t2m ms).Nodup := by
  unfold dep_list
  suffices h : ∀ (fl : List (String × FieldState)) (acc : List String), acc.Nodup →
      (fl.foldl (fun acc p =>
        if FK_TYPES.contains p.2.field_type then
          match alistGet? t2m (pyLower p.2.related_table.strOrEmpty) with
          | some dep => setInsert acc dep
          | none => acc
        else acc) acc).Nodup by
    exact h ms.field_states [] List.nodup_nil
  intro fl
  induction fl with
  | nil => intro acc h; exact h
  | cons p rest ih =>
      intro acc hacc
      simp only [List.foldl_cons]
      by_cases hfk : FK_TYPES.contains p.2.field_type
      · rw [if_pos hfk]
        cases hdep : alistGet? t2m (pyLower p.2.related_table.strOrEmpty) with
        | some dep => exact ih _ (setInsert_nodup hacc dep)
        | none => exact ih _ hacc
      · rw [if_neg hfk]
        exact ih _ hacc

theorem alistSet_mem {α : Type} {l : List (String × α)} {k : String} {v : α}
    {p : String × α} (h : p ∈ alistSet l k v) : p ∈ l ∨ p = (k, v) := by
  induction l with
  | nil => simpa [alistSet] using h
  | cons q rest ih =>
      obtain ⟨qk, qv⟩ := q
      by_cases hq : qk = k
      · subst hq
        simp only [alistSet, beq_self_eq_true, if_true] at h
        rcases List.mem_cons.mp h with he | hm
        · exact Or.inr he
        · exact Or.inl (List.mem_cons_of_mem _ hm)
      · have hqb : (qk == k) = false := by simpa using hq
        simp only [alistSet, hqb, Bool.false_eq_true, if_false] at h
        rcases List.mem_cons.mp h with he | hm
        · exact Or.inl (he ▸ List.mem_cons_self _ _)
        · rcases ih hm with h' | h'
          · exact Or.inl (List.mem_cons_of_mem _ h')
          · exact Or.inr h'

theorem alistGet?_mem {α : Type} {l : List (String × α)} {k : String} {v : α}
    (h : alistGet? l k = some v) : (k, v) ∈ l := by
  induction l with
  | nil => simp [alistGet?] at h
  | cons p rest ih =>
      obtain ⟨pk, pv⟩ := p
      by_cases hp : pk = k
      · subst hp
        simp only [alistGet?, beq_self_eq_true, if_true, Option.some.injEq] at h
        exact h ▸ List.mem_cons_self _ _
      · have hpb : (pk == k) = false := by simpa using hp
        simp only [alistGet?, hpb, Bool.false_eq_true, if_false] at h
        exact List.mem_cons_of_mem _ (ih h)

theorem table_to_model_values (states : List (String × ModelState)) :
    ∀ p ∈ table_to_model states, p.2 ∈ alistKeys states := by
  unfold table_to_model
  suffices h : ∀ (sl : List (String × ModelState)) (acc : List (String × String)),
      (∀ p ∈ acc, p.2 ∈ alistKeys states) →
      (∀ q ∈ sl, q.1 ∈ alistKeys states) →
      ∀ p ∈ sl.foldl (fun acc p => alistSet acc (pyLower p.2.db_table) p.1) acc,
        p.2 ∈ alistKeys states by
    intro p hp
    exact h states [] (by simp) (fun q hq => List.mem_map.mpr ⟨q, hq, rfl⟩) p hp
  intro sl
  induction sl with
  | nil => intro acc hacc _ p hp; exact hacc p hp
  | cons q rest ih =>
      intro acc hacc hsl p hp
      simp only [List.foldl_cons] at hp
      refine ih _ ?_ (fun r hr => hsl r (List.mem_cons_of_mem _ hr)) p hp
      intro r hr
      rcases alistSet_mem hr with h | h
      · exact hacc r h
      · rw [h]
        exact hsl q (List.mem_cons_self _ _)

theorem dep_list_subset (states : List (String × ModelState)) (ms : ModelState) :
    ∀ d ∈ dep_list (table_to_model states) ms, d ∈ alistKeys states := by
  unfold dep_list
  suffices h : ∀ (fl : List (String × FieldState)) (acc : List String),
      (∀ d ∈ acc, d ∈ alistKeys states) →
      ∀ d ∈ fl.foldl (fun acc p =>
        if FK_TYPES.contains p.2.field_type then
          match alistGet? (table_to_model states) (pyLower p.2.related_table.strOrEmpty) with
          | some dep => setInsert acc dep
          | none => acc
        else acc) acc, d ∈ alistKeys states by
    exact h ms.field_states [] (by simp)
  intro fl
  induction fl with
  | nil => intro acc hacc d hd; exact hacc d hd
  | cons p rest ih =>
      intro acc hacc d hd
      simp only [List.foldl_cons] at hd
      by_cases hfk : FK_TYPES.contains p.2.field_type
      · rw [if_pos hfk] at hd
        cases hdep : alistGet? (table_to_model states) (pyLower p.2.related_table.strOrEmpty) with
        | some dep =>
            rw [hdep] at hd
            refine ih _ ?_ d hd
            intro x hx
            rcases setInsert_subset hx with h | h
            · exact hacc x h
            · rw [h]
              exact table_to_model_values states _ (alistGet?_mem hdep)
        | none =>
            rw [hdep] at hd
            exact ih _ hacc d hd
      · rw [if_neg hfk] at hd
        exact ih _ hacc d hd

theorem alistGet?_isSome {α : Type} (l : List (String × α)) (k : String) :
    (alistGet? l k).isSome = true ↔ k ∈ alistKeys l := by
  induction l with
  | nil => simp [alistGet?, alistKeys]
  | cons p rest ih =>
      obtain ⟨pk, pv⟩ := p
      by_cases hp : pk = k
      · subst hp
        simp [alistGet?, alistKeys]
      · have hpb : (pk == k) = false := by simpa using hp
        simp only [alistGet?, hpb, Bool.false_eq_true, if_false, alistKeys,
          List.map_cons, List.mem_cons]
        rw [ih]
        constructor
        · intro h
          exact Or.inr h
        · intro h
          rcases h with h | h
          · exact absurd h.symm hp
          · exact h

theorem popAll_sublist {α : Type} (ks : List String) :
    ∀ (l : List (String × α)), (popAll l ks).Sublist l := by
  induction ks with
  | nil => intro l; exact List.Sublist.refl l
  | cons k ks ih =>
      intro l
      have h1 : (popAll (alistPop l k) ks).Sublist (alistPop l k) := ih _
      have h2 : (alistPop l k).Sublist l := List.filter_sublist l
      exact (h1.trans h2)

theorem contains_concat (out : List String) (n d : String) :
    ((out ++ [n]).contains d) = (out.contains d || (d == n)) := by
  apply Bool.eq_iff_iff.mpr
  simp [List.elem_iff, List.mem_append]

theorem filter_erase_step {l : List String} (hnd : l.Nodup) (out : List String)
    (n : String) :
    (l.filter (fun d => !(out.contains d))).erase n =
      l.filter (fun d => !((out ++ [n]).contains d)) := by
  rw [List.Nodup.erase_eq_filter (List.Nodup.filter _ hnd), List.filter_filter]
  apply List.filter_congr
  intro d _
  rw [contains_concat]
  cases hdo : out.contains d <;> cases hdn : d == n
  · simp [hdo, hdn, beq_eq_false_iff_ne.mp hdn]
  · simp [hdo, hdn, beq_iff_eq.mp hdn]
  · simp [hdo, hdn]
  · simp [hdo, hdn]

theorem sweep_fst (n : String) (out : List String) :
    ∀ (deps : List (String × List String)) (ready : List String),
      (sweep n out deps ready).1 = deps.map (fun p => (p.1, p.2.erase n)) := by
  intro deps
  induction deps with
  | nil => intro ready; rfl
  | cons p rest ih =>
      intro ready
      obtain ⟨m, ds⟩ := p
      simp [sweep, ih]

theorem sweep_snd_mem (n : String) (out : List String) :
    ∀ (deps : List (String × List String)) (ready : List String) (m : String),
      m ∈ (sweep n out deps ready).2 →
      m ∈ ready ∨ ∃ ds, (m, ds) ∈ deps ∧ n ∈ ds ∧ ds.erase n = [] ∧ m ∉ out := by
  intro deps
  induction deps with
  | nil => intro ready m h; exact Or.inl h
  | cons p rest ih =>
      intro ready m h
      obtain ⟨q, ds⟩ := p
      simp only [sweep] at h
      by_cases hc : n ∈ ds ∧ ds.erase n = [] ∧ q ∉ out ∧ q ∉ ready
      · rw [if_pos hc] at h
        rcases ih _ m h with hm | ⟨ds2, hds2, h1, h2, h3⟩
        · rcases List.mem_append.mp hm with hm | hm
          · exact Or.inl hm
          · have hq : m = q := by simpa using hm
            subst hq
            exact Or.inr ⟨ds, List.mem_cons_self _ _, hc.1, hc.2.1, hc.2.2.1⟩
        · exact Or.inr ⟨ds2, List.mem_cons_of_mem _ hds2, h1, h2, h3⟩
      · rw [if_neg hc] at h
        rcases ih _ m h with hm | ⟨ds2, hds2, h1, h2, h3⟩
        · exact Or.inl hm
        · exact Or.inr ⟨ds2, List.mem_cons_of_mem _ hds2, h1, h2, h3⟩

theorem sweep_snd_nodup (n : String) (out : List String) :
    ∀ (deps : List (String × List String)) (ready : List String), ready.Nodup →
      (sweep n out deps ready).2.Nodup := by
  intro deps
  induction deps with
  | nil => intro ready h; exact h
  | cons p rest ih =>
      intro ready h
      obtain ⟨q, ds⟩ := p
      simp only [sweep]
      by_cases hc : n ∈ ds ∧ ds.erase n = [] ∧ q ∉ out ∧ q ∉ ready
      · rw [if_pos hc]
        refine ih _ ?_
        simp [List.nodup_append, h, hc.2.2.2]
      · rw [if_neg hc]
        exact ih _ h

/-- The soundness invariant of the Kahn worklist loop, stated against the
fixed initial dependency map `dl`.  `deps` always equals `dl` with the
already-emitted names filtered out of every dependency list; everything in
`out ++ ready` is duplicate-free and drawn from the batch; every queued
name's original dependencies are already emitted; and every emitted name's
original dependencies precede it in `out`. -/
structure KahnInv (dl deps : List (String × List String))
    (ready out : List String) : Prop where
  deps_eq : deps = dl.map (fun p => (p.1, p.2.filter (fun d => !(out.contains d))))
  nodup : (out ++ ready).Nodup
  out_sub : ∀ m ∈ out, m ∈ alistKeys dl
  ready_sub : ∀ m ∈ ready, m ∈ alistKeys dl
  ready_deps : ∀ m ∈ ready, ∀ ds, alistGet? dl m = some ds → ∀ d ∈ ds, d ∈ out
  ordered : ∀ (i : Nat) (h : i < out.length), ∀ ds,
      alistGet? dl (out.get ⟨i, h⟩) = some ds → ∀ d ∈ ds, d ∈ out.take i

theorem kahnInv_init (dl : List (String × List String))
    (hkeys : (alistKeys dl).Nodup) :
    KahnInv dl dl
      (sortStrings ((dl.filter (fun p => p.2.isEmpty)).map Prod.fst)) [] := by
  have hready_mem : ∀ m ∈ sortStrings ((dl.filter (fun p => p.2.isEmpty)).map Prod.fst),
      ∃ p, p ∈ dl ∧ p.1 = m ∧ p.2.isEmpty = true := by
    intro m hm
    have hm2 : m ∈ (dl.filter (fun p => p.2.isEmpty)).map Prod.fst :=
      (List.perm_insertionSort _ _).mem_iff.mp hm
    obtain ⟨p, hp, hpm⟩ := List.mem_map.mp hm2
    have hfe := List.of_mem_filter hp
    exact ⟨p, List.mem_of_mem_filter hp, hpm, hfe⟩
  refine ⟨?_, ?_, ?_, ?_, ?_, ?_⟩
  · rw [show (fun p : String × List String =>
        (p.1, p.2.filter (fun d => !((List.nil).contains d)))) =
        (fun p : String × List String => (p.1, p.2.filter (fun d => true))) from rfl]
    rw [show dl.map (fun p : String × List String =>
        (p.1, p.2.filter (fun d => true))) =
        dl.map (fun p : String × List String => (p.1, p.2)) by
      apply List.map_congr_left
      intro p hp
      rw [List.filter_true]]
    exact (List.map_id dl).symm
  · rw [List.nil_append]
    have hsub : ((dl.filter (fun p => p.2.isEmpty)).map Prod.fst).Sublist
        (dl.map Prod.fst) := List.Sublist.map _ (List.filter_sublist dl)
    exact (List.perm_insertionSort _ _).nodup_iff.mpr
      (List.Nodup.sublist hsub hkeys)
  · intro m hm
    simp at hm
  · intro m hm
    obtain ⟨p, hp, hpm, _⟩ := hready_mem m hm
    exact hpm ▸ List.mem_map.mpr ⟨p, hp, rfl⟩
  · intro m hm ds hds
    obtain ⟨p, hp, hpm, hempty⟩ := hready_mem m hm
    have hmem : (m, p.2) ∈ dl := by
      rw [← hpm]
      exact hp
    have := alistGet?_of_mem_nodup hkeys hmem
    rw [hds] at this
    have hds2 : ds = p.2 := Option.some.inj this
    intro d hd
    rw [hds2] at hd
    rw [List.isEmpty_iff.mp hempty] at hd
    simp at hd
  · intro i h
    simp at h

theorem kahnInv_step (dl : List (String × List String))
    (hkeys : (alistKeys dl).Nodup) (hvals : ∀ p ∈ dl, p.2.Nodup)
    (deps : List (String × List String)) (n : String) (rest out : List String)
    (hinv : KahnInv dl deps (n :: rest) out) :
    KahnInv dl (sweep n (out ++ [n]) deps rest).1
      (sortStrings (sweep n (out ++ [n]) deps rest).2) (out ++ [n]) := by
  obtain ⟨hdeps, hnodup, hout_sub, hready_sub, hready_deps, hordered⟩ := hinv
  rw [List.nodup_append] at hnodup
  obtain ⟨hout_nd, hnr_nd, hdisj⟩ := hnodup
  rw [List.nodup_cons] at hnr_nd
  obtain ⟨hn_rest, hrest_nd⟩ := hnr_nd
  have hn_out : n ∉ out := fun h => hdisj h (List.mem_cons_self _ _)
  have hout_rest : ∀ m ∈ rest, m ∉ out :=
    fun m hm ho => hdisj ho (List.mem_cons_of_mem _ hm)
  have horigin : ∀ m ∈ sortStrings (sweep n (out ++ [n]) deps rest).2,
      m ∈ rest ∨ ∃ p, p ∈ dl ∧ p.1 = m ∧ m ∉ out ++ [n] ∧
        ∀ d ∈ p.2, d ∈ out ++ [n] := by
    intro m hm
    have hm2 : m ∈ (sweep n (out ++ [n]) deps rest).2 :=
      (List.perm_insertionSort _ _).mem_iff.mp hm
    rcases sweep_snd_mem n (out ++ [n]) deps rest m hm2 with
      h | ⟨ds, hds, hnin, herase, hnout⟩
    · exact Or.inl h
    · rw [hdeps] at hds
      obtain ⟨p, hp, hpe⟩ := List.mem_map.mp hds
      have hp1 : p.1 = m := congrArg Prod.fst hpe
      have hp2 : p.2.filter (fun d => !(out.contains d)) = ds :=
        congrArg Prod.snd hpe
      refine Or.inr ⟨p, hp, hp1, hnout, ?_⟩
      intro d hd
      by_cases hdo : d ∈ out
      · exact List.mem_append.mpr (Or.inl hdo)
      · have hdc : (out.contains d) = false :=
          Bool.eq_false_iff.mpr (fun h => hdo (List.elem_iff.mp h))
        have hdin : d ∈ ds := by
          rw [← hp2]
          exact List.mem_filter.mpr ⟨hd, by simpa using hdo⟩
        by_cases hdn : d = n
        · rw [hdn]
          exact List.mem_append.mpr (Or.inr (List.mem_singleton.mpr rfl))
        · have hde : d ∈ ds.erase n := (List.mem_erase_of_ne hdn).mpr hdin
          rw [herase] at hde
          simp at hde
  refine ⟨?_, ?_, ?_, ?_, ?_, ?_⟩
  · rw [sweep_fst, hdeps, List.map_map]
    apply List.map_congr_left
    intro p hp
    show (p.1, (p.2.filter (fun d => !(out.contains d))).erase n) =
      (p.1, p.2.filter (fun d => !((out ++ [n]).contains d)))
    rw [filter_erase_step (hvals p hp)]
  · rw [List.nodup_append]
    refine ⟨?_, ?_, ?_⟩
    · rw [List.nodup_append]
      exact ⟨hout_nd, List.nodup_singleton n,
        fun a ha hb => hn_out ((List.mem_singleton.mp hb) ▸ ha)⟩
    · exact (List.perm_insertionSort _ _).nodup_iff.mpr
        (sweep_snd_nodup n (out ++ [n]) deps rest hrest_nd)
    · intro a ha hb
      rcases horigin a hb with h | ⟨p, _, _, hnot, _⟩
      · rcases List.mem_append.mp ha with ha2 | ha2
        · exact hout_rest a h ha2
        · exact hn_rest ((List.mem_singleton.mp ha2) ▸ h)
      · exact hnot ha
  · intro m hm
    rcases List.mem_append.mp hm with h | h
    · exact hout_sub m h
    · rw [List.mem_singleton.mp h]
      exact hready_sub n (List.mem_cons_self _ _)
  · intro m hm
    rcases horigin m hm with h | ⟨p, hp, hp1, _, _⟩
    · exact hready_sub m (List.mem_cons_of_mem _ h)
    · rw [← hp1]
      exact List.mem_map.mpr ⟨p, hp, rfl⟩
  · intro m hm ds hds
    rcases horigin m hm with h | ⟨p, hp, hp1, _, hall⟩
    · intro d hd
      exact List.mem_append.mpr
        (Or.inl (hready_deps m (List.mem_cons_of_mem _ h) ds hds d hd))
    · have hmem : (m, p.2) ∈ dl := by
        rw [← hp1]
        exact hp
      have h2 := alistGet?_of_mem_nodup hkeys hmem
      rw [hds] at h2
      have hds2 : ds = p.2 := Option.some.inj h2
      intro d hd
      exact hall d (hds2 ▸ hd)
  · intro i hlen ds hds d hd
    by_cases hi : i < out.length
    · have hget : (out ++ [n]).get ⟨i, hlen⟩ = out.get ⟨i, hi⟩ := by
        simp only [List.get_eq_getElem]
        exact List.getElem_append_left hi
      rw [hget] at hds
      have htake : (out ++ [n]).take i = out.take i :=
        List.take_append_of_le_length (Nat.le_of_lt hi)
      rw [htake]
      exact hordered i hi ds hds d hd
    · have hieq : i = out.length := by
        have : i < out.length + 1 := by simpa using hlen
        omega
      subst hieq
      have hget : (out ++ [n]).get ⟨out.length, hlen⟩ = n := by
        simp
      rw [hget] at hds
      have htake : (out ++ [n]).take out.length = out := List.take_left out [n]
      rw [htake]
      exact hready_deps n (List.mem_cons_self _ _) ds hds d hd

theorem kahnLoop_inv (dl : List (String × List String))
    (hkeys : (alistKeys dl).Nodup) (hvals : ∀ p ∈ dl, p.2.Nodup)
    (C : List String)
    (hC : ∀ c ∈ C, ∃ ds, alistGet? dl c = some ds ∧ ∃ d, d ∈ ds ∧ d ∈ C) :
    ∀ (fuel : Nat) (deps : List (String × List String)) (ready out : List String),
      KahnInv dl deps ready out → (∀ c ∈ C, c ∉ out) →
      ∃ ready2, KahnInv dl (kahnLoop fuel deps ready out).2 ready2
          (kahnLoop fuel deps ready out).1 ∧
        ∀ c ∈ C, c ∉ (kahnLoop fuel deps ready out).1 := by
  intro fuel
  induction fuel with
  | zero =>
      intro deps ready out hinv havoid
      exact ⟨ready, hinv, havoid⟩
  | succ fuel ih =>
      intro deps ready out hinv havoid
      cases ready with
      | nil =>
          exact ⟨[], hinv, havoid⟩
      | cons n rest =>
          have hnC : n ∉ C := by
            intro hn
            obtain ⟨ds, hds, d, hd, hdC⟩ := hC n hn
            exact havoid d hdC
              (hinv.ready_deps n (List.mem_cons_self _ _) ds hds d hd)
          have havoid2 : ∀ c ∈ C, c ∉ out ++ [n] := by
            intro c hc hmem
            rcases List.mem_append.mp hmem with h | h
            · exact havoid c hc h
            · exact hnC ((List.mem_singleton.mp h) ▸ hc)
          have hstep := kahnInv_step dl hkeys hvals deps n rest out hinv
          have hres := ih (sweep n (out ++ [n]) deps rest).1
            (sortStrings (sweep n (out ++ [n]) deps rest).2) (out ++ [n])
            hstep havoid2
          simpa [kahnLoop] using hres

/-- The full Kahn run of `_toposort_models_by_fk` on a batch. -/
def kahnRun (states : List (String × ModelState)) :
    List String × List (String × List String) :=
  kahnLoop states.length (batch_deps states)
    (sortStrings (((batch_deps states).filter (fun p => p.2.isEmpty)).map Prod.fst))
    []

theorem toposort_eq_run (states : List (String × ModelState)) :
    toposort_models_by_fk states =
      (if (kahnRun states).1.length == states.length then .ok (kahnRun states).1
       else .error (cycleMsg
         (((kahnRun states).2.filter (fun p => !p.2.isEmpty)).map Prod.fst))) := rfl

theorem batch_deps_keys (states : List (String × ModelState)) :
    alistKeys (batch_deps states) = alistKeys states := by
  unfold batch_deps alistKeys
  rw [List.map_map]
  apply List.map_congr_left
  intro p hp
  rfl

theorem batch_deps_get (states : List (String × ModelState)) (k : String) :
    alistGet? (batch_deps states) k =
      (alistGet? states k).map (fun ms => dep_list (table_to_model states) ms) :=
  alistGet?_map_value states _ k

theorem batch_deps_vals (states : List (String × ModelState)) :
    ∀ p ∈ batch_deps states, p.2.Nodup := by
  intro p hp
  obtain ⟨q, hq, he⟩ := List.mem_map.mp hp
  rw [← he]
  exact dep_list_nodup _ _

theorem toposort_run (states : List (String × ModelState))
    (hkeys : (alistKeys states).Nodup) (C : List String)
    (hC : ∀ c ∈ C, ∃ ms, alistGet? states c = some ms ∧
      ∃ d, d ∈ dep_list (table_to_model states) ms ∧ d ∈ C) :
    ∃ ready2, KahnInv (batch_deps states) (kahnRun states).2 ready2
        (kahnRun states).1 ∧
      ∀ c ∈ C, c ∉ (kahnRun states).1 := by
  have hdlkeys : (alistKeys (batch_deps states)).Nodup := by
    rw [batch_deps_keys]
    exact hkeys
  have hC2 : ∀ c ∈ C, ∃ ds, alistGet? (batch_deps states) c = some ds ∧
      ∃ d, d ∈ ds ∧ d ∈ C := by
    intro c hc
    obtain ⟨ms, hms, d, hd, hdC⟩ := hC c hc
    refine ⟨dep_list (table_to_model states) ms, ?_, d, hd, hdC⟩
    rw [batch_deps_get, hms]
    rfl
  exact kahnLoop_inv (batch_deps states) hdlkeys (batch_deps_vals states) C hC2
    states.length (batch_deps states) _ [] (kahnInv_init _ hdlkeys) (by simp)

theorem toposort_ok_spec (states : List (String × ModelState))
    (hkeys : (alistKeys states).Nodup) (order : List String)
    (h : toposort_models_by_fk states = .ok order) :
    order.Perm (alistKeys states) ∧
    ∀ (i : Nat) (hi : i < order.length) (ms : ModelState),
      alistGet? states (order.get ⟨i, hi⟩) = some ms →
      ∀ d ∈ dep_list (table_to_model states) ms, d ∈ order.take i := by
  obtain ⟨ready2, hinv, _⟩ := toposort_run states hkeys [] (by simp)
  rw [toposort_eq_run] at h
  by_cases hlen : ((kahnRun states).1.length == states.length) = true
  · rw [if_pos hlen] at h
    have horder : order = (kahnRun states).1 := (Except.ok.inj h).symm
    subst horder
    have hnd : (kahnRun states).1.Nodup := (List.nodup_append.mp hinv.nodup).1
    have hsub : (kahnRun states).1 ⊆ alistKeys states := by
      intro m hm
      have hk := hinv.out_sub m hm
      rwa [batch_deps_keys] at hk
    constructor
    · apply List.Subperm.perm_of_length_le (List.Nodup.subperm hnd hsub)
      have hlen2 : (kahnRun states).1.length = states.length := by
        simpa using hlen
      rw [hlen2]
      simp [alistKeys]
    · intro i hi ms hms d hd
      refine hinv.ordered i hi (dep_list (table_to_model states) ms) ?_ d hd
      rw [batch_deps_get, hms]
      rfl
  · rw [if_neg hlen] at h
    exact absurd h (by simp)

theorem toposort_cycle_spec (states : List (String × ModelState))
    (hkeys : (alistKeys states).Nodup) (C : List String) (hne : C ≠ [])
    (hC : ∀ c ∈ C, ∃ ms, alistGet? states c = some ms ∧
      ∃ d, d ∈ dep_list (table_to_model states) ms ∧ d ∈ C) :
    ∃ leftover, toposort_models_by_fk states = .error (cycleMsg leftover) ∧
      ∀ c ∈ C, c ∈ leftover := by
  obtain ⟨ready2, hinv, havoid⟩ := toposort_run states hkeys C hC
  obtain ⟨c0, hc0⟩ := List.exists_mem_of_ne_nil C hne
  have hc0keys : c0 ∈ alistKeys states := by
    obtain ⟨ms, hms, _⟩ := hC c0 hc0
    exact List.mem_map.mpr ⟨(c0, ms), alistGet?_mem hms, rfl⟩
  have hnd : (kahnRun states).1.Nodup := (List.nodup_append.mp hinv.nodup).1
  have hsub : (kahnRun states).1 ⊆ alistKeys states := by
    intro m hm
    have hk := hinv.out_sub m hm
    rwa [batch_deps_keys] at hk
  have hlt : (kahnRun states).1.length ≠ states.length := by
    intro heq
    have hperm : (kahnRun states).1.Perm (alistKeys states) := by
      apply List.Subperm.perm_of_length_le (List.Nodup.subperm hnd hsub)
      rw [heq]
      simp [alistKeys]
    exact havoid c0 hc0 (hperm.mem_iff.mpr hc0keys)
  have hbeq : ((kahnRun states).1.length == states.length) = false := by
    simpa using hlt
  refine ⟨((kahnRun states).2.filter (fun p => !p.2.isEmpty)).map Prod.fst, ?_, ?_⟩
  · rw [toposort_eq_run]
    simp [hbeq]
  · intro c hc
    obtain ⟨ms, hms, d, hd, hdC⟩ := hC c hc
    have hentry : (c, (dep_list (table_to_model states) ms).filter
        (fun d => !((kahnRun states).1.contains d))) ∈ (kahnRun states).2 := by
      rw [hinv.deps_eq]
      refine List.mem_map.mpr ⟨(c, dep_list (table_to_model states) ms), ?_, rfl⟩
      exact List.mem_map.mpr ⟨(c, ms), alistGet?_mem hms, rfl⟩
    have hdkeep : d ∈ (dep_list (table_to_model states) ms).filter
        (fun d => !((kahnRun states).1.contains d)) := by
      refine List.mem_filter.mpr ⟨hd, ?_⟩
      have hnotin : d ∉ (kahnRun states).1 := havoid d hdC
      simpa using hnotin
    have hne2 : (((dep_list (table_to_model states) ms).filter
        (fun d => !((kahnRun states).1.contains d))).isEmpty) = false :=
      Bool.eq_false_iff.mpr
        (fun h2 => (List.ne_nil_of_mem hdkeep) (List.isEmpty_iff.mp h2))
    refine List.mem_map.mpr ⟨(c, (dep_list (table_to_model states) ms).filter
      (fun d => !((kahnRun states).1.contains d))),
      List.mem_filter.mpr ⟨hentry, ?_⟩, rfl⟩
    simp only [hne2, Bool.not_false]

theorem removed_batch_sublist (from_state to_state : ProjectState) :
    (removed_batch from_state to_state).Sublist from_state.model_states := by
  have h1 : (removed_batch from_state to_state).Sublist
      (removed_models from_state to_state) := popAll_sublist _ _
  exact h1.trans (List.filter_sublist _)

theorem added_batch_sublist (from_state to_state : ProjectState) :
    (added_batch from_state to_state).Sublist to_state.model_states := by
  have h1 : (added_batch from_state to_state).Sublist
      (added_models from_state to_state) := popAll_sublist _ _
  exact h1.trans (List.filter_sublist _)

theorem removed_batch_keys_nodup (from_state to_state : ProjectState)
    (h : (alistKeys from_state.model_states).Nodup) :
    (alistKeys (removed_batch from_state to_state)).Nodup :=
  List.Nodup.sublist (List.Sublist.map _ (removed_batch_sublist from_state to_state)) h

theorem added_batch_keys_nodup (from_state to_state : ProjectState)
    (h : (alistKeys to_state.model_states).Nodup) :
    (alistKeys (added_batch from_state to_state)).Nodup :=
  List.Nodup.sublist (List.Sublist.map _ (added_batch_sublist from_state to_state)) h

theorem diff_states_removed_err (from_state to_state : ProjectState)
    (rename_map : List (String × List (String × String))) (e : String)
    (hrem : toposort_models_by_fk (removed_batch from_state to_state) = .error e) :
    diff_states from_state to_state rename_map = .error e := by
  simp only [diff_states]
  rw [hrem]
  rfl

theorem diff_states_added_err (from_state to_state : ProjectState)
    (rename_map : List (String × List (String × String)))
    (orderedRemoved : List String) (e : String)
    (hrem : toposort_models_by_fk (removed_batch from_state to_state) =
      .ok orderedRemoved)
    (hadd : toposort_models_by_fk (added_batch from_state to_state) = .error e) :
    diff_states from_state to_state rename_map = .error e := by
  simp only [diff_states]
  rw [hrem]
  show (Except.ok orderedRemoved).bind _ = _
  simp only [Except.bind]
  rw [hadd]
  rfl

/-- The model-rename segment of `diff_states`. -/
def renameOpsOf (from_state to_state : ProjectState) : List Operation :=
  (detect_model_renames (removed_models from_state to_state)
      (added_models from_state to_state)).map (fun pr =>
    match alistGet? (removed_models from_state to_state) pr.1,
        alistGet? (added_models from_state to_state) pr.2 with
    | some oms, some nms =>
        Operation.RenameModel pr.1 pr.2 oms.db_table nms.db_table
    | _, _ => Operation.RenameModel pr.1 pr.2 "" "")

/-- The `RemoveModel` operation `diff_states` emits for one removed model. -/
def removeOpFor (removedB : List (String × ModelState)) (nm : String) : Operation :=
  match alistGet? removedB nm with
  | some m => Operation.RemoveModel nm m.db_table
  | none => Operation.RemoveModel nm ""

/-- The `CreateModel`/`CreateIndex` block `diff_states` emits for one added
model. -/
def createOpsFor (addedB : List (String × ModelState)) (nm : String) :
    List Operation :=
  match alistGet? addedB nm with
  | some m =>
      CreateModel.from_model_state m ::
        (sortIndexes (model_indexes m)).map (fun e =>
          mkCreateIndex m.name m.db_table e.1 e.2)
  | none => []

/-- The common-model field/index diff segment of `diff_states`. -/
def commonOpsOf (from_state to_state : ProjectState)
    (rename_map : List (String × List (String × String))) : List Operation :=
  (sortStrings (((alistKeys from_state.model_states).filter
      (fun k => (alistKeys to_state.model_states).contains k)).eraseDups)).flatMap
    (fun nm =>
      match alistGet? from_state.model_states nm,
          alistGet? to_state.model_states nm with
      | some om, some tm =>
          diff_model_fields om tm nm ((alistGet? rename_map nm).getD []) ++
            diff_model_indexes om tm
      | _, _ => [])

/-- The renamed-model field/index diff segment of `diff_states`. -/
def renamedOpsOf (from_state to_state : ProjectState)
    (rename_map : List (String × List (String × String))) : List Operation :=
  (detect_model_renames (removed_models from_state to_state)
      (added_models from_state to_state)).flatMap (fun pr =>
    match alistGet? from_state.model_states pr.1,
        alistGet? to_state.model_states pr.2 with
    | some om, some tm =>
        diff_model_fields om tm pr.2
            (if ((alistGet? rename_map pr.2).getD []).isEmpty then
              (alistGet? rename_map pr.1).getD []
            else (alistGet? rename_map pr.2).getD []) ++
          diff_model_indexes om tm
    | _, _ => [])

theorem diff_states_run (from_state to_state : ProjectState)
    (rename_map : List (String × List (String × String)))
    (orderedRemoved orderedAdded : List String)
    (hrem : toposort_models_by_fk (removed_batch from_state to_state) =
      .ok orderedRemoved)
    (hadd : toposort_models_by_fk (added_batch from_state to_state) =
      .ok orderedAdded) :
    diff_states from_state to_state rename_map = .ok (
      renameOpsOf from_state to_state ++
      orderedRemoved.reverse.map (removeOpFor (removed_batch from_state to_state)) ++
      orderedAdded.flatMap (createOpsFor (added_batch from_state to_state)) ++
      commonOpsOf from_state to_state rename_map ++
      renamedOpsOf from_state to_state rename_map) := by
  simp only [diff_states]
  rw [hrem]
  show (Except.ok orderedRemoved).bind _ = _
  simp only [Except.bind]
  rw [hadd]
  show (Except.ok orderedAdded).bind _ = _
  simp only [Except.bind]
  rfl

/-! ## C3 — cycle detection in the FK dependency graph -/

/-- A pair of models whose FK fields reference each other's tables, living in
one creation batch. -/
def exCycX : FieldState :=
  { name := "y", field_type := "ForeignKeyFieldInstance", related_table := vStr "ytab" }

def exCycY : FieldState :=
  { name := "x", field_type := "ForeignKeyFieldInstance", related_table := vStr "xtab" }

def exCycState : ProjectState :=
  ⟨[("X", ⟨"X", "xtab", [("y", exCycX)], none⟩),
    ("Y", ⟨"Y", "ytab", [("x", exCycY)], none⟩)]⟩

/-- C3: if the FK dependency graph of the added batch contains a cyclic set
`C` (every member of `C` has an FK dependency on some member of `C`), the
topological sort fails with the cycle error message, the cyclic set is
contained in the reported leftover set, and `diff_states` returns an error
rather than any operation list. -/
theorem C3_cycle_error (from_state to_state : ProjectState)
    (rename_map : List (String × List (String × String)))
    (hto : (alistKeys to_state.model_states).Nodup)
    (C : List String) (hne : C ≠ [])
    (hC : ∀ c ∈ C, ∃ ms,
      alistGet? (added_batch from_state to_state) c = some ms ∧
      ∃ d, d ∈ dep_list (table_to_model (added_batch from_state to_state)) ms ∧
        d ∈ C) :
    ∃ leftover,
      toposort_models_by_fk (added_batch from_state to_state) =
        .error (cycleMsg leftover) ∧
      (∀ c ∈ C, c ∈ leftover) ∧
      ∃ e, diff_states from_state to_state rename_map = .error e := by
  obtain ⟨leftover, herr, hmem⟩ :=
    toposort_cycle_spec (added_batch from_state to_state)
      (added_batch_keys_nodup from_state to_state hto) C hne hC
  refine ⟨leftover, herr, hmem, ?_⟩
  cases hrem : toposort_models_by_fk (removed_batch from_state to_state) with
  | error e => exact ⟨e, diff_states_removed_err _ _ _ e hrem⟩
  | ok oR =>
      exact ⟨cycleMsg leftover, diff_states_added_err _ _ _ oR _ hrem herr⟩

/-- C3 witness: two fresh models with mutual FK references form a cycle; the
differ reports it and emits nothing. -/
theorem C3_cycle_error_witness :
    ∃ leftover,
      toposort_models_by_fk (added_batch ⟨[]⟩ exCycState) =
        .error (cycleMsg leftover) ∧
      (∀ c ∈ ["X", "Y"], c ∈ leftover) ∧
      ∃ e, diff_states ⟨[]⟩ exCycState [] = .error e := by
  refine C3_cycle_error ⟨[]⟩ exCycState [] (by decide) ["X", "Y"] (by decide) ?_
  intro c hc
  rw [List.mem_cons] at hc
  rcases hc with rfl | hc
  · exact ⟨⟨"X", "xtab", [("y", exCycX)], none⟩, by decide, "Y", by decide, by decide⟩
  rw [List.mem_cons] at hc
  rcases hc with rfl | hc
  · exact ⟨⟨"Y", "ytab", [("x", exCycY)], none⟩, by decide, "X", by decide, by decide⟩
  simp at hc

/-! ## C2 — topological ordering of CreateModel/RemoveModel -/

theorem take_get_decomp {l : List String} {i : Nat} (hi : i < l.length)
    {d : String} (hd : d ∈ l.take i) :
    ∃ pre mid post, l = pre ++ d :: (mid ++ l.get ⟨i, hi⟩ :: post) := by
  obtain ⟨pre, mid0, htake⟩ := List.append_of_mem hd
  refine ⟨pre, mid0, l.drop (i + 1), ?_⟩
  conv_lhs => rw [← List.take_append_drop i l]
  rw [htake, List.drop_eq_getElem_cons hi]
  simp [List.get_eq_getElem, List.append_assoc]

/-- C2: in the operation list returned by `diff_states`, whenever an added
model `n` holds an FK referencing added model `d`'s table, the `CreateModel`
of `d` precedes the `CreateModel` of `n`; and whenever a removed model `n`
holds an FK referencing removed model `d`'s table, the `RemoveModel` of `n`
precedes the `RemoveModel` of `d` (reverse topological order). -/
theorem C2_fk_topological_order (from_state to_state : ProjectState)
    (rename_map : List (String × List (String × String))) (ops : List Operation)
    (hfrom : (alistKeys from_state.model_states).Nodup)
    (hto : (alistKeys to_state.model_states).Nodup)
    (hnames : ∀ p ∈ to_state.model_states, p.2.name = p.1)
    (h : diff_states from_state to_state rename_map = .ok ops) :
    (∀ n ms d, alistGet? (added_batch from_state to_state) n = some ms →
      d ∈ dep_list (table_to_model (added_batch from_state to_state)) ms →
      ∃ A B E dbd fld dbn fln, ops = A ++ Operation.CreateModel d dbd fld ::
        (B ++ Operation.CreateModel n dbn fln :: E)) ∧
    (∀ n ms d, alistGet? (removed_batch from_state to_state) n = some ms →
      d ∈ dep_list (table_to_model (removed_batch from_state to_state)) ms →
      ∃ A B E dbn dbd, ops = A ++ Operation.RemoveModel n dbn ::
        (B ++ Operation.RemoveModel d dbd :: E)) := by
  cases hrem : toposort_models_by_fk (removed_batch from_state to_state) with
  | error e =>
      rw [diff_states_removed_err from_state to_state rename_map e hrem] at h
      exact absurd h (by simp)
  | ok oR =>
  cases hadd : toposort_models_by_fk (added_batch from_state to_state) with
  | error e =>
      rw [diff_states_added_err from_state to_state rename_map oR e hrem hadd] at h
      exact absurd h (by simp)
  | ok oA =>
  have hrun := diff_states_run from_state to_state rename_map oR oA hrem hadd
  rw [hrun] at h
  have hops := (Except.ok.inj h).symm
  obtain ⟨hpermA, hordA⟩ := toposort_ok_spec (added_batch from_state to_state)
    (added_batch_keys_nodup from_state to_state hto) oA hadd
  obtain ⟨hpermR, hordR⟩ := toposort_ok_spec (removed_batch from_state to_state)
    (removed_batch_keys_nodup from_state to_state hfrom) oR hrem
  constructor
  · intro n ms d hms hd
    have hnk : n ∈ alistKeys (added_batch from_state to_state) :=
      (alistGet?_isSome _ _).mp (by rw [hms]; rfl)
    have hnA : n ∈ oA := hpermA.mem_iff.mpr hnk
    obtain ⟨j, hget⟩ := List.mem_iff_get.mp hnA
    have hms2 : alistGet? (added_batch from_state to_state) (oA.get j) = some ms := by
      rw [hget]
      exact hms
    have hdtake : d ∈ oA.take j.1 := hordA j.1 j.2 ms hms2 d hd
    obtain ⟨pre, mid, post, hdec⟩ := take_get_decomp j.2 hdtake
    rw [show oA.get ⟨j.1, j.2⟩ = n from hget] at hdec
    have hdk : d ∈ alistKeys (added_batch from_state to_state) :=
      dep_list_subset (added_batch from_state to_state) ms d hd
    obtain ⟨md, hmd⟩ := Option.isSome_iff_exists.mp ((alistGet?_isSome _ _).mpr hdk)
    have hmdname : md.name = d :=
      hnames (d, md) (List.Sublist.subset (added_batch_sublist from_state to_state)
        (alistGet?_mem hmd))
    have hmsname : ms.name = n :=
      hnames (n, ms) (List.Sublist.subset (added_batch_sublist from_state to_state)
        (alistGet?_mem hms))
    have hfd : createOpsFor (added_batch from_state to_state) d =
        Operation.CreateModel d md.db_table
          ((((md.field_states.map Prod.snd).filter
              (fun fs => is_schema_field_type fs.field_type)).insertionSort
            (fun f g => sortKeyLe (column_sort_key f) (column_sort_key g))).map
            (fun fs => (fs.name, fs.field_type, compact_opts_for_code fs.options))) ::
          (sortIndexes (model_indexes md)).map (fun e =>
            mkCreateIndex md.name md.db_table e.1 e.2) := by
      unfold createOpsFor
      rw [hmd, ← hmdname]
      rfl
    have hfn : createOpsFor (added_batch from_state to_state) n =
        Operation.CreateModel n ms.db_table
          ((((ms.field_states.map Prod.snd).filter
              (fun fs => is_schema_field_type fs.field_type)).insertionSort
            (fun f g => sortKeyLe (column_sort_key f) (column_sort_key g))).map
            (fun fs => (fs.name, fs.field_type, compact_opts_for_code fs.options))) ::
          (sortIndexes (model_indexes ms)).map (fun e =>
            mkCreateIndex ms.name ms.db_table e.1 e.2) := by
      unfold createOpsFor
      rw [hms, ← hmsname]
      rfl
    refine ⟨renameOpsOf from_state to_state ++
        oR.reverse.map (removeOpFor (removed_batch from_state to_state)) ++
        pre.flatMap (createOpsFor (added_batch from_state to_state)),
      (sortIndexes (model_indexes md)).map (fun e =>
        mkCreateIndex md.name md.db_table e.1 e.2) ++
        mid.flatMap (createOpsFor (added_batch from_state to_state)),
      (sortIndexes (model_indexes ms)).map (fun e =>
        mkCreateIndex ms.name ms.db_table e.1 e.2) ++
        post.flatMap (createOpsFor (added_batch from_state to_state)) ++
        commonOpsOf from_state to_state rename_map ++
        renamedOpsOf from_state to_state rename_map,
      md.db_table,
      (((md.field_states.map Prod.snd).filter
          (fun fs => is_schema_field_type fs.field_type)).insertionSort
        (fun f g => sortKeyLe (column_sort_key f) (column_sort_key g))).map
        (fun fs => (fs.name, fs.field_type, compact_opts_for_code fs.options)),
      ms.db_table,
      (((ms.field_states.map Prod.snd).filter
          (fun fs => is_schema_field_type fs.field_type)).insertionSort
        (fun f g => sortKeyLe (column_sort_key f) (column_sort_key g))).map
        (fun fs => (fs.name, fs.field_type, compact_opts_for_code fs.options)),
      ?_⟩
    rw [hops, hdec]
    simp only [List.flatMap_append, List.flatMap_cons, hfd, hfn]
    simp only [List.append_assoc, List.cons_append]
  · intro n ms d hms hd
    have hnk : n ∈ alistKeys (removed_batch from_state to_state) :=
      (alistGet?_isSome _ _).mp (by rw [hms]; rfl)
    have hnR : n ∈ oR := hpermR.mem_iff.mpr hnk
    obtain ⟨j, hget⟩ := List.mem_iff_get.mp hnR
    have hms2 : alistGet? (removed_batch from_state to_state) (oR.get j) = some ms := by
      rw [hget]
      exact hms
    have hdtake : d ∈ oR.take j.1 := hordR j.1 j.2 ms hms2 d hd
    obtain ⟨pre, mid, post, hdec⟩ := take_get_decomp j.2 hdtake
    rw [show oR.get ⟨j.1, j.2⟩ = n from hget] at hdec
    have hdk : d ∈ alistKeys (removed_batch from_state to_state) :=
      dep_list_subset (removed_batch from_state to_state) ms d hd
    obtain ⟨md, hmd⟩ := Option.isSome_iff_exists.mp ((alistGet?_isSome _ _).mpr hdk)
    have hgd : removeOpFor (removed_batch from_state to_state) d =
        Operation.RemoveModel d md.db_table := by
      unfold removeOpFor
      rw [hmd]
    have hgn : removeOpFor (removed_batch from_state to_state) n =
        Operation.RemoveModel n ms.db_table := by
      unfold removeOpFor
      rw [hms]
    refine ⟨renameOpsOf from_state to_state ++
        post.reverse.map (removeOpFor (removed_batch from_state to_state)),
      mid.reverse.map (removeOpFor (removed_batch from_state to_state)),
      pre.reverse.map (removeOpFor (removed_batch from_state to_state)) ++
        oA.flatMap (createOpsFor (added_batch from_state to_state)) ++
        commonOpsOf from_state to_state rename_map ++
        renamedOpsOf from_state to_state rename_map,
      ms.db_table, md.db_table, ?_⟩
    rw [hops, hdec]
    simp only [List.reverse_append, List.reverse_cons, List.map_append,
      List.map_cons, List.map_nil, hgd, hgn]
    simp only [List.append_assoc, List.cons_append, List.nil_append,
      List.append_nil]

/-- A fresh `Child` model whose FK references the fresh `Parent` model's
table, listed before it in the target state. -/
def exC2ChildFk : FieldState :=
  { name := "parent", field_type := "ForeignKeyFieldInstance", related_table := vStr "parent" }

def exC2Pk : FieldState :=
  { name := "id", field_type := "IntField", primary_key := vBool true }

def exC2To : ProjectState :=
  ⟨[("Child", ⟨"Child", "child", [("parent", exC2ChildFk)], none⟩),
    ("Parent", ⟨"Parent", "parent", [("id", exC2Pk)], none⟩)]⟩

/-- C2 witness: on a concrete two-model creation batch with `Child` FK-
referencing `Parent`, the emitted operation list places `CreateModel Parent`
before `CreateModel Child` even though `Child` is listed first. -/
theorem C2_fk_topological_order_witness :
    ∃ A B E dbd fld dbn fln,
      [Operation.CreateModel "Parent" "parent"
          [("id", "IntField", [("primary_key", vBool true)])],
        Operation.CreateModel "Child" "child"
          [("parent", "ForeignKeyFieldInstance",
            [("related_table", vStr "parent")])]] =
        A ++ Operation.CreateModel "Parent" dbd fld ::
          (B ++ Operation.CreateModel "Child" dbn fln :: E) :=
  (C2_fk_topological_order ⟨[]⟩ exC2To []
      [Operation.CreateModel "Parent" "parent"
          [("id", "IntField", [("primary_key", vBool true)])],
        Operation.CreateModel "Child" "child"
          [("parent", "ForeignKeyFieldInstance",
            [("related_table", vStr "parent")])]]
      (by decide) (by decide) (by decide) (by decide)).1
    "Child" ⟨"Child", "child", [("parent", exC2ChildFk)], none⟩ "Parent"
    (by decide) (by decide)

/-! ## C7 — confirmed field-rename pairs -/

/-- The old-name slot of a field operation (the `old_name` of a
`RenameField`, the `field_name` of an `AlterField`). -/
def opOldOf : Operation → Option String
  | .RenameField _ _ o2 _ _ _ => some o2
  | .AlterField _ _ f _ _ _ => some f
  | _ => none

def isRenameOldNew (o n : String) : Operation → Bool
  | .RenameField _ _ o2 n2 _ _ => o2 == o && n2 == n
  | _ => false

def isAlterOld (o : String) : Operation → Bool
  | .AlterField _ _ f _ _ _ => f == o
  | _ => false

def isAlterOldNew (o n : String) : Operation → Bool
  | .AlterField _ _ f _ _ nn => f == o && nn == some n
  | _ => false

def isAddNamed (x : String) : Operation → Bool
  | .AddField _ _ f _ _ => f == x
  | _ => false

def isRemoveNamed (x : String) : Operation → Bool
  | .RemoveField _ _ f _ => f == x
  | _ => false

theorem rename_or_alter_old (mn dt p q : String) (pfs qfs : FieldState) :
    opOldOf (rename_or_alter_field_op mn dt p q pfs qfs) = some p := by
  unfold rename_or_alter_field_op
  by_cases h : same_except_name pfs qfs = true
  · rw [if_pos h]
    rfl
  · rw [if_neg h]
    rfl

theorem procRP_subsets (mn dt : String)
    (old_fields new_fields : List (String × FieldState)) :
    ∀ (pairs : List (String × String)) (removed added : List String),
      ((processRenamePairs mn dt old_fields new_fields pairs removed added).2.1
          ⊆ removed) ∧
      ((processRenamePairs mn dt old_fields new_fields pairs removed added).2.2
          ⊆ added) := by
  intro pairs
  induction pairs with
  | nil => intro removed added; exact ⟨fun x h => h, fun x h => h⟩
  | cons pq rest ih =>
      intro removed added
      obtain ⟨p, q⟩ := pq
      by_cases hc : p ∈ removed ∧ q ∈ added
      · cases h1 : alistGet? old_fields p with
        | none =>
            simp only [processRenamePairs, if_pos hc, h1]
            exact ih removed added
        | some pfs =>
            cases h2 : alistGet? new_fields q with
            | none =>
                simp only [processRenamePairs, if_pos hc, h1, h2]
                exact ih removed added
            | some qfs =>
                simp only [processRenamePairs, if_pos hc, h1, h2]
                refine ⟨?_, ?_⟩
                · intro x hx
                  exact List.erase_subset _ _ ((ih _ _).1 hx)
                · intro x hx
                  exact List.erase_subset _ _ ((ih _ _).2 hx)
      · simp only [processRenamePairs, if_neg hc]
        exact ih removed added

theorem procRP_ops_old (mn dt : String)
    (old_fields new_fields : List (String × FieldState)) :
    ∀ (pairs : List (String × String)) (removed added : List String)
      (op : Operation),
      op ∈ (processRenamePairs mn dt old_fields new_fields pairs removed added).1 →
      ∃ p q pfs qfs, (p, q) ∈ pairs ∧
        op = rename_or_alter_field_op mn dt p q pfs qfs := by
  intro pairs
  induction pairs with
  | nil => intro removed added op h; simp [processRenamePairs] at h
  | cons pq rest ih =>
      intro removed added op h
      obtain ⟨p, q⟩ := pq
      by_cases hc : p ∈ removed ∧ q ∈ added
      · cases h1 : alistGet? old_fields p with
        | none =>
            simp only [processRenamePairs, if_pos hc, h1] at h
            obtain ⟨p2, q2, pfs2, qfs2, hmem, heq⟩ := ih _ _ op h
            exact ⟨p2, q2, pfs2, qfs2, List.mem_cons_of_mem _ hmem, heq⟩
        | some pfs =>
            cases h2 : alistGet? new_fields q with
            | none =>
                simp only [processRenamePairs, if_pos hc, h1, h2] at h
                obtain ⟨p2, q2, pfs2, qfs2, hmem, heq⟩ := ih _ _ op h
                exact ⟨p2, q2, pfs2, qfs2, List.mem_cons_of_mem _ hmem, heq⟩
            | some qfs =>
                simp only [processRenamePairs, if_pos hc, h1, h2] at h
                rcases List.mem_cons.mp h with heq | hmem
                · exact ⟨p, q, pfs, qfs, List.mem_cons_self _ _, heq⟩
                · obtain ⟨p2, q2, pfs2, qfs2, hmem2, heq⟩ := ih _ _ op hmem
                  exact ⟨p2, q2, pfs2, qfs2, List.mem_cons_of_mem _ hmem2, heq⟩
      · simp only [processRenamePairs, if_neg hc] at h
        obtain ⟨p2, q2, pfs2, qfs2, hmem, heq⟩ := ih _ _ op h
        exact ⟨p2, q2, pfs2, qfs2, List.mem_cons_of_mem _ hmem, heq⟩

theorem procRP_spec (mn dt : String)
    (old_fields new_fields : List (String × FieldState))
    (o n : String) (ofs nfs : FieldState)
    (hofs : alistGet? old_fields o = some ofs)
    (hnfs : alistGet? new_fields n = some nfs) :
    ∀ (pairs : List (String × String)) (removed added : List String),
      (pairs.map Prod.fst).Nodup → (pairs.map Prod.snd).Nodup →
      removed.Nodup → added.Nodup →
      (o, n) ∈ pairs → o ∈ removed → n ∈ added →
      (processRenamePairs mn dt old_fields new_fields pairs removed added).1.filter
          (fun op => opOldOf op == some o) =
        [rename_or_alter_field_op mn dt o n ofs nfs] ∧
      o ∉ (processRenamePairs mn dt old_fields new_fields pairs removed added).2.1 ∧
      n ∉ (processRenamePairs mn dt old_fields new_fields pairs removed added).2.2 := by
  intro pairs
  induction pairs with
  | nil =>
      intro removed added _ _ _ _ hmem
      simp at hmem
  | cons pq rest ih =>
      intro removed added hf hs hrnd hand hmem ho hn
      obtain ⟨p, q⟩ := pq
      simp only [List.map_cons, List.nodup_cons] at hf hs
      rcases List.mem_cons.mp hmem with heq | hmem2
      · rw [Prod.ext_iff] at heq
        obtain ⟨hp, hq⟩ := heq
        simp only at hp hq
        subst hp
        subst hq
        have hcond : o ∈ removed ∧ n ∈ added := ⟨ho, hn⟩
        simp only [processRenamePairs, if_pos hcond, hofs, hnfs]
        have hsub := procRP_subsets mn dt old_fields new_fields rest
          (removed.erase o) (added.erase n)
        have hno : o ∉ (processRenamePairs mn dt old_fields new_fields rest
            (removed.erase o) (added.erase n)).2.1 :=
          fun hx => hrnd.not_mem_erase (hsub.1 hx)
        have hnn : n ∉ (processRenamePairs mn dt old_fields new_fields rest
            (removed.erase o) (added.erase n)).2.2 :=
          fun hx => hand.not_mem_erase (hsub.2 hx)
        refine ⟨?_, hno, hnn⟩
        rw [List.filter_cons]
        have hhead : (opOldOf (rename_or_alter_field_op mn dt o n ofs nfs) ==
            some o) = true := by
          rw [rename_or_alter_old]
          simp
        have hfilt : (processRenamePairs mn dt old_fields new_fields rest
            (removed.erase o) (added.erase n)).1.filter
            (fun op => opOldOf op == some o) = [] := by
          rw [List.filter_eq_nil_iff]
          intro op hop
          obtain ⟨p2, q2, pfs2, qfs2, hp2, hop2⟩ :=
            procRP_ops_old mn dt old_fields new_fields rest _ _ op hop
          rw [hop2, rename_or_alter_old]
          have hne : p2 ≠ o := by
            intro he
            apply hf.1
            rw [← he]
            exact List.mem_map.mpr ⟨(p2, q2), hp2, rfl⟩
          simp [hne]
        simp [hhead, hfilt]
      · have hpo : p ≠ o := by
          intro he
          apply hf.1
          rw [he]
          exact List.mem_map.mpr ⟨(o, n), hmem2, rfl⟩
        have hqn : q ≠ n := by
          intro he
          apply hs.1
          rw [he]
          exact List.mem_map.mpr ⟨(o, n), hmem2, rfl⟩
        by_cases hc : p ∈ removed ∧ q ∈ added
        · cases h1 : alistGet? old_fields p with
          | none =>
              simp only [processRenamePairs, if_pos hc, h1]
              exact ih removed added hf.2 hs.2 hrnd hand hmem2 ho hn
          | some pfs =>
              cases h2 : alistGet? new_fields q with
              | none =>
                  simp only [processRenamePairs, if_pos hc, h1, h2]
                  exact ih removed added hf.2 hs.2 hrnd hand hmem2 ho hn
              | some qfs =>
                  simp only [processRenamePairs, if_pos hc, h1, h2]
                  have ho2 : o ∈ removed.erase p :=
                    (List.mem_erase_of_ne (fun he => hpo he.symm)).mpr ho
                  have hn2 : n ∈ added.erase q :=
                    (List.mem_erase_of_ne (fun he => hqn he.symm)).mpr hn
                  obtain ⟨hfl, hno, hnn⟩ := ih (removed.erase p) (added.erase q)
                    hf.2 hs.2 (hrnd.erase p) (hand.erase q) hmem2 ho2 hn2
                  refine ⟨?_, hno, hnn⟩
                  rw [List.filter_cons]
                  have hhead : (opOldOf (rename_or_alter_field_op mn dt p q pfs
                      qfs) == some o) = false := by
                    rw [rename_or_alter_old]
                    simp [hpo]
                  simp [hhead, hfl]
        · simp only [processRenamePairs, if_neg hc]
          exact ih removed added hf.2 hs.2 hrnd hand hmem2 ho hn

theorem countP_eq_countP_filter {α : Type} (P Q : α → Bool) (l : List α)
    (h : ∀ a, P a = true → Q a = true) :
    l.countP P = (l.filter Q).countP P := by
  induction l with
  | nil => rfl
  | cons a l ih =>
      rw [List.countP_cons, List.filter_cons]
      by_cases hq : Q a = true
      · simp [hq, List.countP_cons, ih]
      · have hp : P a = false := by
          cases hP : P a
          · rfl
          · exact absurd (h a hP) hq
        simp [hq, hp, ih]

/-- The `RemoveField` batch of `_diff_model_fields`. -/
def fieldRemoveOps (old_fields : List (String × FieldState))
    (model_name dt : String) (names : List String) : List Operation :=
  (sortStrings names).map (fun fname =>
    match alistGet? old_fields fname with
    | some fs =>
        Operation.RemoveField model_name dt fname
          (colUnlessEq (resolved_db_column fs) fs.name)
    | none => Operation.RemoveField model_name dt fname none)

/-- The `AddField` batch of `_diff_model_fields`. -/
def fieldAddOps (new_fields : List (String × FieldState))
    (model_name dt : String) (names : List String) : List Operation :=
  (sortStrings names).map (fun fname =>
    match alistGet? new_fields fname with
    | some fs =>
        Operation.AddField model_name dt fs.name fs.field_type fs.options
    | none => Operation.AddField model_name dt fname "" [])

/-- The `AlterField` batch of `_diff_model_fields` for names common to both
models. -/
def fieldAlterOps (old_fields new_fields : List (String × FieldState))
    (model_name dt : String) : List Operation :=
  (sortStrings (((alistKeys old_fields).filter
      (fun k => (alistKeys new_fields).contains k)).eraseDups)).flatMap (fun fname =>
    match alistGet? old_fields fname, alistGet? new_fields fname with
    | some ofs2, some nfs2 =>
        let o2 := options_for_alter ofs2
        let n2 := options_for_alter nfs2
        if Dict.beq o2 n2 then []
        else [Operation.AlterField model_name dt fname o2 n2 none]
    | _, _ => [])

theorem diff_model_fields_decomp (old_model new_model : ModelState)
    (model_name : String) (rename_map : List (String × String)) :
    diff_model_fields old_model new_model model_name rename_map =
      (processRenamePairs model_name new_model.db_table (schema_fields old_model)
          (schema_fields new_model) rename_map
          ((alistKeys (schema_fields old_model)).filter
            (fun k => !(alistKeys (schema_fields new_model)).contains k))
          ((alistKeys (schema_fields new_model)).filter
            (fun k => !(alistKeys (schema_fields old_model)).contains k))).1 ++
      fieldRemoveOps (schema_fields old_model) model_name new_model.db_table
        (processRenamePairs model_name new_model.db_table (schema_fields old_model)
          (schema_fields new_model) rename_map
          ((alistKeys (schema_fields old_model)).filter
            (fun k => !(alistKeys (schema_fields new_model)).contains k))
          ((alistKeys (schema_fields new_model)).filter
            (fun k => !(alistKeys (schema_fields old_model)).contains k))).2.1 ++
      fieldAddOps (schema_fields new_model) model_name new_model.db_table
        (processRenamePairs model_name new_model.db_table (schema_fields old_model)
          (schema_fields new_model) rename_map
          ((alistKeys (schema_fields old_model)).filter
            (fun k => !(alistKeys (schema_fields new_model)).contains k))
          ((alistKeys (schema_fields new_model)).filter
            (fun k => !(alistKeys (schema_fields old_model)).contains k))).2.2 ++
      fieldAlterOps (schema_fields old_model) (schema_fields new_model)
        model_name new_model.db_table := rfl

theorem fieldRemoveOps_mem (old_fields : List (String × FieldState))
    (model_name dt : String) (names : List String) (op : Operation)
    (h : op ∈ fieldRemoveOps old_fields model_name dt names) :
    ∃ fname, fname ∈ names ∧
      ∃ c, op = Operation.RemoveField model_name dt fname c := by
  obtain ⟨fname, hf, he⟩ := List.mem_map.mp h
  have hf2 : fname ∈ names := (List.perm_insertionSort _ _).mem_iff.mp hf
  refine ⟨fname, hf2, ?_⟩
  cases hg : alistGet? old_fields fname with
  | some fs =>
      rw [hg] at he
      exact ⟨_, he.symm⟩
  | none =>
      rw [hg] at he
      exact ⟨none, he.symm⟩

theorem fieldAddOps_mem (new_fields : List (String × FieldState))
    (model_name dt : String) (names : List String) (op : Operation)
    (h : op ∈ fieldAddOps new_fields model_name dt names) :
    ∃ fname, fname ∈ names ∧
      (op = Operation.AddField model_name dt fname "" [] ∨
        ∃ fs, alistGet? new_fields fname = some fs ∧
          op = Operation.AddField model_name dt fs.name fs.field_type fs.options) := by
  obtain ⟨fname, hf, he⟩ := List.mem_map.mp h
  have hf2 : fname ∈ names := (List.perm_insertionSort _ _).mem_iff.mp hf
  refine ⟨fname, hf2, ?_⟩
  cases hg : alistGet? new_fields fname with
  | some fs =>
      rw [hg] at he
      exact Or.inr ⟨fs, rfl, he.symm⟩
  | none =>
      rw [hg] at he
      exact Or.inl he.symm

theorem eraseDups_loop_mem {α : Type} [BEq α] [LawfulBEq α] :
    ∀ (as bs : List α) (a : α), a ∈ List.eraseDups.loop as bs → a ∈ as ∨ a ∈ bs := by
  intro as
  induction as with
  | nil =>
      intro bs a h
      have h2 : a ∈ bs.reverse := h
      exact Or.inr (List.mem_reverse.mp h2)
  | cons x xs ih =>
      intro bs a h
      simp only [List.eraseDups.loop] at h
      cases he : bs.elem x with
      | true =>
          rw [he] at h
          rcases ih bs a h with h1 | h1
          · exact Or.inl (List.mem_cons_of_mem _ h1)
          · exact Or.inr h1
      | false =>
          rw [he] at h
          rcases ih (x :: bs) a h with h1 | h1
          · exact Or.inl (List.mem_cons_of_mem _ h1)
          · rcases List.mem_cons.mp h1 with h2 | h2
            · rw [h2]
              exact Or.inl (List.mem_cons_self _ _)
            · exact Or.inr h2

theorem fieldAlterOps_mem (old_fields new_fields : List (String × FieldState))
    (model_name dt : String) (op : Operation)
    (h : op ∈ fieldAlterOps old_fields new_fields model_name dt) :
    ∃ fname, fname ∈ alistKeys new_fields ∧
      ∃ d1 d2, op = Operation.AlterField model_name dt fname d1 d2 none := by
  obtain ⟨fname, hf, he⟩ := List.mem_flatMap.mp h
  have hf2 : fname ∈ ((alistKeys old_fields).filter
      (fun k => (alistKeys new_fields).contains k)).eraseDups :=
    (List.perm_insertionSort _ _).mem_iff.mp hf
  have hf3 : fname ∈ (alistKeys old_fields).filter
      (fun k => (alistKeys new_fields).contains k) := by
    rcases eraseDups_loop_mem _ [] _ hf2 with h1 | h1
    · exact h1
    · simp at h1
  have hfn : fname ∈ alistKeys new_fields := by
    have := List.of_mem_filter hf3
    exact List.elem_iff.mp (by simpa using this)
  refine ⟨fname, hfn, ?_⟩
  cases hg1 : alistGet? old_fields fname with
  | none =>
      rw [hg1] at he
      simp at he
  | some ofs2 =>
      cases hg2 : alistGet? new_fields fname with
      | none =>
          rw [hg1, hg2] at he
          simp at he
      | some nfs2 =>
          rw [hg1, hg2] at he
          by_cases hb : Dict.beq (options_for_alter ofs2) (options_for_alter nfs2) = true
          · simp only [hb, if_true] at he
            simp at he
          · simp only [hb, Bool.false_eq_true, if_false] at he
            have he2 : op = Operation.AlterField model_name dt fname
                (options_for_alter ofs2) (options_for_alter nfs2) none := by
              simpa using he
            exact ⟨_, _, he2⟩

theorem fieldRemoveOps_countP_zero (old_fields : List (String × FieldState))
    (mn dt : String) (names : List String) (P : Operation → Bool)
    (h : ∀ fname c, fname ∈ names →
      P (Operation.RemoveField mn dt fname c) = false) :
    (fieldRemoveOps old_fields mn dt names).countP P = 0 := by
  rw [List.countP_eq_zero]
  intro op hop
  obtain ⟨fname, hf, c, he⟩ := fieldRemoveOps_mem _ _ _ _ op hop
  rw [he]
  simp [h fname c hf]

theorem fieldAddOps_countP_zero (new_fields : List (String × FieldState))
    (mn dt : String) (names : List String) (P : Operation → Bool)
    (h1 : ∀ fname, fname ∈ names →
      P (Operation.AddField mn dt fname "" []) = false)
    (h2 : ∀ fname fs, fname ∈ names → alistGet? new_fields fname = some fs →
      P (Operation.AddField mn dt fs.name fs.field_type fs.options) = false) :
    (fieldAddOps new_fields mn dt names).countP P = 0 := by
  rw [List.countP_eq_zero]
  intro op hop
  obtain ⟨fname, hf, hcase⟩ := fieldAddOps_mem _ _ _ _ op hop
  rcases hcase with he | ⟨fs, hg, he⟩
  · rw [he]
    simp [h1 fname hf]
  · rw [he]
    simp [h2 fname fs hf hg]

theorem fieldAlterOps_countP_zero
    (old_fields new_fields : List (String × FieldState)) (mn dt : String)
    (P : Operation → Bool)
    (h : ∀ fname d1 d2, fname ∈ alistKeys new_fields →
      P (Operation.AlterField mn dt fname d1 d2 none) = false) :
    (fieldAlterOps old_fields new_fields mn dt).countP P = 0 := by
  rw [List.countP_eq_zero]
  intro op hop
  obtain ⟨fname, hf, d1, d2, he⟩ := fieldAlterOps_mem _ _ _ _ op hop
  rw [he]
  simp [h fname d1 d2 hf]

theorem procRP_countP_zero (mn dt : String)
    (old_fields new_fields : List (String × FieldState))
    (pairs : List (String × String)) (removed added : List String)
    (P : Operation → Bool)
    (h : ∀ p q pfs qfs, P (rename_or_alter_field_op mn dt p q pfs qfs) = false) :
    (processRenamePairs mn dt old_fields new_fields pairs removed
      added).1.countP P = 0 := by
  rw [List.countP_eq_zero]
  intro op hop
  obtain ⟨p, q, pfs, qfs, _, he⟩ :=
    procRP_ops_old mn dt old_fields new_fields pairs removed added op hop
  rw [he]
  simp [h p q pfs qfs]

theorem isRenameOldNew_imp (o n : String) :
    ∀ op, isRenameOldNew o n op = true → (opOldOf op == some o) = true := by
  intro op h
  cases op <;> simp_all [isRenameOldNew, opOldOf]

theorem isAlterOld_imp (o : String) :
    ∀ op, isAlterOld o op = true → (opOldOf op == some o) = true := by
  intro op h
  cases op <;> simp_all [isAlterOld, opOldOf]

theorem isAlterOldNew_imp (o n : String) :
    ∀ op, isAlterOldNew o n op = true → (opOldOf op == some o) = true := by
  intro op h
  cases op <;> simp_all [isAlterOldNew, opOldOf]

theorem rename_or_alter_not_add (x mn dt p q : String) (pfs qfs : FieldState) :
    isAddNamed x (rename_or_alter_field_op mn dt p q pfs qfs) = false := by
  unfold rename_or_alter_field_op
  by_cases hse : same_except_name pfs qfs = true
  · rw [if_pos hse]
    rfl
  · rw [if_neg hse]
    rfl

theorem rename_or_alter_not_remove (x mn dt p q : String) (pfs qfs : FieldState) :
    isRemoveNamed x (rename_or_alter_field_op mn dt p q pfs qfs) = false := by
  unfold rename_or_alter_field_op
  by_cases hse : same_except_name pfs qfs = true
  · rw [if_pos hse]
    rfl
  · rw [if_neg hse]
    rfl

theorem C7_core (mn dt : String)
    (old_fields new_fields : List (String × FieldState))
    (o n : String) (ofs nfs : FieldState)
    (emitted : List Operation) (remNames addNames : List String)
    (hfl : emitted.filter (fun op => opOldOf op == some o) =
      [rename_or_alter_field_op mn dt o n ofs nfs])
    (hemit : ∀ op ∈ emitted, ∃ p q pfs qfs,
      op = rename_or_alter_field_op mn dt p q pfs qfs)
    (hno : o ∉ remNames) (hnn : n ∉ addNames)
    (hnew : ∀ fname fs, alistGet? new_fields fname = some fs → fs.name = fname)
    (ho_notnew : o ∉ alistKeys new_fields) :
    (same_except_name ofs nfs = true →
      (emitted ++ fieldRemoveOps old_fields mn dt remNames ++
        fieldAddOps new_fields mn dt addNames ++
        fieldAlterOps old_fields new_fields mn dt).countP (isRenameOldNew o n) = 1 ∧
      (emitted ++ fieldRemoveOps old_fields mn dt remNames ++
        fieldAddOps new_fields mn dt addNames ++
        fieldAlterOps old_fields new_fields mn dt).countP (isAlterOld o) = 0) ∧
    (same_except_name ofs nfs = false →
      (emitted ++ fieldRemoveOps old_fields mn dt remNames ++
        fieldAddOps new_fields mn dt addNames ++
        fieldAlterOps old_fields new_fields mn dt).countP (isAlterOldNew o n) = 1 ∧
      (emitted ++ fieldRemoveOps old_fields mn dt remNames ++
        fieldAddOps new_fields mn dt addNames ++
        fieldAlterOps old_fields new_fields mn dt).countP (isRenameOldNew o n) = 0) ∧
    (emitted ++ fieldRemoveOps old_fields mn dt remNames ++
      fieldAddOps new_fields mn dt addNames ++
      fieldAlterOps old_fields new_fields mn dt).countP (isAddNamed n) = 0 ∧
    (emitted ++ fieldRemoveOps old_fields mn dt remNames ++
      fieldAddOps new_fields mn dt addNames ++
      fieldAlterOps old_fields new_fields mn dt).countP (isRemoveNamed o) = 0 := by
  have hrm1 : (fieldRemoveOps old_fields mn dt remNames).countP
      (isRenameOldNew o n) = 0 :=
    fieldRemoveOps_countP_zero _ _ _ _ _ (fun fname c hf => rfl)
  have hrm2 : (fieldRemoveOps old_fields mn dt remNames).countP
      (isAlterOld o) = 0 :=
    fieldRemoveOps_countP_zero _ _ _ _ _ (fun fname c hf => rfl)
  have hrm3 : (fieldRemoveOps old_fields mn dt remNames).countP
      (isAlterOldNew o n) = 0 :=
    fieldRemoveOps_countP_zero _ _ _ _ _ (fun fname c hf => rfl)
  have hrm4 : (fieldRemoveOps old_fields mn dt remNames).countP
      (isAddNamed n) = 0 :=
    fieldRemoveOps_countP_zero _ _ _ _ _ (fun fname c hf => rfl)
  have hrm5 : (fieldRemoveOps old_fields mn dt remNames).countP
      (isRemoveNamed o) = 0 :=
    fieldRemoveOps_countP_zero _ _ _ _ _ (fun fname c hf =>
      beq_eq_false_iff_ne.mpr (fun he => hno (he ▸ hf)))
  have had1 : (fieldAddOps new_fields mn dt addNames).countP
      (isRenameOldNew o n) = 0 :=
    fieldAddOps_countP_zero _ _ _ _ _ (fun fname hf => rfl)
      (fun fname fs hf hg => rfl)
  have had2 : (fieldAddOps new_fields mn dt addNames).countP
      (isAlterOld o) = 0 :=
    fieldAddOps_countP_zero _ _ _ _ _ (fun fname hf => rfl)
      (fun fname fs hf hg => rfl)
  have had3 : (fieldAddOps new_fields mn dt addNames).countP
      (isAlterOldNew o n) = 0 :=
    fieldAddOps_countP_zero _ _ _ _ _ (fun fname hf => rfl)
      (fun fname fs hf hg => rfl)
  have had4 : (fieldAddOps new_fields mn dt addNames).countP
      (isAddNamed n) = 0 :=
    fieldAddOps_countP_zero _ _ _ _ _
      (fun fname hf => beq_eq_false_iff_ne.mpr (fun he => hnn (he ▸ hf)))
      (fun fname fs hf hg => by
        have hfn : fs.name = fname := hnew fname fs hg
        show (fs.name == n) = false
        rw [hfn]
        exact beq_eq_false_iff_ne.mpr (fun he => hnn (he ▸ hf)))
  have had5 : (fieldAddOps new_fields mn dt addNames).countP
      (isRemoveNamed o) = 0 :=
    fieldAddOps_countP_zero _ _ _ _ _ (fun fname hf => rfl)
      (fun fname fs hf hg => rfl)
  have hal1 : (fieldAlterOps old_fields new_fields mn dt).countP
      (isRenameOldNew o n) = 0 :=
    fieldAlterOps_countP_zero _ _ _ _ _ (fun fname d1 d2 hf => rfl)
  have hal2 : (fieldAlterOps old_fields new_fields mn dt).countP
      (isAlterOld o) = 0 :=
    fieldAlterOps_countP_zero _ _ _ _ _ (fun fname d1 d2 hf =>
      beq_eq_false_iff_ne.mpr (fun he => ho_notnew (he ▸ hf)))
  have hal3 : (fieldAlterOps old_fields new_fields mn dt).countP
      (isAlterOldNew o n) = 0 :=
    fieldAlterOps_countP_zero _ _ _ _ _ (fun fname d1 d2 hf => by
      simp [isAlterOldNew])
  have hal4 : (fieldAlterOps old_fields new_fields mn dt).countP
      (isAddNamed n) = 0 :=
    fieldAlterOps_countP_zero _ _ _ _ _ (fun fname d1 d2 hf => rfl)
  have hal5 : (fieldAlterOps old_fields new_fields mn dt).countP
      (isRemoveNamed o) = 0 :=
    fieldAlterOps_countP_zero _ _ _ _ _ (fun fname d1 d2 hf => rfl)
  have hem4 : emitted.countP (isAddNamed n) = 0 := by
    rw [List.countP_eq_zero]
    intro op hop
    obtain ⟨p, q, pfs, qfs, he⟩ := hemit op hop
    rw [he]
    simp [rename_or_alter_not_add]
  have hem5 : emitted.countP (isRemoveNamed o) = 0 := by
    rw [List.countP_eq_zero]
    intro op hop
    obtain ⟨p, q, pfs, qfs, he⟩ := hemit op hop
    rw [he]
    simp [rename_or_alter_not_remove]
  refine ⟨?_, ?_, ?_, ?_⟩
  · intro hse
    have he1 : emitted.countP (isRenameOldNew o n) = 1 := by
      rw [countP_eq_countP_filter _ _ _ (isRenameOldNew_imp o n), hfl]
      simp [rename_or_alter_field_op, hse, List.countP_cons, isRenameOldNew]
    have he2 : emitted.countP (isAlterOld o) = 0 := by
      rw [countP_eq_countP_filter _ _ _ (isAlterOld_imp o), hfl]
      simp [rename_or_alter_field_op, hse, List.countP_cons, isAlterOld]
    constructor
    · simp [List.countP_append, he1, hrm1, had1, hal1]
    · simp [List.countP_append, he2, hrm2, had2, hal2]
  · intro hse
    have he3 : emitted.countP (isAlterOldNew o n) = 1 := by
      rw [countP_eq_countP_filter _ _ _ (isAlterOldNew_imp o n), hfl]
      simp [rename_or_alter_field_op, hse, List.countP_cons, isAlterOldNew]
    have he1 : emitted.countP (isRenameOldNew o n) = 0 := by
      rw [countP_eq_countP_filter _ _ _ (isRenameOldNew_imp o n), hfl]
      simp [rename_or_alter_field_op, hse, List.countP_cons, isRenameOldNew]
    constructor
    · simp [List.countP_append, he3, hrm3, had3, hal3]
    · simp [List.countP_append, he1, hrm1, had1, hal1]
  · simp [List.countP_append, hem4, hrm4, had4, hal4]
  · simp [List.countP_append, hem5, hrm5, had5, hal5]

/-- C7 (amended): for a confirmed rename pair `(o, n)` — `o` a schema field
only of the old model, `n` only of the new model, the pair in the model's
rename map — and provided the rename map's old names are pairwise distinct
(a dict invariant) and its target names are pairwise distinct, the field
diff emits exactly one `RenameField` for the pair when the two field states
agree except for the name (and no `AlterField` touching `o`), exactly one
`AlterField` carrying `new_name = n` otherwise (and no `RenameField` for the
pair), and never an `AddField` named `n` or a `RemoveField` named `o`. -/
theorem C7_confirmed_rename_amended (old_model new_model : ModelState)
    (model_name : String) (rename_map : List (String × String))
    (o n : String) (ofs nfs : FieldState)
    (hold_nd : (alistKeys (schema_fields old_model)).Nodup)
    (hnew_nd : (alistKeys (schema_fields new_model)).Nodup)
    (hwf_new : ∀ p ∈ new_model.field_states, p.2.name = p.1)
    (hko : (rename_map.map Prod.fst).Nodup)
    (hkn : (rename_map.map Prod.snd).Nodup)
    (hpair : (o, n) ∈ rename_map)
    (ho_notnew : o ∉ alistKeys (schema_fields new_model))
    (hn_notold : n ∉ alistKeys (schema_fields old_model))
    (hofs : alistGet? (schema_fields old_model) o = some ofs)
    (hnfs : alistGet? (schema_fields new_model) n = some nfs) :
    (same_except_name ofs nfs = true →
      (diff_model_fields old_model new_model model_name rename_map).countP
          (isRenameOldNew o n) = 1 ∧
      (diff_model_fields old_model new_model model_name rename_map).countP
          (isAlterOld o) = 0) ∧
    (same_except_name ofs nfs = false →
      (diff_model_fields old_model new_model model_name rename_map).countP
          (isAlterOldNew o n) = 1 ∧
      (diff_model_fields old_model new_model model_name rename_map).countP
          (isRenameOldNew o n) = 0) ∧
    (diff_model_fields old_model new_model model_name rename_map).countP
        (isAddNamed n) = 0 ∧
    (diff_model_fields old_model new_model model_name rename_map).countP
        (isRemoveNamed o) = 0 := by
  have ho_old : o ∈ alistKeys (schema_fields old_model) :=
    (alistGet?_isSome _ _).mp (by rw [hofs]; rfl)
  have hn_new : n ∈ alistKeys (schema_fields new_model) :=
    (alistGet?_isSome _ _).mp (by rw [hnfs]; rfl)
  have hormem : o ∈ (alistKeys (schema_fields old_model)).filter
      (fun k => !(alistKeys (schema_fields new_model)).contains k) :=
    List.mem_filter.mpr ⟨ho_old, by simpa using ho_notnew⟩
  have hnamem : n ∈ (alistKeys (schema_fields new_model)).filter
      (fun k => !(alistKeys (schema_fields old_model)).contains k) :=
    List.mem_filter.mpr ⟨hn_new, by simpa using hn_notold⟩
  obtain ⟨hfl, hno, hnn⟩ := procRP_spec model_name new_model.db_table
    (schema_fields old_model) (schema_fields new_model) o n ofs nfs hofs hnfs
    rename_map _ _ hko hkn (hold_nd.filter _) (hnew_nd.filter _) hpair
    hormem hnamem
  have hnew2 : ∀ fname fs,
      alistGet? (schema_fields new_model) fname = some fs → fs.name = fname := by
    intro fname fs hg
    have hmem : (fname, fs) ∈ schema_fields new_model := alistGet?_mem hg
    have hmem2 : (fname, fs) ∈ new_model.field_states :=
      List.Sublist.subset (List.filter_sublist _) hmem
    exact hwf_new (fname, fs) hmem2
  rw [diff_model_fields_decomp]
  refine C7_core model_name new_model.db_table (schema_fields old_model)
    (schema_fields new_model) o n ofs nfs _ _ _ hfl ?_ hno hnn hnew2 ho_notnew
  intro op hop
  obtain ⟨p, q, pfs, qfs, _, he⟩ := procRP_ops_old model_name new_model.db_table
    (schema_fields old_model) (schema_fields new_model) rename_map _ _ op hop
  exact ⟨p, q, pfs, qfs, he⟩

/-- Concrete fields for the duplicate-target rename-map scenario. -/
def exC7FieldA : FieldState :=
  { name := "a", field_type := "CharField", max_length := vInt 10 }

def exC7FieldB : FieldState :=
  { name := "b", field_type := "CharField", max_length := vInt 10 }

def exC7FieldC : FieldState :=
  { name := "c", field_type := "CharField", max_length := vInt 10 }

def exC7BookO : ModelState := ⟨"Book", "book", [("a", exC7FieldA), ("b", exC7FieldB)], none⟩

def exC7BookN : ModelState := ⟨"Book", "book", [("c", exC7FieldC)], none⟩

/-- C7 (counterexample to the claim as stated): with the rename map
`{a: c, b: c}` for `Book`, the pair `(b, c)` is a confirmed rename pair in
the claim's sense — `b` is a schema field only of the old model, `c` only of
the new model, the two field states are identical except for the name, and
the pair is in the map — yet the diff emits no `RenameField` and no
`AlterField` for the pair, and it does emit a `RemoveField` for `b`: the
earlier entry `(a, c)` consumes the target `c`, and `(b, c)` is silently
ignored. -/
theorem C7_duplicate_target_counterexample :
    diff_states ⟨[("Book", exC7BookO)]⟩ ⟨[("Book", exC7BookN)]⟩
        [("Book", [("a", "c"), ("b", "c")])] = .ok
      [Operation.RenameField "Book" "book" "a" "c" none none,
       Operation.RemoveField "Book" "book" "b" none] ∧
    ("b", "c") ∈ [("a", "c"), ("b", "c")] ∧
    "b" ∈ alistKeys (schema_fields exC7BookO) ∧
    "b" ∉ alistKeys (schema_fields exC7BookN) ∧
    "c" ∈ alistKeys (schema_fields exC7BookN) ∧
    "c" ∉ alistKeys (schema_fields exC7BookO) ∧
    same_except_name exC7FieldB exC7FieldC = true ∧
    ([Operation.RenameField "Book" "book" "a" "c" none none,
      Operation.RemoveField "Book" "book" "b" none].countP
        (isRenameOldNew "b" "c") = 0 ∧
     [Operation.RenameField "Book" "book" "a" "c" none none,
      Operation.RemoveField "Book" "book" "b" none].countP
        (isAlterOldNew "b" "c") = 0 ∧
     [Operation.RenameField "Book" "book" "a" "c" none none,
      Operation.RemoveField "Book" "book" "b" none].countP
        (isRemoveNamed "b") = 1) := by
  decide

/-- The `title` -> `name` rename scenario on `Book`. -/
def exC7TitleFs : FieldState :=
  { name := "title", field_type := "CharField", max_length := vInt 50 }

def exC7NameFs : FieldState :=
  { name := "name", field_type := "CharField", max_length := vInt 50 }

def exC7TitleBookOld : ModelState := ⟨"Book", "book", [("title", exC7TitleFs)], none⟩

def exC7TitleBookNew : ModelState := ⟨"Book", "book", [("name", exC7NameFs)], none⟩

/-- C7 witness: the concrete `title` -> `name` rename on `Book` (identical
type and options, distinct map targets) yields exactly one `RenameField` and
no `AddField`/`RemoveField` for the two names. -/
theorem C7_confirmed_rename_amended_witness :
    (same_except_name exC7TitleFs exC7NameFs = true →
      (diff_model_fields exC7TitleBookOld exC7TitleBookNew "Book"
          [("title", "name")]).countP (isRenameOldNew "title" "name") = 1 ∧
      (diff_model_fields exC7TitleBookOld exC7TitleBookNew "Book"
          [("title", "name")]).countP (isAlterOld "title") = 0) ∧
    (same_except_name exC7TitleFs exC7NameFs = false →
      (diff_model_fields exC7TitleBookOld exC7TitleBookNew "Book"
          [("title", "name")]).countP (isAlterOldNew "title" "name") = 1 ∧
      (diff_model_fields exC7TitleBookOld exC7TitleBookNew "Book"
          [("title", "name")]).countP (isRenameOldNew "title" "name") = 0) ∧
    (diff_model_fields exC7TitleBookOld exC7TitleBookNew "Book"
        [("title", "name")]).countP (isAddNamed "name") = 0 ∧
    (diff_model_fields exC7TitleBookOld exC7TitleBookNew "Book"
        [("title", "name")]).countP (isRemoveNamed "title") = 0 :=
  C7_confirmed_rename_amended exC7TitleBookOld exC7TitleBookNew "Book"
    [("title", "name")] "title" "name" exC7TitleFs exC7NameFs
    (by decide) (by decide) (by decide) (by decide) (by decide) (by decide)
    (by decide) (by decide) (by decide) (by decide)

/-! ## C4 — mutual best-match model renames -/

def isRenameModelFor (R A : String) : Operation → Bool
  | .RenameModel o n _ _ => o == R && n == A
  | _ => false

def isRemoveModelNamed (R : String) : Operation → Bool
  | .RemoveModel nm _ => nm == R
  | _ => false

def isCreateModelNamed (A : String) : Operation → Bool
  | .CreateModel nm _ _ => nm == A
  | _ => false

theorem best_candidate_keep (score1 : ModelState → ℚ) :
    ∀ (l : List (String × ModelState)) (acc : String × ℚ),
      (∀ q ∈ l, ¬ (acc.2 < score1 q.2)) →
      l.foldl (fun best p =>
        let s := score1 p.2
        if best.2 < s then (p.1, s) else best) acc = acc := by
  intro l
  induction l with
  | nil => intro acc _; rfl
  | cons q rest ih =>
      intro acc h
      simp only [List.foldl_cons]
      rw [if_neg (h q (List.mem_cons_self _ _))]
      exact ih acc (fun r hr => h r (List.mem_cons_of_mem _ hr))

theorem best_candidate_eq (cands : List (String × ModelState))
    (score1 : ModelState → ℚ) (A : String) (Ams : ModelState)
    (hmem : (A, Ams) ∈ cands) (hnd : (cands.map Prod.fst).Nodup)
    (hpos : 0 < score1 Ams)
    (huniq : ∀ p ∈ cands, p.1 ≠ A → score1 p.2 < score1 Ams) :
    best_candidate cands score1 = (A, score1 Ams) := by
  unfold best_candidate
  suffices h : ∀ (l : List (String × ModelState)) (acc : String × ℚ),
      (A, Ams) ∈ l → (l.map Prod.fst).Nodup →
      (∀ p ∈ l, p.1 ≠ A → score1 p.2 < score1 Ams) →
      acc.2 < score1 Ams →
      l.foldl (fun best p =>
        let s := score1 p.2
        if best.2 < s then (p.1, s) else best) acc = (A, score1 Ams) by
    exact h cands ("", 0) hmem hnd huniq hpos
  intro l
  induction l with
  | nil =>
      intro acc hm
      simp at hm
  | cons q rest ih =>
      intro acc hm hnd2 huniq2 hacc
      simp only [List.map_cons, List.nodup_cons] at hnd2
      rcases List.mem_cons.mp hm with heq | hm2
      · rw [← heq]
        simp only [List.foldl_cons]
        rw [if_pos hacc]
        apply best_candidate_keep
        intro r hr
        have hrA : r.1 ≠ A := by
          intro he
          apply hnd2.1
          have hq1 : q.1 = A := by rw [← heq]
          rw [hq1, ← he]
          exact List.mem_map.mpr ⟨r, hr, rfl⟩
        exact lt_asymm (huniq2 r (List.mem_cons_of_mem _ hr) hrA)
      · have hqA : q.1 ≠ A := by
          intro he
          apply hnd2.1
          rw [he]
          exact List.mem_map.mpr ⟨(A, Ams), hm2, rfl⟩
        simp only [List.foldl_cons]
        by_cases himp : acc.2 < score1 q.2
        · rw [if_pos himp]
          exact ih (q.1, score1 q.2) hm2 hnd2.2
            (fun p hp hpA => huniq2 p (List.mem_cons_of_mem _ hp) hpA)
            (huniq2 q (List.mem_cons_self _ _) hqA)
        · rw [if_neg himp]
          exact ih acc hm2 hnd2.2
            (fun p hp hpA => huniq2 p (List.mem_cons_of_mem _ hp) hpA) hacc

theorem alistSet_keys_mem {α : Type} {l : List (String × α)} {k x : String}
    {v : α} (h : x ∈ alistKeys (alistSet l k v)) : x ∈ alistKeys l ∨ x = k := by
  obtain ⟨p, hp, he⟩ := List.mem_map.mp h
  rcases alistSet_mem hp with h1 | h1
  · exact Or.inl (he ▸ List.mem_map.mpr ⟨p, h1, rfl⟩)
  · rw [h1] at he
    exact Or.inr he.symm

theorem alistSet_keys_nodup {α : Type} (k : String) (v : α) :
    ∀ (l : List (String × α)), (alistKeys l).Nodup →
      (alistKeys (alistSet l k v)).Nodup := by
  intro l
  induction l with
  | nil =>
      intro _
      simp [alistSet, alistKeys]
  | cons p rest ih =>
      intro h
      obtain ⟨pk, pv⟩ := p
      simp only [alistKeys, List.map_cons, List.nodup_cons] at h
      by_cases hk : pk = k
      · subst hk
        simp only [alistSet, beq_self_eq_true, if_true]
        simp only [alistKeys, List.map_cons, List.nodup_cons]
        exact h
      · have hkb : (pk == k) = false := by simpa using hk
        simp only [alistSet, hkb, Bool.false_eq_true, if_false]
        simp only [alistKeys, List.map_cons, List.nodup_cons]
        refine ⟨?_, ih h.2⟩
        intro hmem
        rcases alistSet_keys_mem hmem with h1 | h1
        · exact h.1 h1
        · exact hk h1

theorem foldl_condSet_preserve (G : String × ModelState → String × ℚ) :
    ∀ (l : List (String × ModelState)) (acc : List (String × (String × ℚ)))
      (R : String) (v : String × ℚ),
      alistGet? acc R = some v → (∀ q ∈ l, q.1 ≠ R) →
      alistGet? (l.foldl (fun acc p =>
        if (G p).1 != "" then alistSet acc p.1 (G p) else acc) acc) R = some v := by
  intro l
  induction l with
  | nil => intro acc R v h _; exact h
  | cons q rest ih =>
      intro acc R v h hne
      simp only [List.foldl_cons]
      by_cases hg : ((G q).1 != "") = true
      · rw [if_pos hg]
        refine ih _ R v ?_ (fun r hr => hne r (List.mem_cons_of_mem _ hr))
        rw [alistGet?_set_ne _ _ _ _ (fun he => hne q (List.mem_cons_self _ _) he.symm)]
        exact h
      · rw [if_neg hg]
        exact ih _ R v h (fun r hr => hne r (List.mem_cons_of_mem _ hr))

theorem foldl_condSet_get (G : String × ModelState → String × ℚ) :
    ∀ (l : List (String × ModelState)) (acc : List (String × (String × ℚ)))
      (R : String) (Rms : ModelState),
      (l.map Prod.fst).Nodup → (R, Rms) ∈ l → ((G (R, Rms)).1 != "") = true →
      alistGet? (l.foldl (fun acc p =>
        if (G p).1 != "" then alistSet acc p.1 (G p) else acc) acc) R =
        some (G (R, Rms)) := by
  intro l
  induction l with
  | nil =>
      intro acc R Rms _ hm
      simp at hm
  | cons q rest ih =>
      intro acc R Rms hnd hm hg
      simp only [List.map_cons, List.nodup_cons] at hnd
      simp only [List.foldl_cons]
      rcases List.mem_cons.mp hm with heq | hm2
      · rw [← heq, if_pos hg]
        refine foldl_condSet_preserve G rest _ R _ (alistGet?_set_self _ _ _) ?_
        intro r hr he
        apply hnd.1
        have hq1 : q.1 = R := by rw [← heq]
        rw [hq1, ← he]
        exact List.mem_map.mpr ⟨r, hr, rfl⟩
      · have hqR : q.1 ≠ R := by
          intro he
          apply hnd.1
          rw [he]
          exact List.mem_map.mpr ⟨(R, Rms), hm2, rfl⟩
        by_cases hgq : ((G q).1 != "") = true
        · rw [if_pos hgq]
          exact ih _ R Rms hnd.2 hm2 hg
        · rw [if_neg hgq]
          exact ih _ R Rms hnd.2 hm2 hg

theorem foldl_condSet_keys_nodup (G : String × ModelState → String × ℚ) :
    ∀ (l : List (String × ModelState)) (acc : List (String × (String × ℚ))),
      (alistKeys acc).Nodup →
      (alistKeys (l.foldl (fun acc p =>
        if (G p).1 != "" then alistSet acc p.1 (G p) else acc) acc)).Nodup := by
  intro l
  induction l with
  | nil => intro acc h; exact h
  | cons q rest ih =>
      intro acc h
      simp only [List.foldl_cons]
      by_cases hg : ((G q).1 != "") = true
      · rw [if_pos hg]
        exact ih _ (alistSet_keys_nodup _ _ _ h)
      · rw [if_neg hg]
        exact ih _ h

/-- One step of the mutual-best-match pairing loop of
`_detect_model_renames`. -/
def pairStep (bfn : List (String × (String × ℚ)))
    (acc : List (String × String)) (q : String × (String × ℚ)) :
    List (String × String) :=
  if q.2.2 < model_rename_threshold then acc
  else
    match alistGet? bfn q.2.1 with
    | some back =>
        if back.1 == q.1 && model_rename_threshold ≤ back.2 then
          acc ++ [(q.1, q.2.1)]
        else acc
    | none => acc

theorem pairStep_suffix (bfn : List (String × (String × ℚ))) :
    ∀ (bfo : List (String × (String × ℚ))) (acc : List (String × String)),
      ∃ ext, bfo.foldl (pairStep bfn) acc = acc ++ ext := by
  intro bfo
  induction bfo with
  | nil => intro acc; exact ⟨[], by simp⟩
  | cons q rest ih =>
      intro acc
      simp only [List.foldl_cons]
      by_cases h1 : q.2.2 < model_rename_threshold
      · rw [show pairStep bfn acc q = acc from by unfold pairStep; rw [if_pos h1]]
        exact ih acc
      · cases hb : alistGet? bfn q.2.1 with
        | none =>
            rw [show pairStep bfn acc q = acc from by
              unfold pairStep; rw [if_neg h1]; simp only [hb]]
            exact ih acc
        | some back =>
            by_cases h2 : (back.1 == q.1 && model_rename_threshold ≤ back.2) = true
            · rw [show pairStep bfn acc q = acc ++ [(q.1, q.2.1)] from by
                unfold pairStep; rw [if_neg h1]; simp only [hb]; rw [if_pos h2]]
              obtain ⟨ext, he⟩ := ih (acc ++ [(q.1, q.2.1)])
              exact ⟨(q.1, q.2.1) :: ext, by rw [he]; simp⟩
            · rw [show pairStep bfn acc q = acc from by
                unfold pairStep; rw [if_neg h1]; simp only [hb]; rw [if_neg h2]]
              exact ih acc

theorem pairStep_count_noR (bfn : List (String × (String × ℚ))) (R A : String) :
    ∀ (bfo : List (String × (String × ℚ))) (acc : List (String × String)),
      (∀ q ∈ bfo, q.1 ≠ R) →
      (bfo.foldl (pairStep bfn) acc).countP
          (fun pr => pr.1 == R && pr.2 == A) =
        acc.countP (fun pr => pr.1 == R && pr.2 == A) := by
  intro bfo
  induction bfo with
  | nil => intro acc _; rfl
  | cons q rest ih =>
      intro acc hne
      simp only [List.foldl_cons]
      have htail := fun acc2 => ih acc2 (fun r hr => hne r (List.mem_cons_of_mem _ hr))
      by_cases h1 : q.2.2 < model_rename_threshold
      · rw [show pairStep bfn acc q = acc from by unfold pairStep; rw [if_pos h1]]
        exact htail acc
      · cases hb : alistGet? bfn q.2.1 with
        | none =>
            rw [show pairStep bfn acc q = acc from by
              unfold pairStep; rw [if_neg h1]; simp only [hb]]
            exact htail acc
        | some back =>
            by_cases h2 : (back.1 == q.1 && model_rename_threshold ≤ back.2) = true
            · rw [show pairStep bfn acc q = acc ++ [(q.1, q.2.1)] from by
                unfold pairStep; rw [if_neg h1]; simp only [hb]; rw [if_pos h2]]
              rw [htail (acc ++ [(q.1, q.2.1)]), List.countP_append]
              have hq : ((q.1 == R && q.2.1 == A) : Bool) = false := by
                have hne2 := hne q (List.mem_cons_self _ _)
                simp [hne2]
              simp [List.countP_cons, hq]
            · rw [show pairStep bfn acc q = acc from by
                unfold pairStep; rw [if_neg h1]; simp only [hb]; rw [if_neg h2]]
              exact htail acc

theorem pairStep_count (bfn : List (String × (String × ℚ)))
    (R A : String) (sA : ℚ)
    (hback : alistGet? bfn A = some (R, sA))
    (hth : model_rename_threshold ≤ sA) :
    ∀ (bfo : List (String × (String × ℚ))) (acc : List (String × String)),
      (bfo.map Prod.fst).Nodup → (R, (A, sA)) ∈ bfo →
      (bfo.foldl (pairStep bfn) acc).countP
          (fun pr => pr.1 == R && pr.2 == A) =
        acc.countP (fun pr => pr.1 == R && pr.2 == A) + 1 ∧
      (R, A) ∈ bfo.foldl (pairStep bfn) acc := by
  intro bfo
  induction bfo with
  | nil =>
      intro acc _ hm
      simp at hm
  | cons q rest ih =>
      intro acc hnd hm
      simp only [List.map_cons, List.nodup_cons] at hnd
      simp only [List.foldl_cons]
      rcases List.mem_cons.mp hm with heq | hm2
      · have hstep : pairStep bfn acc q = acc ++ [(R, A)] := by
          rw [← heq]
          unfold pairStep
          rw [if_neg (not_lt.mpr hth)]
          simp only [hback]
          rw [if_pos (by simp [hth])]
        rw [hstep]
        have hnoR : ∀ r ∈ rest, r.1 ≠ R := by
          intro r hr he
          apply hnd.1
          have hq1 : q.1 = R := by rw [← heq]
          rw [hq1, ← he]
          exact List.mem_map.mpr ⟨r, hr, rfl⟩
        constructor
        · rw [pairStep_count_noR bfn R A rest _ hnoR, List.countP_append]
          simp [List.countP_cons]
        · obtain ⟨ext, he⟩ := pairStep_suffix bfn rest (acc ++ [(R, A)])
          rw [he]
          exact List.mem_append.mpr (Or.inl (List.mem_append.mpr (Or.inr
            (List.mem_singleton.mpr rfl))))
      · have hqR : q.1 ≠ R := by
          intro he
          apply hnd.1
          rw [he]
          exact List.mem_map.mpr ⟨(R, (A, sA)), hm2, rfl⟩
        have hcnt : (pairStep bfn acc q).countP
            (fun pr => pr.1 == R && pr.2 == A) =
            acc.countP (fun pr => pr.1 == R && pr.2 == A) := by
          by_cases h1 : q.2.2 < model_rename_threshold
          · rw [show pairStep bfn acc q = acc from by
              unfold pairStep; rw [if_pos h1]]
          · cases hb : alistGet? bfn q.2.1 with
            | none =>
                rw [show pairStep bfn acc q = acc from by
                  unfold pairStep; rw [if_neg h1]; simp only [hb]]
            | some back =>
                by_cases h2 : (back.1 == q.1 &&
                    model_rename_threshold ≤ back.2) = true
                · rw [show pairStep bfn acc q = acc ++ [(q.1, q.2.1)] from by
                    unfold pairStep; rw [if_neg h1]; simp only [hb]; rw [if_pos h2]]
                  rw [List.countP_append]
                  have hq : ((q.1 == R && q.2.1 == A) : Bool) = false := by
                    simp [hqR]
                  simp [List.countP_cons, hq]
                · rw [show pairStep bfn acc q = acc from by
                    unfold pairStep; rw [if_neg h1]; simp only [hb]; rw [if_neg h2]]
        obtain ⟨hc, hmem⟩ := ih (pairStep bfn acc q) hnd.2 hm2
        exact ⟨by rw [hc, hcnt], hmem⟩

theorem countP_insertionSort {α : Type} (r : α → α → Prop) [DecidableRel r]
    (p : α → Bool) (l : List α) :
    (l.insertionSort r).countP p = l.countP p :=
  List.Perm.countP_eq p (List.perm_insertionSort r l)

theorem detect_decomp (removed added : List (String × ModelState)) :
    detect_model_renames removed added =
      ((removed.foldl (fun acc p =>
        if (best_candidate added (fun nms => model_rename_score p.2 nms)).1 != ""
        then alistSet acc p.1
          (best_candidate added (fun nms => model_rename_score p.2 nms))
        else acc) []).foldl (pairStep
          (added.foldl (fun acc p =>
            if (best_candidate removed
                (fun oms => model_rename_score oms p.2)).1 != ""
            then alistSet acc p.1
              (best_candidate removed (fun oms => model_rename_score oms p.2))
            else acc) []))
        []).insertionSort pairKeyLe := rfl

theorem detect_model_renames_spec (removed added : List (String × ModelState))
    (R A : String) (Rms Ams : ModelState)
    (hrnd : (removed.map Prod.fst).Nodup) (hand : (added.map Prod.fst).Nodup)
    (hR : (R, Rms) ∈ removed) (hA : (A, Ams) ∈ added)
    (hRne : R ≠ "") (hAne : A ≠ "")
    (huniqA : ∀ p ∈ added, p.1 ≠ A →
      model_rename_score Rms p.2 < model_rename_score Rms Ams)
    (huniqR : ∀ p ∈ removed, p.1 ≠ R →
      model_rename_score p.2 Ams < model_rename_score Rms Ams)
    (hth : model_rename_threshold ≤ model_rename_score Rms Ams) :
    (detect_model_renames removed added).countP
        (fun pr => pr.1 == R && pr.2 == A) = 1 ∧
    (R, A) ∈ detect_model_renames removed added := by
  have hpos : 0 < model_rename_score Rms Ams := lt_of_lt_of_le (by decide) hth
  have hbA : best_candidate added (fun nms => model_rename_score Rms nms) =
      (A, model_rename_score Rms Ams) :=
    best_candidate_eq added _ A Ams hA hand hpos huniqA
  have hbR : best_candidate removed (fun oms => model_rename_score oms Ams) =
      (R, model_rename_score Rms Ams) :=
    best_candidate_eq removed _ R Rms hR hrnd hpos huniqR
  have hsideA : ((best_candidate added
      (fun nms => model_rename_score Rms nms)).1 != "") = true := by
    rw [hbA]
    simpa using hAne
  have hsideR : ((best_candidate removed
      (fun oms => model_rename_score oms Ams)).1 != "") = true := by
    rw [hbR]
    simpa using hRne
  have h3 : alistGet? (removed.foldl (fun acc p =>
      if (best_candidate added (fun nms => model_rename_score p.2 nms)).1 != ""
      then alistSet acc p.1
        (best_candidate added (fun nms => model_rename_score p.2 nms))
      else acc) []) R =
      some (best_candidate added (fun nms => model_rename_score Rms nms)) :=
    foldl_condSet_get
      (fun p => best_candidate added (fun nms => model_rename_score p.2 nms))
      removed [] R Rms hrnd hR hsideA
  rw [hbA] at h3
  have h4 : alistGet? (added.foldl (fun acc p =>
      if (best_candidate removed (fun oms => model_rename_score oms p.2)).1 != ""
      then alistSet acc p.1
        (best_candidate removed (fun oms => model_rename_score oms p.2))
      else acc) []) A =
      some (best_candidate removed (fun oms => model_rename_score oms Ams)) :=
    foldl_condSet_get
      (fun q => best_candidate removed (fun oms => model_rename_score oms q.2))
      added [] A Ams hand hA hsideR
  rw [hbR] at h4
  have hbfo_nd : ((removed.foldl (fun acc p =>
      if (best_candidate added (fun nms => model_rename_score p.2 nms)).1 != ""
      then alistSet acc p.1
        (best_candidate added (fun nms => model_rename_score p.2 nms))
      else acc) []).map Prod.fst).Nodup :=
    foldl_condSet_keys_nodup
      (fun p => best_candidate added (fun nms => model_rename_score p.2 nms))
      removed [] (by simp [alistKeys])
  have hbfo_mem : (R, (A, model_rename_score Rms Ams)) ∈
      removed.foldl (fun acc p =>
        if (best_candidate added (fun nms => model_rename_score p.2 nms)).1 != ""
        then alistSet acc p.1
          (best_candidate added (fun nms => model_rename_score p.2 nms))
        else acc) [] := alistGet?_mem h3
  rw [detect_decomp removed added]
  generalize hg1 : (added.foldl (fun acc p =>
      if (best_candidate removed (fun oms => model_rename_score oms p.2)).1 != ""
      then alistSet acc p.1
        (best_candidate removed (fun oms => model_rename_score oms p.2))
      else acc) [] : List (String × (String × ℚ))) = bfn at h4 ⊢
  generalize hg2 : (removed.foldl (fun acc p =>
      if (best_candidate added (fun nms => model_rename_score p.2 nms)).1 != ""
      then alistSet acc p.1
        (best_candidate added (fun nms => model_rename_score p.2 nms))
      else acc) [] : List (String × (String × ℚ))) = bfo at hbfo_nd hbfo_mem ⊢
  obtain ⟨hc, hm⟩ := pairStep_count bfn R A (model_rename_score Rms Ams) h4 hth
    bfo [] hbfo_nd hbfo_mem
  constructor
  · rw [countP_insertionSort, hc]
    rfl
  · exact (List.perm_insertionSort _ _).mem_iff.mpr hm

def isModelOp : Operation → Bool
  | .CreateModel _ _ _ => true
  | .RemoveModel _ _ => true
  | .RenameModel _ _ _ _ => true
  | _ => false

theorem not_model_op_rename (R A : String) (op : Operation)
    (h : isModelOp op = false) : isRenameModelFor R A op = false := by
  cases op <;> simp_all [isModelOp, isRenameModelFor]

theorem not_model_op_remove (R : String) (op : Operation)
    (h : isModelOp op = false) : isRemoveModelNamed R op = false := by
  cases op <;> simp_all [isModelOp, isRemoveModelNamed]

theorem not_model_op_create (A : String) (op : Operation)
    (h : isModelOp op = false) : isCreateModelNamed A op = false := by
  cases op <;> simp_all [isModelOp, isCreateModelNamed]

theorem rename_or_alter_not_model (mn dt p q : String) (pfs qfs : FieldState) :
    isModelOp (rename_or_alter_field_op mn dt p q pfs qfs) = false := by
  unfold rename_or_alter_field_op
  by_cases hse : same_except_name pfs qfs = true
  · rw [if_pos hse]
    rfl
  · rw [if_neg hse]
    rfl

theorem diff_model_fields_not_model_op (om nmod : ModelState) (mn : String)
    (mp : List (String × String)) :
    ∀ op ∈ diff_model_fields om nmod mn mp, isModelOp op = false := by
  intro op hop
  rw [diff_model_fields_decomp] at hop
  rcases List.mem_append.mp hop with hop | hop
  rcases List.mem_append.mp hop with hop | hop
  rcases List.mem_append.mp hop with hop | hop
  · obtain ⟨p, q, pfs, qfs, _, he⟩ := procRP_ops_old _ _ _ _ _ _ _ op hop
    rw [he]
    exact rename_or_alter_not_model _ _ _ _ _ _
  · obtain ⟨fname, _, c, he⟩ := fieldRemoveOps_mem _ _ _ _ op hop
    rw [he]
    rfl
  · obtain ⟨fname, _, hcase⟩ := fieldAddOps_mem _ _ _ _ op hop
    rcases hcase with he | ⟨fs, _, he⟩ <;> rw [he] <;> rfl
  · obtain ⟨fname, _, d1, d2, he⟩ := fieldAlterOps_mem _ _ _ _ op hop
    rw [he]
    rfl

theorem diff_model_indexes_not_model_op (om nmod : ModelState) :
    ∀ op ∈ diff_model_indexes om nmod, isModelOp op = false := by
  intro op hop
  simp only [diff_model_indexes] at hop
  rcases List.mem_append.mp hop with hop | hop
  · obtain ⟨e, _, he⟩ := List.mem_map.mp hop
    rw [← he]
    rfl
  · obtain ⟨e, _, he⟩ := List.mem_map.mp hop
    rw [← he]
    rfl

theorem commonOpsOf_not_model_op (f t : ProjectState)
    (rm : List (String × List (String × String))) :
    ∀ op ∈ commonOpsOf f t rm, isModelOp op = false := by
  intro op hop
  obtain ⟨nm, _, hin⟩ := List.mem_flatMap.mp hop
  cases h1 : alistGet? f.model_states nm with
  | none =>
      rw [h1] at hin
      simp at hin
  | some om =>
      cases h2 : alistGet? t.model_states nm with
      | none =>
          rw [h1, h2] at hin
          simp at hin
      | some tm =>
          rw [h1, h2] at hin
          have hin2 : op ∈ diff_model_fields om tm nm
              ((alistGet? rm nm).getD []) ++ diff_model_indexes om tm := hin
          rcases List.mem_append.mp hin2 with h3 | h3
          · exact diff_model_fields_not_model_op _ _ _ _ op h3
          · exact diff_model_indexes_not_model_op _ _ op h3

theorem renamedOpsOf_not_model_op (f t : ProjectState)
    (rm : List (String × List (String × String))) :
    ∀ op ∈ renamedOpsOf f t rm, isModelOp op = false := by
  intro op hop
  obtain ⟨pr, _, hin⟩ := List.mem_flatMap.mp hop
  cases h1 : alistGet? f.model_states pr.1 with
  | none =>
      rw [h1] at hin
      simp at hin
  | some om =>
      cases h2 : alistGet? t.model_states pr.2 with
      | none =>
          rw [h1, h2] at hin
          simp at hin
      | some tm =>
          rw [h1, h2] at hin
          have hin2 : op ∈ diff_model_fields om tm pr.2
              (if ((alistGet? rm pr.2).getD []).isEmpty then
                (alistGet? rm pr.1).getD []
              else (alistGet? rm pr.2).getD []) ++ diff_model_indexes om tm := hin
          rcases List.mem_append.mp hin2 with h3 | h3
          · exact diff_model_fields_not_model_op _ _ _ _ op h3
          · exact diff_model_indexes_not_model_op _ _ op h3

theorem alistPop_not_mem {α : Type} (l : List (String × α)) (k : String) :
    k ∉ alistKeys (alistPop l k) := by
  intro h
  obtain ⟨p, hp, he⟩ := List.mem_map.mp h
  have hf := List.of_mem_filter hp
  rw [he] at hf
  simp at hf

theorem popAll_not_mem {α : Type} (ks : List String) :
    ∀ (l : List (String × α)) (k : String), k ∈ ks →
      k ∉ alistKeys (popAll l ks) := by
  induction ks with
  | nil =>
      intro l k hk
      simp at hk
  | cons k2 ks ih =>
      intro l k hk
      rcases List.mem_cons.mp hk with heq | hmem
      · subst heq
        intro hin
        have hsub : (popAll (alistPop l k) ks).Sublist (alistPop l k) :=
          popAll_sublist ks _
        exact alistPop_not_mem l k
          ((List.Sublist.map Prod.fst hsub).subset hin)
      · exact ih (alistPop l k2) k hmem

theorem removeOpFor_shape (b : List (String × ModelState)) (nm : String) :
    ∃ db, removeOpFor b nm = Operation.RemoveModel nm db := by
  unfold removeOpFor
  cases alistGet? b nm
  · exact ⟨"", rfl⟩
  · exact ⟨_, rfl⟩

theorem from_model_state_shape (m : ModelState) :
    CreateModel.from_model_state m = Operation.CreateModel m.name m.db_table
      ((((m.field_states.map Prod.snd).filter
          (fun fs => is_schema_field_type fs.field_type)).insertionSort
        (fun f g => sortKeyLe (column_sort_key f) (column_sort_key g))).map
        (fun fs => (fs.name, fs.field_type, compact_opts_for_code fs.options))) :=
  rfl

theorem createOpsFor_mem (b : List (String × ModelState)) (nm : String)
    (op : Operation) (h : op ∈ createOpsFor b nm) :
    (∃ m, alistGet? b nm = some m ∧ op = CreateModel.from_model_state m) ∨
    (∃ mn dt cols u nm2, op = Operation.CreateIndex mn dt cols u nm2) := by
  unfold createOpsFor at h
  cases hg : alistGet? b nm with
  | none =>
      rw [hg] at h
      simp at h
  | some m =>
      rw [hg] at h
      have h2 : op ∈ CreateModel.from_model_state m ::
          (sortIndexes (model_indexes m)).map (fun e =>
            mkCreateIndex m.name m.db_table e.1 e.2) := h
      rcases List.mem_cons.mp h2 with he | hmem
      · exact Or.inl ⟨m, rfl, he⟩
      · obtain ⟨e, _, he⟩ := List.mem_map.mp hmem
        exact Or.inr ⟨m.name, m.db_table, e.1, e.2, _, he.symm⟩

/-- C4: whenever the added model `A` is removed model `R`'s unique
best-scoring rename candidate and vice versa, with the score at or above the
0.90 threshold, the diff emits exactly one `RenameModel R -> A`, no
`RemoveModel` for `R`, and no `CreateModel` for `A`. -/
theorem C4_model_rename_mutual_best (from_state to_state : ProjectState)
    (rename_map : List (String × List (String × String))) (ops : List Operation)
    (R A : String) (Rms Ams : ModelState)
    (hfrom : (alistKeys from_state.model_states).Nodup)
    (hto : (alistKeys to_state.model_states).Nodup)
    (hnames : ∀ p ∈ to_state.model_states, p.2.name = p.1)
    (hR : alistGet? (removed_models from_state to_state) R = some Rms)
    (hA : alistGet? (added_models from_state to_state) A = some Ams)
    (hRne : R ≠ "") (hAne : A ≠ "")
    (huniqA : ∀ p ∈ added_models from_state to_state, p.1 ≠ A →
      model_rename_score Rms p.2 < model_rename_score Rms Ams)
    (huniqR : ∀ p ∈ removed_models from_state to_state, p.1 ≠ R →
      model_rename_score p.2 Ams < model_rename_score Rms Ams)
    (hth : model_rename_threshold ≤ model_rename_score Rms Ams)
    (h : diff_states from_state to_state rename_map = .ok ops) :
    ops.countP (isRenameModelFor R A) = 1 ∧
    ops.countP (isRemoveModelNamed R) = 0 ∧
    ops.countP (isCreateModelNamed A) = 0 := by
  have hrnd : ((removed_models from_state to_state).map Prod.fst).Nodup :=
    List.Nodup.sublist (List.Sublist.map _ (List.filter_sublist _)) hfrom
  have hand : ((added_models from_state to_state).map Prod.fst).Nodup :=
    List.Nodup.sublist (List.Sublist.map _ (List.filter_sublist _)) hto
  obtain ⟨hcnt1, hpairmem⟩ := detect_model_renames_spec
    (removed_models from_state to_state) (added_models from_state to_state)
    R A Rms Ams hrnd hand (alistGet?_mem hR) (alistGet?_mem hA) hRne hAne
    huniqA huniqR hth
  cases hrem : toposort_models_by_fk (removed_batch from_state to_state) with
  | error e =>
      rw [diff_states_removed_err from_state to_state rename_map e hrem] at h
      exact absurd h (by simp)
  | ok oR =>
  cases hadd : toposort_models_by_fk (added_batch from_state to_state) with
  | error e =>
      rw [diff_states_added_err from_state to_state rename_map oR e hrem hadd] at h
      exact absurd h (by simp)
  | ok oA =>
  have hrun := diff_states_run from_state to_state rename_map oR oA hrem hadd
  rw [hrun] at h
  have hops := (Except.ok.inj h).symm
  obtain ⟨hpermR, _⟩ := toposort_ok_spec (removed_batch from_state to_state)
    (removed_batch_keys_nodup from_state to_state hfrom) oR hrem
  obtain ⟨hpermA2, _⟩ := toposort_ok_spec (added_batch from_state to_state)
    (added_batch_keys_nodup from_state to_state hto) oA hadd
  have hRnotB : R ∉ alistKeys (removed_batch from_state to_state) :=
    popAll_not_mem _ _ R (List.mem_map.mpr ⟨(R, A), hpairmem, rfl⟩)
  have hAnotB : A ∉ alistKeys (added_batch from_state to_state) :=
    popAll_not_mem _ _ A (List.mem_map.mpr ⟨(R, A), hpairmem, rfl⟩)
  have hrn1 : (renameOpsOf from_state to_state).countP
      (isRenameModelFor R A) = 1 := by
    unfold renameOpsOf
    rw [List.countP_map]
    rw [List.countP_congr ?_]
    · exact hcnt1
    · intro pr _
      simp only [Function.comp]
      cases h1 : alistGet? (removed_models from_state to_state) pr.1 <;>
        cases h2 : alistGet? (added_models from_state to_state) pr.2 <;>
        simp [h1, h2, isRenameModelFor]
  have hrn2 : (renameOpsOf from_state to_state).countP
      (isRemoveModelNamed R) = 0 := by
    rw [List.countP_eq_zero]
    intro op hop
    unfold renameOpsOf at hop
    obtain ⟨pr, _, he⟩ := List.mem_map.mp hop
    rw [← he]
    cases h1 : alistGet? (removed_models from_state to_state) pr.1 <;>
      cases h2 : alistGet? (added_models from_state to_state) pr.2 <;>
      simp [h1, h2, isRemoveModelNamed]
  have hrn3 : (renameOpsOf from_state to_state).countP
      (isCreateModelNamed A) = 0 := by
    rw [List.countP_eq_zero]
    intro op hop
    unfold renameOpsOf at hop
    obtain ⟨pr, _, he⟩ := List.mem_map.mp hop
    rw [← he]
    cases h1 : alistGet? (removed_models from_state to_state) pr.1 <;>
      cases h2 : alistGet? (added_models from_state to_state) pr.2 <;>
      simp [h1, h2, isCreateModelNamed]
  have hrm1 : (oR.reverse.map
      (removeOpFor (removed_batch from_state to_state))).countP
      (isRenameModelFor R A) = 0 := by
    rw [List.countP_eq_zero]
    intro op hop
    obtain ⟨nm, _, he⟩ := List.mem_map.mp hop
    obtain ⟨db, hshape⟩ := removeOpFor_shape (removed_batch from_state to_state) nm
    rw [← he, hshape]
    simp [isRenameModelFor]
  have hrm2 : (oR.reverse.map
      (removeOpFor (removed_batch from_state to_state))).countP
      (isRemoveModelNamed R) = 0 := by
    rw [List.countP_eq_zero]
    intro op hop
    obtain ⟨nm, hnm, he⟩ := List.mem_map.mp hop
    obtain ⟨db, hshape⟩ := removeOpFor_shape (removed_batch from_state to_state) nm
    have hkm : nm ∈ alistKeys (removed_batch from_state to_state) :=
      hpermR.mem_iff.mp (List.mem_reverse.mp hnm)
    have hne : nm ≠ R := fun heq => hRnotB (heq ▸ hkm)
    rw [← he, hshape]
    simp [isRemoveModelNamed, hne]
  have hrm3 : (oR.reverse.map
      (removeOpFor (removed_batch from_state to_state))).countP
      (isCreateModelNamed A) = 0 := by
    rw [List.countP_eq_zero]
    intro op hop
    obtain ⟨nm, _, he⟩ := List.mem_map.mp hop
    obtain ⟨db, hshape⟩ := removeOpFor_shape (removed_batch from_state to_state) nm
    rw [← he, hshape]
    simp [isCreateModelNamed]
  have hcr1 : (oA.flatMap
      (createOpsFor (added_batch from_state to_state))).countP
      (isRenameModelFor R A) = 0 := by
    rw [List.countP_eq_zero]
    intro op hop
    obtain ⟨nm, _, hin⟩ := List.mem_flatMap.mp hop
    rcases createOpsFor_mem _ _ op hin with ⟨m, _, he⟩ | ⟨mn, dt, cols, u, nm2, he⟩
    · rw [he, from_model_state_shape]
      simp [isRenameModelFor]
    · rw [he]
      simp [isRenameModelFor]
  have hcr2 : (oA.flatMap
      (createOpsFor (added_batch from_state to_state))).countP
      (isRemoveModelNamed R) = 0 := by
    rw [List.countP_eq_zero]
    intro op hop
    obtain ⟨nm, _, hin⟩ := List.mem_flatMap.mp hop
    rcases createOpsFor_mem _ _ op hin with ⟨m, _, he⟩ | ⟨mn, dt, cols, u, nm2, he⟩
    · rw [he, from_model_state_shape]
      simp [isRemoveModelNamed]
    · rw [he]
      simp [isRemoveModelNamed]
  have hcr3 : (oA.flatMap
      (createOpsFor (added_batch from_state to_state))).countP
      (isCreateModelNamed A) = 0 := by
    rw [List.countP_eq_zero]
    intro op hop
    obtain ⟨nm, hnm, hin⟩ := List.mem_flatMap.mp hop
    rcases createOpsFor_mem _ _ op hin with ⟨m, hg, he⟩ | ⟨mn, dt, cols, u, nm2, he⟩
    · have hmname : m.name = nm :=
        hnames (nm, m) (List.Sublist.subset
          (added_batch_sublist from_state to_state) (alistGet?_mem hg))
      have hkm : nm ∈ alistKeys (added_batch from_state to_state) :=
        hpermA2.mem_iff.mp hnm
      have hne : nm ≠ A := fun heq => hAnotB (heq ▸ hkm)
      rw [he, from_model_state_shape, hmname]
      simp [isCreateModelNamed, hne]
    · rw [he]
      simp [isCreateModelNamed]
  have hcm1 : (commonOpsOf from_state to_state rename_map).countP
      (isRenameModelFor R A) = 0 :=
    List.countP_eq_zero.mpr (fun op hop => by
      simp [not_model_op_rename R A op (commonOpsOf_not_model_op _ _ _ op hop)])
  have hcm2 : (commonOpsOf from_state to_state rename_map).countP
      (isRemoveModelNamed R) = 0 :=
    List.countP_eq_zero.mpr (fun op hop => by
      simp [not_model_op_remove R op (commonOpsOf_not_model_op _ _ _ op hop)])
  have hcm3 : (commonOpsOf from_state to_state rename_map).countP
      (isCreateModelNamed A) = 0 :=
    List.countP_eq_zero.mpr (fun op hop => by
      simp [not_model_op_create A op (commonOpsOf_not_model_op _ _ _ op hop)])
  have hrd1 : (renamedOpsOf from_state to_state rename_map).countP
      (isRenameModelFor R A) = 0 :=
    List.countP_eq_zero.mpr (fun op hop => by
      simp [not_model_op_rename R A op (renamedOpsOf_not_model_op _ _ _ op hop)])
  have hrd2 : (renamedOpsOf from_state to_state rename_map).countP
      (isRemoveModelNamed R) = 0 :=
    List.countP_eq_zero.mpr (fun op hop => by
      simp [not_model_op_remove R op (renamedOpsOf_not_model_op _ _ _ op hop)])
  have hrd3 : (renamedOpsOf from_state to_state rename_map).countP
      (isCreateModelNamed A) = 0 :=
    List.countP_eq_zero.mpr (fun op hop => by
      simp [not_model_op_create A op (renamedOpsOf_not_model_op _ _ _ op hop)])
  refine ⟨?_, ?_, ?_⟩
  · rw [hops, List.countP_append, List.countP_append, List.countP_append,
      List.countP_append, hrn1, hrm1, hcr1, hcm1, hrd1]
  · rw [hops, List.countP_append, List.countP_append, List.countP_append,
      List.countP_append, hrn2, hrm2, hcr2, hcm2, hrd2]
  · rw [hops, List.countP_append, List.countP_append, List.countP_append,
      List.countP_append, hrn3, hrm3, hcr3, hcm3, hrd3]

/-- The one-model rename scenario used as the C4 witness. -/
def exC4Fs : FieldState :=
  { name := "title", field_type := "CharField", max_length := vInt 50 }

def exC4From : ProjectState := ⟨[("Old", ⟨"Old", "t", [("title", exC4Fs)], none⟩)]⟩

def exC4To : ProjectState := ⟨[("New", ⟨"New", "t", [("title", exC4Fs)], none⟩)]⟩

/-- C4 witness: a removed `Old` and added `New` with identical fields and the
same table are mutual best matches with score 1; the diff is exactly one
`RenameModel` and no `RemoveModel Old`/`CreateModel New`. -/
theorem C4_model_rename_mutual_best_witness :
    [Operation.RenameModel "Old" "New" "t" "t"].countP
        (isRenameModelFor "Old" "New") = 1 ∧
    [Operation.RenameModel "Old" "New" "t" "t"].countP
        (isRemoveModelNamed "Old") = 0 ∧
    [Operation.RenameModel "Old" "New" "t" "t"].countP
        (isCreateModelNamed "New") = 0 :=
  C4_model_rename_mutual_best exC4From exC4To []
    [Operation.RenameModel "Old" "New" "t" "t"] "Old" "New"
    ⟨"Old", "t", [("title", exC4Fs)], none⟩ ⟨"New", "t", [("title", exC4Fs)], none⟩
    (by decide) (by decide) (by decide) (by decide) (by decide) (by decide)
    (by decide) (by decide) (by decide) (by decide) (by decide)

/-- C8 witness: idempotence at a concrete state. -/
theorem C8_diff_idempotent_witness :
    diff_states exC4From exC4From [] = .ok [] :=
  C8_diff_idempotent exC4From

/-! ## C10 — RenameModel.mutate_state frame property -/

/-- Erase the two denormalized FK labels, to express "all other attributes". -/
def eraseFkLabels (fs : FieldState) : FieldState :=
  { fs with related_table := vNone, related_model := vNone }

/-- Field maps equal on keys and on every attribute except the FK labels. -/
def nonFkEq (l l' : List (String × FieldState)) : Prop :=
  l.map (fun q => (q.1, eraseFkLabels q.2)) = l'.map (fun q => (q.1, eraseFkLabels q.2))

theorem eraseFkLabels_rewrite (old_name new_name old_db_table new_db_table : String)
    (fs : FieldState) :
    eraseFkLabels (rewriteFkLabels old_name new_name old_db_table new_db_table fs) =
      eraseFkLabels fs := by
  unfold rewriteFkLabels eraseFkLabels
  by_cases h1 : fs.related_table == vStr old_db_table <;>
    by_cases h2 : fs.related_model == vStr old_name <;>
      simp [h1, h2]

theorem nonFkEq_map_rewrite (old_name new_name old_db_table new_db_table : String)
    (l : List (String × FieldState)) :
    nonFkEq l (l.map (fun q =>
      (q.1, rewriteFkLabels old_name new_name old_db_table new_db_table q.2))) := by
  unfold nonFkEq
  rw [List.map_map]
  refine List.map_congr_left (fun q _ => ?_)
  simp [eraseFkLabels_rewrite]

/-- C10: `RenameModel.mutate_state` rebuilds the renamed model from only the
new name, the new table and the carried-over `field_states` — its `meta`
(table-level index declarations included) is dropped — while the key set and
every non-FK-label attribute of its fields survive, and every other model
keeps its name, table, meta and all non-FK-label field attributes. -/
theorem C10_rename_model_frame (st : ProjectState)
    (old_name new_name old_db_table new_db_table : String) (ms : ModelState)
    (hms : alistGet? st.model_states old_name = some ms) :
    ∃ st',
      (Operation.RenameModel old_name new_name old_db_table
        new_db_table).mutate_state st = some st' ∧
      (∃ ms', alistGet? st'.model_states new_name = some ms' ∧
        ms'.name = new_name ∧ ms'.db_table = new_db_table ∧ ms'.meta = none ∧
        nonFkEq ms.field_states ms'.field_states) ∧
      (∀ k, k ≠ old_name → k ≠ new_name →
        match alistGet? st.model_states k, alistGet? st'.model_states k with
        | some m, some m' =>
            m'.name = m.name ∧ m'.db_table = m.db_table ∧ m'.meta = m.meta ∧
              nonFkEq m.field_states m'.field_states
        | none, none => True
        | _, _ => False) := by
  classical
  let G : ModelState → ModelState := fun m =>
    { m with field_states := m.field_states.map (fun q : String × FieldState =>
        (q.1, rewriteFkLabels old_name new_name old_db_table new_db_table q.2)) }
  let inner : List (String × ModelState) :=
    alistSet (alistPop st.model_states old_name) new_name
      (⟨new_name, new_db_table, ms.field_states, none⟩ : ModelState)
  have hmut : (Operation.RenameModel old_name new_name old_db_table
      new_db_table).mutate_state st =
      some ⟨inner.map (fun p => (p.1, G p.2))⟩ := by
    simp [Operation.mutate_state, hms, bind, G, inner]
  refine ⟨⟨inner.map (fun p => (p.1, G p.2))⟩, hmut, ?_, ?_⟩
  · -- the renamed model itself
    have hget : alistGet? (inner.map (fun p => (p.1, G p.2))) new_name =
        some (G (⟨new_name, new_db_table, ms.field_states, none⟩ : ModelState)) := by
      rw [alistGet?_map_value]
      rw [show alistGet? inner new_name =
        some (⟨new_name, new_db_table, ms.field_states, none⟩ : ModelState) from
        alistGet?_set_self _ _ _]
      rfl
    exact ⟨_, hget, rfl, rfl, rfl,
      nonFkEq_map_rewrite old_name new_name old_db_table new_db_table ms.field_states⟩
  · -- every other model
    intro k hko hkn
    have h1 : alistGet? inner k = alistGet? st.model_states k := by
      show alistGet? (alistSet (alistPop st.model_states old_name) new_name (⟨new_name, new_db_table, ms.field_states, none⟩ : ModelState)) k = _
      rw [alistGet?_set_ne _ _ _ _ hkn, alistGet?_pop_ne _ _ _ hko]
    have hget : alistGet? (inner.map (fun p => (p.1, G p.2))) k =
        (alistGet? st.model_states k).map G := by
      rw [alistGet?_map_value, h1]
    show (match alistGet? st.model_states k,
        alistGet? (inner.map (fun p => (p.1, G p.2))) k with
      | some m, some m' =>
          m'.name = m.name ∧ m'.db_table = m.db_table ∧ m'.meta = m.meta ∧
            nonFkEq m.field_states m'.field_states
      | none, none => True
      | _, _ => False)
    cases hst : alistGet? st.model_states k with
    | none =>
        rw [hst] at hget
        simp only [Option.map_none'] at hget
        rw [hget]
        trivial
    | some m =>
        rw [hst] at hget
        simp only [Option.map_some'] at hget
        rw [hget]
        exact ⟨rfl, rfl, rfl,
          nonFkEq_map_rewrite old_name new_name old_db_table new_db_table m.field_states⟩

/-- An integer primary-key field, used by the concrete examples. -/
def exPkField : FieldState :=
  { name := "id", field_type := "IntField", primary_key := vBool true }

/-- An FK field pointing at table `author`, used by the concrete examples. -/
def exAuthorFk : FieldState :=
  { name := "author", field_type := "ForeignKeyFieldInstance", related_table := vStr "author" }

/-- `Author` (with a table-level index declaration) plus a `Book` model whose
FK references it. -/
def exAuthorBooks : ProjectState :=
  ⟨[("Author", ⟨"Author", "author", [("id", exPkField)], some [(["id"], false)]⟩),
    ("Book", ⟨"Book", "book", [("author", exAuthorFk)], none⟩)]⟩

/-- C10 witness: a concrete two-model state — the renamed model carries a
table-level index declaration (dropped by the rename) and the other model FK-
references it. -/
theorem C10_rename_model_frame_witness :
    ∃ st',
      (Operation.RenameModel "Author" "Writer" "author"
        "writer").mutate_state exAuthorBooks = some st' ∧
      (∃ ms', alistGet? st'.model_states "Writer" = some ms' ∧
        ms'.name = "Writer" ∧ ms'.db_table = "writer" ∧ ms'.meta = none ∧
        nonFkEq [("id", exPkField)] ms'.field_states) ∧
      (∀ k, k ≠ "Author" → k ≠ "Writer" →
        match alistGet? exAuthorBooks.model_states k,
          alistGet? st'.model_states k with
        | some m, some m' =>
            m'.name = m.name ∧ m'.db_table = m.db_table ∧ m'.meta = m.meta ∧
              nonFkEq m.field_states m'.field_states
        | none, none => True
        | _, _ => False) :=
  C10_rename_model_frame exAuthorBooks "Author" "Writer" "author" "writer"
    ⟨"Author", "author", [("id", exPkField)], some [(["id"], false)]⟩ (by rfl)

end TortoiseMarch
